import Mathlib

/-!
# Resume / job mapper front end: the derivation rules of the page views

A shallow embedding of the client-side logic of the repository
(`frontend/src/pages/Results.js`, `Admin.js`, `UploadResume.js`, `App.js`).

Modelling conventions.

* A number that arrives in a JSON response is a finite number, a double; it is modelled
  as the rational (`ℚ`) it is equal to.  Comparisons (`>=`, `Math.max`) are exact on
  such values.  The double written by a decimal text is `roundDouble` of its value.
* A product (`jsMul`, hence every rendered percentage) and the quotient of a bar width
  are rounded to double precision (`roundDouble`); a theorem about a rendered value
  quantifies over all rationals, the doubles among them.
* The average score has two models: `avgScore`, with the sum and the quotient exact,
  states the averaging rule; `avgScoreDouble` rounds every `+` and the `/` to double
  precision and is within `(n + 1) / 2^53` of `avgScore` for `n` scores in [0,1].
* A number *computed* by the page can also be `Infinity`, `-Infinity` or `NaN`;
  such results have type `JSNum`.  Negative zero is not distinguished from zero.
* An optional property (`undefined` or `null`) is an `Option`; `a?.b` is `Option.bind`.
* An asynchronous handler is a function of the state it starts from and of the
  outcome of the requests it awaits; it returns the final state together with the
  ordered list of effects it performed.
* A view whose requests can complete in any order is a step function on a state that
  holds the requests in flight; its behaviour is stated over all sequences of events.
* `JSON.stringify` and `JSON.parse` are modelled on lists of characters.  The text of a
  number is produced by floating-point code of the platform and is a parameter
  (`NumberFormat`).  An object is the list of its own properties in enumeration order.
-/

namespace ResumeMapper

/-! ## JavaScript numbers -/

/-- A JavaScript number value: a finite number, an infinity, or NaN. -/
inductive JSNum where
  | fin (q : ℚ)
  | posInf
  | negInf
  | nan
  deriving DecidableEq

namespace JSNum

/-- ToBoolean on a number: `0` and `NaN` are falsy, everything else (the infinities
included) is truthy. -/
def truthy : JSNum → Bool
  | fin q => q != 0
  | posInf => true
  | negInf => true
  | nan => false

end JSNum

/-- The expression `x || d` for a number `x`. -/
def jsOrNum (x d : JSNum) : JSNum :=
  if x.truthy then x else d

/-- The comparison `x >= y` on numbers (false as soon as an operand is NaN). -/
def jsGe : JSNum → JSNum → Bool
  | .nan, _ => false
  | _, .nan => false
  | .posInf, _ => true
  | _, .negInf => true
  | .fin a, .fin b => decide (b ≤ a)
  | .fin _, .posInf => false
  | .negInf, _ => false

/-- The larger of two numbers, as `Math.max` combines its arguments. -/
def jsMax2 : JSNum → JSNum → JSNum
  | .nan, _ => .nan
  | _, .nan => .nan
  | .posInf, _ => .posInf
  | _, .posInf => .posInf
  | .negInf, y => y
  | x, .negInf => x
  | .fin a, .fin b => .fin (max a b)

/-- `Math.max(...args)`: the largest argument, `-Infinity` when there is none. -/
def mathMax (args : List JSNum) : JSNum :=
  args.foldl jsMax2 .negInf

/-! ### Double precision

An arithmetic operation on finite numbers gives what IEEE 754 prescribes for binary64:
the exact result, rounded to the nearest double, a tie going to the even significand. -/

/-- The nearest integer, a tie going to the even one. -/
def roundHalfEven (y : ℚ) : ℤ :=
  if y - ⌊y⌋ < 1 / 2 then ⌊y⌋
  else if 1 / 2 < y - ⌊y⌋ then ⌊y⌋ + 1
  else if ⌊y⌋ % 2 = 0 then ⌊y⌋
  else ⌊y⌋ + 1

/-- The double nearest to a rational number: for `2^e <= |x| < 2^(e+1)` the nearest
multiple of `2^(e-52)`, with the spacing of the subnormal numbers below `2^(-1022)` and
an infinity from `2^1024` on. -/
def roundDouble (x : ℚ) : JSNum :=
  if x = 0 then .fin 0
  else
    let e : ℤ := max (Int.log 2 |x|) (-1022)
    let ulp : ℚ := 2 ^ (e - 52)
    let r : ℚ := roundHalfEven (x / ulp) * ulp
    if (2 : ℚ) ^ (1024 : ℤ) ≤ |r| then (if 0 < x then .posInf else .negInf) else .fin r

/-- The product `x * y`, rounded to double precision. -/
def jsMul : JSNum → JSNum → JSNum
  | .nan, _ => .nan
  | _, .nan => .nan
  | .fin a, .fin b => roundDouble (a * b)
  | .fin a, .posInf => if 0 < a then .posInf else if a < 0 then .negInf else .nan
  | .fin a, .negInf => if 0 < a then .negInf else if a < 0 then .posInf else .nan
  | .posInf, .fin b => if 0 < b then .posInf else if b < 0 then .negInf else .nan
  | .negInf, .fin b => if 0 < b then .negInf else if b < 0 then .posInf else .nan
  | .posInf, .posInf => .posInf
  | .negInf, .negInf => .posInf
  | .posInf, .negInf => .negInf
  | .negInf, .posInf => .negInf

/-- The quotient `a / b` of two finite numbers, taken exactly (`doubleDiv` rounds it); a
zero divisor gives an infinity or NaN. -/
def jsDiv (a b : ℚ) : JSNum :=
  if b ≠ 0 then .fin (a / b)
  else if 0 < a then .posInf
  else if a < 0 then .negInf
  else .nan

/-- `Math.round(x)`: the nearest integer, a tie going towards `+Infinity`. -/
def mathRound : JSNum → JSNum
  | .fin q => .fin (Rat.floor (q + 1 / 2))
  | .posInf => .posInf
  | .negInf => .negInf
  | .nan => .nan

/-- Number-to-string conversion as a template literal performs it, for the values whose
text is determined without a floating-point expansion: integers below `10^21` in
absolute value, the infinities and NaN.  Other values give `none`. -/
def jsNumberToString : JSNum → Option String
  | .fin q =>
      if q.den = 1 ∧ q.num.natAbs < 10 ^ 21 then some (toString q.num) else none
  | .posInf => some "Infinity"
  | .negInf => some "-Infinity"
  | .nan => some "NaN"

/-- The expression `s || d` for an optional string: an absent or empty string is falsy. -/
def jsOrStr (s : Option String) (d : String) : String :=
  match s with
  | some v => if v = "" then d else v
  | none => d

/-- The expression `x || 0` for an optional JSON number. -/
def jsOrZero (x : Option ℚ) : ℚ :=
  match x with
  | some v => if v = 0 then 0 else v
  | none => 0

/-! ## Data model -/

/-- The evaluation result of a resume, every property optional as in the JSON document. -/
structure EvaluationResult where
  finalScore : Option ℚ
  bestModelName : Option String
  skillMatchRatio : Option ℚ
  experienceMatchRatio : Option ℚ
  educationMatchRatio : Option ℚ
  similarityScores : Option (List (String × ℚ))
  matchedSkills : Option (List String)
  missingSkills : Option (List String)
  recommendation : Option String
  deriving DecidableEq

/-- The structured extraction of a resume. -/
structure ParsedEntities where
  skills : Option (List String)
  experienceYears : Option ℚ
  deriving DecidableEq

/-- A resume record as returned by `GET /api/resumes` and `GET /api/resumes/:id`. -/
structure Resume where
  id : String
  fileName : String
  domain : Option String
  createdAt : String
  parsedEntities : Option ParsedEntities
  evaluationResult : Option EvaluationResult
  deriving DecidableEq

/-- An evaluation result with no property set. -/
def EvaluationResult.empty : EvaluationResult :=
  ⟨none, none, none, none, none, none, none, none, none⟩

/-! ## Results view (`Results.js`) -/

/-- `Object.values(o)` for a mapping kept as its list of own entries. -/
def objectValues (o : List (String × ℚ)) : List ℚ :=
  o.map Prod.snd

/-- The expression `Math.max(...Object.values(evaluation?.similarityScores || {})) || 0`
of the Text Similarity block. -/
def maxSimilarity (evaluation : Option EvaluationResult) : JSNum :=
  jsOrNum
    (mathMax ((objectValues ((evaluation.bind (·.similarityScores)).getD [])).map JSNum.fin))
    (.fin 0)

/-- The text of the Text Similarity percentage:
`Math.round(maxSimilarity * 100)` followed by `%`. -/
def textSimilarityLabel (evaluation : Option EvaluationResult) : Option String :=
  (jsNumberToString (mathRound (jsMul (maxSimilarity evaluation) (.fin 100)))).map (· ++ "%")

/-- The `width` style of the Text Similarity bar: `maxSimilarity * 100` followed by `%`. -/
def textSimilarityWidth (evaluation : Option EvaluationResult) : Option String :=
  (jsNumberToString (jsMul (maxSimilarity evaluation) (.fin 100))).map (· ++ "%")

/-- The function `getScoreColor` of the results view. -/
def getScoreColor (score : JSNum) : String :=
  if jsGe score (.fin 0.8) then "text-success-600"
  else if jsGe score (.fin 0.6) then "text-warning-600"
  else "text-danger-600"

/-- The function `getScoreBgColor` of the results view. -/
def getScoreBgColor (score : JSNum) : String :=
  if jsGe score (.fin 0.8) then "bg-success-100"
  else if jsGe score (.fin 0.6) then "bg-warning-100"
  else "bg-danger-100"

/-- The function `getRecommendationColor` of the results view. -/
def getRecommendationColor (recommendation : String) : String :=
  match recommendation with
  | "Strong Match" => "bg-success-100 text-success-800 border-success-200"
  | "Good Match" => "bg-warning-100 text-warning-800 border-warning-200"
  | "Weak Match" => "bg-danger-100 text-danger-800 border-danger-200"
  | _ => "bg-gray-100 text-gray-800 border-gray-200"

/-- The text of the recommendation badge: `evaluation?.recommendation || 'Unknown'`. -/
def recommendationText (evaluation : Option EvaluationResult) : String :=
  jsOrStr (evaluation.bind (·.recommendation)) "Unknown"

/-- The style of the recommendation badge:
`getRecommendationColor(evaluation?.recommendation || 'Unknown')`. -/
def recommendationBadge (evaluation : Option EvaluationResult) : String :=
  getRecommendationColor (recommendationText evaluation)

/-! ## Effects of the event handlers -/

/-- The file object held by the upload form. -/
structure UploadFile where
  name : String
  size : Nat
  deriving DecidableEq

/-- A value appended to a `FormData`. -/
inductive FormValue where
  | file (f : UploadFile)
  | text (s : String)
  deriving DecidableEq

/-- The externally visible actions of the handlers, in the order they are performed. -/
inductive Effect where
  | preventDefault
  | httpGet (url : String)
  | httpPost (url : String) (formData : List (String × FormValue))
      (headers : List (String × String))
  | toastSuccess (message : String)
  | toastError (message : String)
  | consoleError (message : String)
  | navigate (path : String)
  deriving DecidableEq

/-! ## Admin view (`Admin.js`) -/

/-- A job posting as returned by `GET /api/jobs`. -/
structure Job where
  domain : String
  title : String
  company : String
  location : String
  jobText : String
  requiredSkills : List String
  createdAt : String
  deriving DecidableEq

/-- A value stored under a label by the domain reducer: a count, or the non-numeric
value (a string) that `+ 1` produces from a value that is not a number. -/
inductive JSCount where
  | number (n : Nat)
  | nonNumeric
  deriving DecidableEq

/-- The own properties of the accumulator object, in insertion order (JavaScript
enumerates array-index names first; the theorems read the object by name only). -/
abbrev CountObject := List (String × JSCount)

/-- The property names every object literal inherits from `Object.prototype`. -/
def objectPrototypeNames : List String :=
  ["constructor", "__proto__", "__defineGetter__", "__defineSetter__",
   "__lookupGetter__", "__lookupSetter__", "hasOwnProperty", "isPrototypeOf",
   "propertyIsEnumerable", "toLocaleString", "toString", "valueOf"]

/-- The read `acc[key]`: the own property if there is one, else the inherited member
(a function or object, not a number) if the name is inherited, else `undefined`. -/
def getCount (acc : CountObject) (key : String) : Option JSCount :=
  match acc.lookup key with
  | some v => some v
  | none => if key ∈ objectPrototypeNames then some .nonNumeric else none

/-- The expression `(v || 0) + 1` applied to what `acc[key]` read. -/
def incrementCount : Option JSCount → JSCount
  | none => .number 1
  | some (.number n) => .number (n + 1)
  | some .nonNumeric => .nonNumeric

/-- The write `acc[key] = v` of a primitive value: it replaces or appends the own
property; under the name `__proto__` it reaches the inherited setter, which ignores
a primitive. -/
def setCount (acc : CountObject) (key : String) (v : JSCount) : CountObject :=
  if key = "__proto__" then acc
  else if (acc.lookup key).isSome then
    acc.map (fun p => if p.1 = key then (p.1, v) else p)
  else acc ++ [(key, v)]

/-- The label a resume is counted under: `resume.domain || 'Unknown'`. -/
def domainLabel (resume : Resume) : String :=
  jsOrStr resume.domain "Unknown"

/-- The domain reducer of `fetchData`, started from `{}`. -/
def domainDistribution (data : List Resume) : CountObject :=
  data.foldl
    (fun acc resume =>
      let domain := domainLabel resume
      setCount acc domain (incrementCount (getCount acc domain)))
    []

/-- The score reducer of `fetchData`:
`data.reduce((sum, resume) => sum + (resume.evaluationResult?.finalScore || 0), 0)`. -/
def scoreSum (data : List Resume) : ℚ :=
  data.foldl
    (fun sum resume => sum + jsOrZero (resume.evaluationResult.bind (·.finalScore)))
    0

/-- The `avgScore` expression of `fetchData`, together with the divisions it evaluates
(dividend and divisor of each, in order). -/
def avgScoreEval (data : List Resume) : JSNum × List (ℚ × ℚ) :=
  let totalResumes := data.length
  if totalResumes > 0 then
    (jsDiv (scoreSum data) totalResumes, [(scoreSum data, (totalResumes : ℚ))])
  else
    (.fin 0, [])

/-- The value of `avgScore`. -/
def avgScore (data : List Resume) : JSNum :=
  (avgScoreEval data).1

/-- The `stats` state of the admin view. -/
structure Stats where
  totalResumes : Nat
  totalJobs : Nat
  avgScore : JSNum
  domainDistribution : CountObject
  deriving DecidableEq

/-- The state of the admin view. -/
structure AdminState where
  resumes : List Resume
  jobs : List Job
  loading : Bool
  stats : Stats
  deriving DecidableEq

/-- The initial state of the admin view. -/
def AdminState.initial : AdminState :=
  { resumes := [], jobs := [], loading := true,
    stats := { totalResumes := 0, totalJobs := 0, avgScore := .fin 0,
               domainDistribution := [] } }

/-- The statistics `fetchData` computes from the two response bodies. -/
def computeStats (resumesData : List Resume) (jobsData : List Job) : Stats :=
  { totalResumes := resumesData.length
    totalJobs := jobsData.length
    avgScore := avgScore resumesData
    domainDistribution := domainDistribution resumesData }

/-- The handler `fetchData`.  `resumesResponse` and `jobsResponse` are the bodies of the
two requests, `none` for a request that fails.  Both requests are issued before either
is awaited; `Promise.all` rejects as soon as one of them does. -/
def fetchData (s : AdminState) (resumesResponse : Option (List Resume))
    (jobsResponse : Option (List Job)) : AdminState × List Effect :=
  let requests := [Effect.httpGet "/api/resumes", Effect.httpGet "/api/jobs"]
  match resumesResponse, jobsResponse with
  | some resumesData, some jobsData =>
      ({ resumes := resumesData, jobs := jobsData, loading := false,
         stats := computeStats resumesData jobsData }, requests)
  | _, _ =>
      ({ s with loading := false },
       requests ++ [Effect.consoleError "Error fetching data:",
                    Effect.toastError "Failed to load admin data"])

/-! ## Upload view (`UploadResume.js`) and the route table (`App.js`) -/

/-- The WhiteSpace and LineTerminator code points, which `String.prototype.trim` removes. -/
def jsIsWhiteSpace (c : Char) : Bool :=
  c.val ∈ [0x09, 0x0A, 0x0B, 0x0C, 0x0D, 0x20, 0xA0, 0x1680, 0x2028, 0x2029, 0x202F,
    0x205F, 0x3000, 0xFEFF] || (0x2000 ≤ c.val && c.val ≤ 0x200A)

/-- `String.prototype.trim`. -/
def jsTrim (s : String) : String :=
  String.mk (((s.data.dropWhile jsIsWhiteSpace).reverse.dropWhile jsIsWhiteSpace).reverse)

/-- The state of the upload form. -/
structure UploadState where
  file : Option UploadFile
  jobText : String
  domain : String
  isUploading : Bool
  deriving DecidableEq

/-- The initial state of the upload form. -/
def UploadState.initial : UploadState :=
  { file := none, jobText := "", domain := "Fullstack", isUploading := false }

/-- The body of a response to `POST /api/uploadResume`. -/
structure UploadResponseData where
  id : Option String
  deriving DecidableEq

/-- The outcome of the upload request: a response (whose body may be missing) or a
failure. -/
inductive PostOutcome where
  | resolved (data : Option UploadResponseData)
  | rejected
  deriving DecidableEq

/-- The text a template literal gives for `response.data.id`. -/
def idText : Option String → String
  | some id => id
  | none => "undefined"

/-- The request `handleSubmit` builds from the form state. -/
def uploadRequest (file : UploadFile) (jobText domain : String) : Effect :=
  .httpPost "/api/uploadResume"
    [("file", .file file), ("jobText", .text jobText), ("domain", .text domain)]
    [("Content-Type", "multipart/form-data")]

/-- The handler `handleSubmit`.  `outcome` is what the upload request yields if it is
issued.  State setters are reflected in the returned state.  A response without a body
makes `response.data.id` throw after the success notification, which the `catch` block
handles like a failed request. -/
def handleSubmit (s : UploadState) (outcome : PostOutcome) : UploadState × List Effect :=
  match s.file with
  | none => (s, [.preventDefault, .toastError "Please upload a resume file"])
  | some file =>
    if jsTrim s.jobText = "" then
      (s, [.preventDefault, .toastError "Please enter a job description"])
    else
      let request := uploadRequest file s.jobText s.domain
      let success := Effect.toastSuccess "Resume analyzed successfully!"
      let failure := [Effect.consoleError "Upload error:",
                      Effect.toastError "Failed to upload resume. Please try again."]
      match outcome with
      | .resolved (some data) =>
          ({ s with isUploading := false },
           [.preventDefault, request, success, .navigate ("/results/" ++ idText data.id)])
      | .resolved none =>
          ({ s with isUploading := false }, [.preventDefault, request, success] ++ failure)
      | .rejected =>
          ({ s with isUploading := false }, [.preventDefault, request] ++ failure)

/-- The page a route of `App.js` renders. -/
inductive View where
  | home
  | uploadResume
  | results (id : String)
  | admin
  deriving DecidableEq

/-- A path without its trailing slashes. -/
def stripTrailingSlashes (cs : List Char) : List Char :=
  (cs.reverse.dropWhile (· == '/')).reverse

/-- The route table of `App.js` applied to a pathname made of plain characters (no
escape, query or fragment): static segments compare without regard to ASCII case,
trailing slashes are ignored, and `:id` stands for one non-empty segment. -/
def matchRoute (pathname : String) : Option View :=
  let cs := pathname.data
  if cs.head? ≠ some '/' then none
  else
    let body := stripTrailingSlashes cs
    if body = [] then some .home
    else if body.map Char.toLower = "/upload".data then some .uploadResume
    else if (body.take 9).map Char.toLower = "/results/".data ∧ body.drop 9 ≠ []
        ∧ '/' ∉ body.drop 9 then
      some (.results (String.mk (body.drop 9)))
    else if body.map Char.toLower = "/admin".data then some .admin
    else none

/-! ## Specification-side notions used to state the theorems -/

/-- A job text is blank when it is empty or made of white space only. -/
def isBlank (text : String) : Prop :=
  ∀ c ∈ text.data, jsIsWhiteSpace c = true

/-- What a record contributes to the score sum according to the specification: its
`finalScore`, or 0 when it has no evaluation result (or no score). -/
def scoreContribution (resume : Resume) : ℚ :=
  match resume.evaluationResult with
  | none => 0
  | some evaluation =>
    match evaluation.finalScore with
    | none => 0
    | some score => score

/-- The number of records counted under a label. -/
def labelCount (data : List Resume) (label : String) : Nat :=
  (data.filter (fun resume => domainLabel resume = label)).length

/-- A resume record with the given domain and score and nothing else. -/
def Resume.sample (domain : Option String) (finalScore : Option ℚ) : Resume :=
  { id := "", fileName := "", domain := domain, createdAt := "", parsedEntities := none,
    evaluationResult := finalScore.map (fun v => { EvaluationResult.empty with finalScore := some v }) }

/-- Whether an effect is an HTTP POST request. -/
def Effect.isPost : Effect → Bool
  | .httpPost _ _ _ => true
  | _ => false

/-- Whether an effect is a navigation. -/
def Effect.isNavigate : Effect → Bool
  | .navigate _ => true
  | _ => false

/-- Whether an effect is an error notification. -/
def Effect.isToastError : Effect → Bool
  | .toastError _ => true
  | _ => false

/-- An identifier that is one plain path segment: non-empty, letters and digits only. -/
def isPlainId (ident : String) : Bool :=
  !ident.data.isEmpty && ident.data.all Char.isAlphanum

instance decidableIsBlank (text : String) : Decidable (isBlank text) :=
  inferInstanceAs (Decidable (∀ c ∈ text.data, jsIsWhiteSpace c = true))

/-! ## Results view: the rendered values -/

/-- The inline class of the overall-score progress bar: the nested conditional on
`(evaluation?.finalScore || 0) >= 0.8` and `>= 0.6`. -/
def scoreBarColor (score : JSNum) : String :=
  if jsGe score (.fin 0.8) then "bg-success-500"
  else if jsGe score (.fin 0.6) then "bg-warning-500"
  else "bg-danger-500"

/-- The text `Math.round(x * 100)` followed by `%` of a percentage. -/
def percentLabel (x : JSNum) : Option String :=
  (jsNumberToString (mathRound (jsMul x (.fin 100)))).map (· ++ "%")

/-- The `width` style `x * 100` followed by `%` of a bar. -/
def percentWidth (x : JSNum) : Option String :=
  (jsNumberToString (jsMul x (.fin 100))).map (· ++ "%")

/-- The condition `!list || list.length === 0` under which a placeholder line is shown. -/
def listIsMissingOrEmpty (list : Option (List String)) : Bool :=
  match list with
  | none => true
  | some l => l.length == 0

/-- The values the results view derives from a loaded resume record, block by block
(the upload date, which depends on the locale, is left out). -/
structure ResultsRender where
  fileName : String
  recommendationStyle : String
  recommendationText : String
  scoreBgColor : String
  scoreColor : String
  scoreLabel : Option String
  scoreBarColor : String
  scoreBarWidth : Option String
  bestModel : String
  skillLabel : Option String
  skillWidth : Option String
  experienceLabel : Option String
  experienceWidth : Option String
  educationLabel : Option String
  educationWidth : Option String
  similarityLabel : Option String
  similarityWidth : Option String
  matchedSkills : List String
  noMatchedSkills : Bool
  missingSkills : List String
  noMissingSkills : Bool
  domain : Option String
  experienceYears : Option String
  extractedSkills : List String
  noExtractedSkills : Bool
  deriving DecidableEq

/-- The body of the results view for a loaded record (`resume` is not null). -/
def renderResults (resume : Resume) : ResultsRender :=
  let evaluation := resume.evaluationResult
  let parsed := resume.parsedEntities
  let finalScore := JSNum.fin (jsOrZero (evaluation.bind (·.finalScore)))
  let skillMatchRatio := JSNum.fin (jsOrZero (evaluation.bind (·.skillMatchRatio)))
  let experienceMatchRatio := JSNum.fin (jsOrZero (evaluation.bind (·.experienceMatchRatio)))
  let educationMatchRatio := JSNum.fin (jsOrZero (evaluation.bind (·.educationMatchRatio)))
  { fileName := resume.fileName
    recommendationStyle := recommendationBadge evaluation
    recommendationText := recommendationText evaluation
    scoreBgColor := getScoreBgColor finalScore
    scoreColor := getScoreColor finalScore
    scoreLabel := percentLabel finalScore
    scoreBarColor := scoreBarColor finalScore
    scoreBarWidth := percentWidth finalScore
    bestModel := jsOrStr (evaluation.bind (·.bestModelName)) "N/A"
    skillLabel := percentLabel skillMatchRatio
    skillWidth := percentWidth skillMatchRatio
    experienceLabel := percentLabel experienceMatchRatio
    experienceWidth := percentWidth experienceMatchRatio
    educationLabel := percentLabel educationMatchRatio
    educationWidth := percentWidth educationMatchRatio
    similarityLabel := textSimilarityLabel evaluation
    similarityWidth := textSimilarityWidth evaluation
    matchedSkills := (evaluation.bind (·.matchedSkills)).getD []
    noMatchedSkills := listIsMissingOrEmpty (evaluation.bind (·.matchedSkills))
    missingSkills := (evaluation.bind (·.missingSkills)).getD []
    noMissingSkills := listIsMissingOrEmpty (evaluation.bind (·.missingSkills))
    domain := resume.domain
    experienceYears :=
      (jsNumberToString (.fin (jsOrZero (parsed.bind (·.experienceYears))))).map
        (· ++ " years")
    extractedSkills := (parsed.bind (·.skills)).getD []
    noExtractedSkills := listIsMissingOrEmpty (parsed.bind (·.skills)) }

/-- The text of the Avg Score card of the admin view: `Math.round(stats.avgScore * 100)`
followed by `%`. -/
def avgScoreLabel (stats : Stats) : Option String :=
  percentLabel stats.avgScore

/-- The three tiers of a score. -/
inductive Tier where
  | high
  | medium
  | low
  deriving DecidableEq

/-- The text colour of a tier. -/
def Tier.textColor : Tier → String
  | .high => "text-success-600"
  | .medium => "text-warning-600"
  | .low => "text-danger-600"

/-- The background colour of a tier. -/
def Tier.bgColor : Tier → String
  | .high => "bg-success-100"
  | .medium => "bg-warning-100"
  | .low => "bg-danger-100"

/-- The progress-bar colour of a tier. -/
def Tier.barColor : Tier → String
  | .high => "bg-success-500"
  | .medium => "bg-warning-500"
  | .low => "bg-danger-500"

/-- The tier rule of the specification: `score >= 0.8` is High, `0.6 <= score < 0.8` is
Medium, anything else is Low. -/
def classify (score : JSNum) : Tier :=
  if jsGe score (.fin 0.8) then .high
  else if jsGe score (.fin 0.6) then .medium
  else .low

/-- A resume record with no evaluation result and no parsed entities. -/
def Resume.unscored (id fileName : String) (domain : Option String) (createdAt : String) :
    Resume :=
  { id := id, fileName := fileName, domain := domain, createdAt := createdAt,
    parsedEntities := none, evaluationResult := none }

/-! ## Upload view: the other handlers and the sequences of form events -/

/-- The handler `onDrop`: the first accepted file, if any, becomes the form's file. -/
def onDrop (s : UploadState) (acceptedFiles : List UploadFile) : UploadState × List Effect :=
  match acceptedFiles.head? with
  | some uploadedFile =>
      ({ s with file := some uploadedFile }, [.toastSuccess "File uploaded successfully!"])
  | none => (s, [])

/-- The handler `removeFile`. -/
def removeFile (s : UploadState) : UploadState :=
  { s with file := none }

/-- An event of the upload form, each handled to completion before the next. -/
inductive FormEvent where
  | drop (acceptedFiles : List UploadFile)
  | remove
  | editJobText (value : String)
  | selectDomain (value : String)
  | submit (outcome : PostOutcome)

/-- The form state after one event. -/
def formStep (s : UploadState) : FormEvent → UploadState
  | .drop acceptedFiles => (onDrop s acceptedFiles).1
  | .remove => removeFile s
  | .editJobText value => { s with jobText := value }
  | .selectDomain value => { s with domain := value }
  | .submit outcome => (handleSubmit s outcome).1

/-- The form state after a sequence of events, from the initial state. -/
def runForm (events : List FormEvent) : UploadState :=
  events.foldl formStep UploadState.initial

/-! ## Admin view: the export, the other handlers and the sequences of operations -/

/-- The object `data` that `exportData` hands to `JSON.stringify`, its four properties in
the order they are written. -/
structure ExportDocument where
  resumes : List Resume
  jobs : List Job
  stats : Stats
  exportedAt : String
  deriving DecidableEq

/-- The names of the properties of the object literal in `exportData`. -/
def exportFieldNames : List String :=
  ["resumes", "jobs", "stats", "exportedAt"]

/-- The handler `exportData`: `now` is the text `new Date().toISOString()` yields when the
handler runs.  The state is only read.  The result is the object that is serialised with
`JSON.stringify(data, null, 2)` and offered as `resume-matching-data.json`. -/
def exportData (s : AdminState) (now : String) : AdminState × ExportDocument :=
  (s, { resumes := s.resumes, jobs := s.jobs, stats := s.stats, exportedAt := now })

/-- The handler `handleJobUpload`: with no file it returns at once, with a file it only
notifies. -/
def handleJobUpload (s : AdminState) (files : List UploadFile) : AdminState × List Effect :=
  match files.head? with
  | none => (s, [])
  | some _ => (s, [.toastSuccess "Job taxonomy uploaded successfully!"])

/-- An operation of the admin view, each run to completion before the next. -/
inductive AdminOp where
  | fetch (resumesResponse : Option (List Resume)) (jobsResponse : Option (List Job))
  | exportFile (now : String)
  | jobUpload (files : List UploadFile)

/-- The admin state after one operation. -/
def adminStep (s : AdminState) : AdminOp → AdminState
  | .fetch resumesResponse jobsResponse => (fetchData s resumesResponse jobsResponse).1
  | .exportFile now => (exportData s now).1
  | .jobUpload files => (handleJobUpload s files).1

/-- The admin state after a sequence of operations, from the initial state. -/
def runAdmin (ops : List AdminOp) : AdminState :=
  ops.foldl adminStep AdminState.initial

/-- The names `Admin.js` binds at module level: its imports and the component. -/
def adminBoundNames : List String :=
  ["React", "useState", "useEffect",
   "BarChart3", "Users", "FileText", "TrendingUp", "Upload", "Download",
   "axios", "toast", "Admin"]

/-- The names `Admin` binds in its own body: its state variables, setters and handlers. -/
def adminLocalNames : List String :=
  ["resumes", "setResumes", "jobs", "setJobs", "loading", "setLoading", "stats",
   "setStats", "fetchData", "handleJobUpload", "exportData"]

/-- The icons `Admin.js` imports from `lucide-react`. -/
def adminImportedIcons : List String :=
  ["BarChart3", "Users", "FileText", "TrendingUp", "Upload", "Download"]

/-- The component names the markup of `Admin` refers to, in order of appearance. -/
def adminUsedComponents : List String :=
  ["FileText", "Briefcase", "TrendingUp", "Users", "Download", "Upload", "BarChart3"]

/-- The number a stored count stands for (0 for a value that is not a number). -/
def JSCount.value : JSCount → Nat
  | .number n => n
  | .nonNumeric => 0

/-- The sum of the counts stored in a distribution. -/
def countTotal (distribution : CountObject) : Nat :=
  (distribution.map (fun p => p.2.value)).sum

/-- The well-formedness of an accumulator of the domain reducer: every label occurs once
and every stored value is a count of at least 1. -/
def CountObject.Counted (distribution : CountObject) : Prop :=
  (distribution.map Prod.fst).Nodup
  ∧ ∀ p ∈ distribution, ∃ n : Nat, p.2 = .number n ∧ 1 ≤ n

/-! ## Results view: loading the record (`useEffect` / `fetchResume`) -/

/-- The outcome of `GET /api/resumes/:id`: a response with its body (`null` for a missing
body), or a failure. -/
inductive GetOutcome where
  | ok (data : Option Resume)
  | failed
  deriving DecidableEq

/-- A request of `fetchResume` that has not completed yet: the mount of the view that
issued it and the id it asks for. -/
structure PendingFetch where
  mount : Nat
  id : String
  deriving DecidableEq

/-- The state of the results view and of its requests in flight.  `mount` counts the
times the view has been mounted; `shownFor` and `routed` are bookkeeping for the
theorems: the id of the request whose response is stored in `resume`, and the ids the
current mount has been routed to, oldest first. -/
structure ResultsState where
  mounted : Bool
  mount : Nat
  routeId : Option String
  resume : Option Resume
  loading : Bool
  pending : List PendingFetch
  shownFor : Option String
  routed : List String
  deriving DecidableEq

/-- Before the results view is first shown. -/
def ResultsState.initial : ResultsState :=
  { mounted := false, mount := 0, routeId := none, resume := none, loading := true,
    pending := [], shownFor := none, routed := [] }

/-- What happens to the results view. -/
inductive ResultsEvent where
  | route (id : String)
  | respond (k : Nat) (outcome : GetOutcome)
  | leave
  deriving DecidableEq

/-- The requests the effect issues for an id: `if (id) fetchResume()`. -/
def fetchResume (mount : Nat) (id : String) : List PendingFetch :=
  if id = "" then [] else [{ mount := mount, id := id }]

/-- One step of the results view.

* `route id`: the router shows `/results/<id>`.  A view that is not mounted is mounted
  with fresh state (`resume` null, `loading` true) and its effect runs.  A mounted view is
  kept, with its state; its effect runs again only if `id` changed.  There is no cleanup
  function and no request is cancelled.
* `respond k outcome`: the `k`-th request in flight completes.  If the view that issued
  it is still mounted, a response is stored with `setResume(response.data)` whatever the
  current id is, and `loading` becomes false; a failure only notifies and clears
  `loading`.  A state update of a view that is no longer mounted has no effect.
* `leave`: the router shows another page and the view is unmounted. -/
def resultsStep (s : ResultsState) : ResultsEvent → ResultsState
  | .route id =>
      if s.mounted then
        if s.routeId = some id then s
        else
          { s with routeId := some id,
                   pending := s.pending ++ fetchResume s.mount id,
                   routed := s.routed ++ [id] }
      else
        { mounted := true, mount := s.mount + 1, routeId := some id, resume := none,
          loading := true, pending := s.pending ++ fetchResume (s.mount + 1) id,
          shownFor := none, routed := [id] }
  | .respond k outcome =>
      match s.pending.get? k with
      | none => s
      | some request =>
        let rest := s.pending.eraseIdx k
        if s.mounted ∧ request.mount = s.mount then
          match outcome with
          | .ok data =>
              { s with resume := data, loading := false, pending := rest,
                       shownFor := data.map (fun _ => request.id) }
          | .failed => { s with loading := false, pending := rest }
        else
          { s with pending := rest }
  | .leave => { s with mounted := false }

/-- The state of the results view after a sequence of events. -/
def runResults (events : List ResultsEvent) : ResultsState :=
  events.foldl resultsStep ResultsState.initial

/-- The record the results view displays: none while it is not mounted or while the
spinner is shown. -/
def displayedResume (s : ResultsState) : Option Resume :=
  if s.mounted ∧ s.loading = false then s.resume else none

/-- The facts that hold of the results view after every sequence of events: the current
id is the last id routed to; a request in flight was issued by the current mount or an
earlier one, and if by the current one, for an id it was routed to; a stored record is
the response to a request for an id the current mount was routed to. -/
def ResultsState.Consistent (s : ResultsState) : Prop :=
  s.routeId = s.routed.getLast?
  ∧ (∀ request ∈ s.pending, request.mount ≤ s.mount)
  ∧ (∀ request ∈ s.pending, request.mount = s.mount → request.id ∈ s.routed)
  ∧ (∀ record, s.resume = some record → ∃ id ∈ s.routed, s.shownFor = some id)

/-- A late response: the view is routed to `A`, then to `B`; the response for `B` arrives
first, the response for `A` last. -/
def staleResponseTrace : List ResultsEvent :=
  [.route "A", .route "B",
   .respond 1 (.ok (some (Resume.unscored "B" "b.pdf" none "2024-01-02"))),
   .respond 0 (.ok (some (Resume.unscored "A" "a.pdf" none "2024-01-01")))]

/-! ## JSON values and their text (`JSON.stringify`, `JSON.parse`) -/

/-- A JSON value: what `JSON.parse` yields and `JSON.stringify` accepts in full.  An
object is the list of its own properties in insertion order. -/
inductive Json where
  | null
  | bool (b : Bool)
  | num (x : ℚ)
  | str (s : String)
  | arr (items : List Json)
  | obj (members : List (String × Json))

/-- The conversion between a number and its JSON text: `Number::toString` one way, the
JSON number grammar the other way.  It is floating-point code of the platform, so it is
a parameter of the model; `parse` reads a number at the head of the input and returns it
with the rest of the input. -/
structure NumberFormat where
  print : ℚ → List Char
  parse : List Char → Option (ℚ × List Char)

/-- The characters `JSON.parse` skips between tokens. -/
def isJsonSpace (c : Char) : Bool :=
  c = ' ' || c = '\n' || c = '\r' || c = '\t'

/-- The input without its leading white space. -/
def skipSpace (input : List Char) : List Char :=
  input.dropWhile isJsonSpace

/-- One lower-case hexadecimal digit. -/
def hexDigit (n : Nat) : Char :=
  if n < 10 then Char.ofNat (48 + n) else Char.ofNat (87 + n)

/-- The value of a hexadecimal digit. -/
def hexValue (c : Char) : Option Nat :=
  if 48 ≤ c.toNat ∧ c.toNat ≤ 57 then some (c.toNat - 48)
  else if 97 ≤ c.toNat ∧ c.toNat ≤ 102 then some (c.toNat - 87)
  else if 65 ≤ c.toNat ∧ c.toNat ≤ 70 then some (c.toNat - 55)
  else none

/-- The code unit written as four hexadecimal digits. -/
def hexCode (a b c d : Char) : Option Nat :=
  match hexValue a, hexValue b, hexValue c, hexValue d with
  | some x, some y, some z, some w => some (x * 4096 + y * 256 + z * 16 + w)
  | _, _, _, _ => none

/-- The text of one character inside a JSON string, as `JSON.stringify` quotes it: the
quote, the backslash and the control characters are escaped. -/
def escapeChar (c : Char) : List Char :=
  if c = '"' then ['\\', '"']
  else if c = '\\' then ['\\', '\\']
  else if c = '\x08' then ['\\', 'b']
  else if c = '\x0c' then ['\\', 'f']
  else if c = '\n' then ['\\', 'n']
  else if c = '\r' then ['\\', 'r']
  else if c = '\t' then ['\\', 't']
  else if c.toNat < 32 then
    ['\\', 'u', '0', '0', hexDigit (c.toNat / 16), hexDigit (c.toNat % 16)]
  else [c]

/-- A string between quotes. -/
def quoteJson (s : String) : List Char :=
  '"' :: (s.data.flatMap escapeChar ++ ['"'])

/-- The character a one-letter escape stands for. -/
def unescapeChar (c : Char) : Option Char :=
  if c = '"' then some '"'
  else if c = '\\' then some '\\'
  else if c = '/' then some '/'
  else if c = 'b' then some '\x08'
  else if c = 'f' then some '\x0c'
  else if c = 'n' then some '\n'
  else if c = 'r' then some '\r'
  else if c = 't' then some '\t'
  else none

/-- One character of a JSON string at the head of the input, escaped or not, and the
rest of the input.  An escaped surrogate pair is one character; an escaped lone
surrogate, which a string of this model cannot hold, is rejected, and so is a raw
control character. -/
def readChar : List Char → Option (Char × List Char)
  | [] => none
  | c :: rest =>
    if c = '\\' then
      match rest with
      | [] => none
      | e :: rest1 =>
        if e = 'u' then
          match rest1 with
          | h1 :: h2 :: h3 :: h4 :: rest2 =>
            match hexCode h1 h2 h3 h4 with
            | none => none
            | some code =>
              if 0xD800 ≤ code ∧ code < 0xDC00 then
                match rest2 with
                | b :: u :: l1 :: l2 :: l3 :: l4 :: rest3 =>
                  if b = '\\' ∧ u = 'u' then
                    match hexCode l1 l2 l3 l4 with
                    | none => none
                    | some low =>
                      if 0xDC00 ≤ low ∧ low < 0xE000 then
                        some (Char.ofNat (0x10000 + (code - 0xD800) * 1024 + (low - 0xDC00)),
                          rest3)
                      else none
                  else none
                | _ => none
              else if 0xDC00 ≤ code ∧ code < 0xE000 then none
              else some (Char.ofNat code, rest2)
          | _ => none
        else
          match unescapeChar e with
          | some ch => some (ch, rest1)
          | none => none
    else if c.toNat < 32 then none
    else some (c, rest)

/-- The rest of a JSON string after its opening quote: the characters read so far are
in `acc`, last first; `fuel` bounds the number of characters. -/
def parseStringBody : Nat → List Char → List Char → Option (String × List Char)
  | 0, _, _ => none
  | fuel + 1, input, acc =>
    match input with
    | [] => none
    | c :: rest =>
      if c = '"' then some (String.mk acc.reverse, rest)
      else
        match readChar (c :: rest) with
        | none => none
        | some (ch, rest1) => parseStringBody fuel rest1 (ch :: acc)

/-- A JSON string after its opening quote. -/
def parseString (input : List Char) : Option (String × List Char) :=
  parseStringBody (input.length + 1) input []

/-- A line break followed by the indentation of a nesting level. -/
def newline (indent : Nat) : List Char :=
  '\n' :: List.replicate indent ' '

mutual
/-- The text `JSON.stringify(value, null, gap)` gives for a value nested at `indent`
spaces, for a gap of at least one space. -/
def printValue (fmt : NumberFormat) (gap indent : Nat) : Json → List Char
  | .null => ['n', 'u', 'l', 'l']
  | .bool true => ['t', 'r', 'u', 'e']
  | .bool false => ['f', 'a', 'l', 's', 'e']
  | .num x => fmt.print x
  | .str s => quoteJson s
  | .arr [] => ['[', ']']
  | .arr (v :: vs) =>
      '[' :: (newline (indent + gap) ++ (printValue fmt gap (indent + gap) v
        ++ (printItems fmt gap (indent + gap) vs ++ (newline indent ++ [']']))))
  | .obj [] => ['\x7b', '\x7d']
  | .obj ((k, v) :: ms) =>
      '\x7b' :: (newline (indent + gap) ++ (quoteJson k ++ (':' :: ' ' ::
        (printValue fmt gap (indent + gap) v
          ++ (printMembers fmt gap (indent + gap) ms ++ (newline indent ++ ['\x7d']))))))
/-- The items of an array after the first, each after a comma and a line break. -/
def printItems (fmt : NumberFormat) (gap indent : Nat) : List Json → List Char
  | [] => []
  | v :: vs =>
      ',' :: (newline indent ++ (printValue fmt gap indent v ++ printItems fmt gap indent vs))
/-- The members of an object after the first, each after a comma and a line break. -/
def printMembers (fmt : NumberFormat) (gap indent : Nat) : List (String × Json) → List Char
  | [] => []
  | (k, v) :: ms =>
      ',' :: (newline indent ++ (quoteJson k ++ (':' :: ' ' ::
        (printValue fmt gap indent v ++ printMembers fmt gap indent ms))))
end

/-- The definition of a property by `JSON.parse`: a name met again keeps its place and
takes the new value. -/
def setMember (members : List (String × Json)) (key : String) (value : Json) :
    List (String × Json) :=
  if members.any (fun p => p.1 = key) then
    members.map (fun p => if p.1 = key then (p.1, value) else p)
  else members ++ [(key, value)]

/-- The object `JSON.parse` builds from the members it reads, in the order of the text. -/
def buildObject (members : List (String × Json)) : List (String × Json) :=
  members.foldl (fun acc p => setMember acc p.1 p.2) []

mutual
/-- A JSON value at the head of the input, after optional white space; `fuel` bounds the
number of nested calls. -/
def parseValue (fmt : NumberFormat) : Nat → List Char → Option (Json × List Char)
  | 0, _ => none
  | fuel + 1, input =>
    match skipSpace input with
    | [] => none
    | c :: rest =>
      if c = 'n' then
        match rest with
        | 'u' :: 'l' :: 'l' :: rest1 => some (.null, rest1)
        | _ => none
      else if c = 't' then
        match rest with
        | 'r' :: 'u' :: 'e' :: rest1 => some (.bool true, rest1)
        | _ => none
      else if c = 'f' then
        match rest with
        | 'a' :: 'l' :: 's' :: 'e' :: rest1 => some (.bool false, rest1)
        | _ => none
      else if c = '"' then
        match parseString rest with
        | some (s, rest1) => some (.str s, rest1)
        | none => none
      else if c = '[' then
        match skipSpace rest with
        | [] => none
        | d :: rest1 =>
          if d = ']' then some (.arr [], rest1)
          else
            match parseValue fmt fuel (d :: rest1) with
            | none => none
            | some (v, rest2) =>
              match parseItemsTail fmt fuel rest2 with
              | none => none
              | some (vs, rest3) => some (.arr (v :: vs), rest3)
      else if c = '\x7b' then
        match skipSpace rest with
        | [] => none
        | d :: rest1 =>
          if d = '\x7d' then some (.obj [], rest1)
          else
            match parseMember fmt fuel (d :: rest1) with
            | none => none
            | some (m, rest2) =>
              match parseMembersTail fmt fuel rest2 with
              | none => none
              | some (ms, rest3) => some (.obj (buildObject (m :: ms)), rest3)
      else
        match fmt.parse (c :: rest) with
        | some (x, rest1) => some (.num x, rest1)
        | none => none
/-- What follows an item of an array: the closing bracket, or a comma and the other
items. -/
def parseItemsTail (fmt : NumberFormat) : Nat → List Char → Option (List Json × List Char)
  | 0, _ => none
  | fuel + 1, input =>
    match skipSpace input with
    | [] => none
    | c :: rest =>
      if c = ']' then some ([], rest)
      else if c = ',' then
        match parseValue fmt fuel rest with
        | none => none
        | some (v, rest1) =>
          match parseItemsTail fmt fuel rest1 with
          | none => none
          | some (vs, rest2) => some (v :: vs, rest2)
      else none
/-- A member of an object: a string, a colon and a value. -/
def parseMember (fmt : NumberFormat) :
    Nat → List Char → Option ((String × Json) × List Char)
  | 0, _ => none
  | fuel + 1, input =>
    match skipSpace input with
    | [] => none
    | c :: rest =>
      if c = '"' then
        match parseString rest with
        | none => none
        | some (k, rest1) =>
          match skipSpace rest1 with
          | [] => none
          | d :: rest2 =>
            if d = ':' then
              match parseValue fmt fuel rest2 with
              | none => none
              | some (v, rest3) => some ((k, v), rest3)
            else none
      else none
/-- What follows a member of an object: the closing brace, or a comma and the other
members. -/
def parseMembersTail (fmt : NumberFormat) :
    Nat → List Char → Option (List (String × Json) × List Char)
  | 0, _ => none
  | fuel + 1, input =>
    match skipSpace input with
    | [] => none
    | c :: rest =>
      if c = '\x7d' then some ([], rest)
      else if c = ',' then
        match parseMember fmt fuel rest with
        | none => none
        | some (m, rest1) =>
          match parseMembersTail fmt fuel rest1 with
          | none => none
          | some (ms, rest2) => some (m :: ms, rest2)
      else none
end

/-- The function `JSON.parse`: one value, then nothing but white space. -/
def jsonParse (fmt : NumberFormat) (text : String) : Option Json :=
  match parseValue fmt (text.length + 1) text.data with
  | some (v, rest) => if skipSpace rest = [] then some v else none
  | none => none

/-- The function `JSON.stringify(value, null, gap)`. -/
def jsonStringify (fmt : NumberFormat) (gap : Nat) (value : Json) : String :=
  String.mk (printValue fmt gap 0 value)

mutual
/-- A bound on the nesting of calls `parseValue` needs to read a value back: its nodes
and list cells. -/
def Json.size : Json → Nat
  | .arr items => 1 + Json.sizeItems items
  | .obj members => 1 + Json.sizeMembers members
  | _ => 1
/-- The size of the items of an array. -/
def Json.sizeItems : List Json → Nat
  | [] => 0
  | v :: vs => 1 + Json.size v + Json.sizeItems vs
/-- The size of the members of an object. -/
def Json.sizeMembers : List (String × Json) → Nat
  | [] => 0
  | (_, v) :: ms => 2 + Json.size v + Json.sizeMembers ms
end

mutual
/-- The numbers that occur in a value. -/
def Json.numbers : Json → List ℚ
  | .num x => [x]
  | .arr items => Json.numbersItems items
  | .obj members => Json.numbersMembers members
  | _ => []
/-- The numbers that occur in the items of an array. -/
def Json.numbersItems : List Json → List ℚ
  | [] => []
  | v :: vs => Json.numbers v ++ Json.numbersItems vs
/-- The numbers that occur in the members of an object. -/
def Json.numbersMembers : List (String × Json) → List ℚ
  | [] => []
  | (_, v) :: ms => Json.numbers v ++ Json.numbersMembers ms
end

mutual
/-- A value every object of which has its property names distinct, as every object in
memory has. -/
def Json.WellFormed : Json → Prop
  | .arr items => Json.WellFormedItems items
  | .obj members => (members.map Prod.fst).Nodup ∧ Json.WellFormedMembers members
  | _ => True
/-- Well-formed items. -/
def Json.WellFormedItems : List Json → Prop
  | [] => True
  | v :: vs => Json.WellFormed v ∧ Json.WellFormedItems vs
/-- Well-formed member values. -/
def Json.WellFormedMembers : List (String × Json) → Prop
  | [] => True
  | (_, v) :: ms => Json.WellFormed v ∧ Json.WellFormedMembers ms
end

/-- What can follow a value in the text `JSON.stringify` writes: the end of the text, a
comma or a line break. -/
def TokenEnd (rest : List Char) : Prop :=
  rest = [] ∨ ∃ tail, rest = ',' :: tail ∨ rest = '\n' :: tail

/-- The contract of the platform for one number: its text starts with a digit or a minus
sign, and reading that text, followed by the end of the input, a comma or a line break,
gives the number back and stops there. -/
def NumberFormat.RoundTrips (fmt : NumberFormat) (x : ℚ) : Prop :=
  (∃ c tail, fmt.print x = c :: tail ∧ (c = '-' ∨ c.isDigit = true))
  ∧ ∀ rest, TokenEnd rest → fmt.parse (fmt.print x ++ rest) = some (x, rest)

/-- The object literal of `exportData`, for a state whose `resumes`, `jobs` and `stats`
are the given JSON values and a clock that reads `now`. -/
def exportObject (resumes jobs stats : Json) (now : String) : Json :=
  .obj [("resumes", resumes), ("jobs", jobs), ("stats", stats), ("exportedAt", .str now)]

/-- The content of the file `exportData` offers: `JSON.stringify(data, null, 2)`. -/
def exportText (fmt : NumberFormat) (resumes jobs stats : Json) (now : String) : String :=
  jsonStringify fmt 2 (exportObject resumes jobs stats now)

/-- The value of a top-level property of a JSON object. -/
def Json.field (value : Json) (key : String) : Option Json :=
  match value with
  | .obj members => members.lookup key
  | _ => none

/-- The names of the top-level properties of a JSON object. -/
def Json.fieldNames : Json → List String
  | .obj members => members.map Prod.fst
  | _ => []
/-- The part of the number format that involves no floating-point arithmetic: an integer
below `10^21` in absolute value is printed in decimal, as `Number::toString` does, and
read back by the JSON grammar (`-`, then `0` or digits with no leading zero); a fraction
or an exponent is outside this part and is not read. -/
def integerFormat : NumberFormat :=
  { print := fun q => (toString q.num).data
    parse := fun input =>
      let negative := input.head? = some '-'
      let body := if negative then input.drop 1 else input
      let digits := body.takeWhile Char.isDigit
      let rest := body.dropWhile Char.isDigit
      if digits = [] then none
      else if 1 < digits.length ∧ digits.head? = some '0' then none
      else if rest.head? = some '.' ∨ rest.head? = some 'e' ∨ rest.head? = some 'E' then none
      else
        let n : Nat := digits.foldl (fun acc d => acc * 10 + (d.toNat - 48)) 0
        some (if negative then -(n : ℚ) else (n : ℚ), rest) }

/-- A state of the admin view as JSON values: one resume, no job, and the statistics of
that state. -/
def sampleExportResumes : Json :=
  .arr [.obj [("id", .str "r1"), ("fileName", .str "cv \"final\".pdf"),
              ("domain", .str "Data"), ("evaluationResult", .null)]]

/-- The statistics of the sample state. -/
def sampleExportStats : Json :=
  .obj [("totalResumes", .num 1), ("totalJobs", .num 0), ("avgScore", .num 0),
        ("domainDistribution", .obj [("Data", .num 1)])]

/-! ## The domain bars

The quotient and the product of a bar width are rounded to double precision. -/

/-- The quotient `a / b` of two doubles in double precision. -/
def doubleDiv (a b : ℚ) : JSNum :=
  if b ≠ 0 then roundDouble (a / b) else jsDiv a b

/-- The product `x * y` in double precision. -/
def doubleMul (x y : JSNum) : JSNum :=
  match x, y with
  | .fin a, .fin b => roundDouble (a * b)
  | _, _ => jsMul x y

/-- The expression `(count / stats.totalResumes) * 100` of a domain bar; a stored value
that is not a number gives NaN. -/
def barWidth (count : JSCount) (totalResumes : Nat) : JSNum :=
  match count with
  | .number n => doubleMul (doubleDiv n totalResumes) (.fin 100)
  | .nonNumeric => .nan

/-- One bar of the Domain Distribution card: its label, its count, the divisor of the
division evaluated for it and its width in percent. -/
structure DomainBar where
  domain : String
  count : JSCount
  divisor : Nat
  width : JSNum
  deriving DecidableEq

/-- The bars of the Domain Distribution card:
`Object.entries(stats.domainDistribution).map(...)`. -/
def domainBars (stats : Stats) : List DomainBar :=
  stats.domainDistribution.map (fun entry =>
    { domain := entry.1, count := entry.2, divisor := stats.totalResumes,
      width := barWidth entry.2 stats.totalResumes })

/-- Whether the line `No domain data available` is shown:
`Object.keys(stats.domainDistribution).length === 0`. -/
def noDomainData (stats : Stats) : Bool :=
  stats.domainDistribution.length == 0

/-- The width of a bar before any rounding: `count / totalResumes * 100`. -/
def exactWidth (count totalResumes : Nat) : ℚ :=
  (count : ℚ) / (totalResumes : ℚ) * 100

/-- Two resumes in the domain `Data` and one in the domain `Cloud`. -/
def threeResumes : List Resume :=
  [Resume.sample (some "Data") none, Resume.sample (some "Data") none,
   Resume.sample (some "Cloud") none]

/-- The sum of the widths of the bars as a real number, when every width is a finite
number (the page never adds the widths; the sum is the one of the numbers it sets). -/
def widthSum (bars : List DomainBar) : Option ℚ :=
  bars.foldr
    (fun bar rest =>
      match bar.width, rest with
      | .fin w, some s => some (w + s)
      | _, _ => none)
    (some 0)

/-- The sum of the widths of the bars before any rounding. -/
def exactWidthSum (bars : List DomainBar) : ℚ :=
  (bars.map (fun bar => exactWidth bar.count.value bar.divisor)).sum

/-! ## The average score in double precision -/

/-- The sum `x + y`, rounded to double precision. -/
def jsAdd : JSNum → JSNum → JSNum
  | .nan, _ => .nan
  | _, .nan => .nan
  | .fin a, .fin b => roundDouble (a + b)
  | .posInf, .negInf => .nan
  | .negInf, .posInf => .nan
  | .posInf, _ => .posInf
  | _, .posInf => .posInf
  | .negInf, _ => .negInf
  | _, .negInf => .negInf

/-- The score reducer of `fetchData` with every `+` rounded to double precision:
`data.reduce((sum, resume) => sum + (resume.evaluationResult?.finalScore || 0), 0)`. -/
def scoreSumDouble (data : List Resume) : JSNum :=
  data.foldl
    (fun sum resume =>
      jsAdd sum (.fin (jsOrZero (resume.evaluationResult.bind (·.finalScore)))))
    (.fin 0)

/-- The `avgScore` expression of `fetchData` in double precision:
`totalResumes > 0 ? sum / totalResumes : 0`, the sum being `scoreSumDouble`. -/
def avgScoreDouble (data : List Resume) : JSNum :=
  let totalResumes := data.length
  if totalResumes > 0 then
    match scoreSumDouble data with
    | .fin sum => doubleDiv sum totalResumes
    | .posInf => .posInf
    | .negInf => .negInf
    | .nan => .nan
  else
    .fin 0

/-- One record scored 1 and one record scored `1 - 2^(-53)`, the double below 1. -/
def nearlyPerfectResumes : List Resume :=
  [Resume.sample none (some 1),
   Resume.sample none (some (9007199254740991 / 9007199254740992))]

/-! ## Auxiliary lemmas -/

theorem foldl_jsMax2_fin (l : List ℚ) (a : ℚ) :
    (l.map JSNum.fin).foldl jsMax2 (.fin a) = .fin (l.foldl max a) := by
  induction l generalizing a with
  | nil => rfl
  | cons x xs ih => simp only [List.map_cons, List.foldl_cons, jsMax2, ih]

theorem mathMax_fin_cons (x : ℚ) (l : List ℚ) :
    mathMax ((x :: l).map JSNum.fin) = .fin (l.foldl max x) := by
  simp only [mathMax, List.map_cons, List.foldl_cons, jsMax2, foldl_jsMax2_fin]

theorem foldl_max_mem (l : List ℚ) (a : ℚ) : l.foldl max a ∈ a :: l := by
  induction l generalizing a with
  | nil => simp
  | cons x xs ih =>
    simp only [List.foldl_cons]
    rcases List.mem_cons.mp (ih (max a x)) with h | h
    · rcases max_choice a x with h2 | h2
      · rw [h, h2]; simp
      · rw [h, h2]; simp
    · simp [h]

theorem le_foldl_max (l : List ℚ) (a : ℚ) : ∀ v ∈ a :: l, v ≤ l.foldl max a := by
  induction l generalizing a with
  | nil => simp
  | cons x xs ih =>
    intro v hv
    simp only [List.foldl_cons]
    have hmax := ih (max a x) (max a x) (List.mem_cons_self _ _)
    rcases List.mem_cons.mp hv with h | h
    · rw [h]; exact le_trans (le_max_left a x) hmax
    · rcases List.mem_cons.mp h with h | h
      · rw [h]; exact le_trans (le_max_right a x) hmax
      · exact ih (max a x) v (List.mem_cons_of_mem _ h)

theorem jsOrNum_fin_zero (m : ℚ) : jsOrNum (.fin m) (.fin 0) = .fin m := by
  by_cases h : m = 0
  · simp [jsOrNum, JSNum.truthy, h]
  · simp [jsOrNum, JSNum.truthy, h]

/-! ## Theorems -/

/-- C1 (evaluation at the failing input). With no evaluation result, or with an empty
`similarityScores` mapping, the maximum-similarity expression is `-Infinity` and not 0:
`Math.max()` of no argument is `-Infinity`, which is truthy, so `|| 0` does not apply.
The percentage text and the bar width are both `-Infinity%`. -/
theorem maxSimilarity_empty_is_negInf :
    maxSimilarity none = .negInf
    ∧ maxSimilarity (some { EvaluationResult.empty with similarityScores := some [] }) = .negInf
    ∧ maxSimilarity none ≠ .fin 0
    ∧ textSimilarityLabel none = some "-Infinity%"
    ∧ textSimilarityWidth none = some "-Infinity%"
    ∧ textSimilarityLabel (some { EvaluationResult.empty with similarityScores := some [] })
        = some "-Infinity%" := by
  refine ⟨by decide, by decide, by decide, by decide, by decide, by decide⟩

/-- C2. For every non-empty `similarityScores` mapping (in particular one whose values lie
in [0,1]) the maximum-similarity expression returns a finite number that is a value of
the mapping and that no value of the mapping exceeds. -/
theorem maxSimilarity_is_greatest (evaluation : EvaluationResult)
    (scores : List (String × ℚ)) (hs : evaluation.similarityScores = some scores)
    (hne : scores ≠ []) :
    ∃ m : ℚ, maxSimilarity (some evaluation) = .fin m
      ∧ m ∈ objectValues scores ∧ ∀ v ∈ objectValues scores, v ≤ m := by
  obtain ⟨p, ps, rfl⟩ := List.exists_cons_of_ne_nil hne
  refine ⟨(objectValues ps).foldl max p.2, ?_, ?_, ?_⟩
  · simp only [maxSimilarity, Option.bind, hs, Option.getD, objectValues]
    rw [List.map_cons, mathMax_fin_cons, jsOrNum_fin_zero]
  · exact foldl_max_mem (objectValues ps) p.2
  · exact le_foldl_max (objectValues ps) p.2

/-- Witness for C2: the mapping `{a: 0.3, b: 0.9, c: 0.1}` gives 0.9. -/
theorem maxSimilarity_is_greatest_witness :
    (∃ m : ℚ, maxSimilarity (some { EvaluationResult.empty with
          similarityScores := some [("a", 0.3), ("b", 0.9), ("c", 0.1)] }) = .fin m
        ∧ m ∈ objectValues [("a", 0.3), ("b", 0.9), ("c", 0.1)]
        ∧ ∀ v ∈ objectValues [("a", 0.3), ("b", 0.9), ("c", 0.1)], v ≤ m)
    ∧ maxSimilarity (some { EvaluationResult.empty with
          similarityScores := some [("a", 0.3), ("b", 0.9), ("c", 0.1)] }) = .fin 0.9 :=
  ⟨maxSimilarity_is_greatest _ [("a", 0.3), ("b", 0.9), ("c", 0.1)] rfl (by simp),
   by
    simp only [maxSimilarity, Option.bind, EvaluationResult.empty, Option.getD, objectValues]
    rw [List.map_cons, mathMax_fin_cons, jsOrNum_fin_zero]
    norm_num [List.foldl]⟩

/-- C3. For every finite score (in particular every score in [0,1]) `getScoreColor`
returns exactly one of the three tier tokens: success iff `score >= 0.8`, warning iff
`0.6 <= score < 0.8`, danger iff `score < 0.6`; 0.8 is High, 0.7999 Medium, 0.6 Medium
and 0.5999 Low. -/
theorem getScoreColor_tiers :
    (∀ q : ℚ, (getScoreColor (.fin q) = "text-success-600" ↔ 0.8 ≤ q)
      ∧ (getScoreColor (.fin q) = "text-warning-600" ↔ 0.6 ≤ q ∧ q < 0.8)
      ∧ (getScoreColor (.fin q) = "text-danger-600" ↔ q < 0.6))
    ∧ getScoreColor (.fin 0.8) = "text-success-600"
    ∧ getScoreColor (.fin 0.7999) = "text-warning-600"
    ∧ getScoreColor (.fin 0.6) = "text-warning-600"
    ∧ getScoreColor (.fin 0.5999) = "text-danger-600" := by
  have key : ∀ q : ℚ, (getScoreColor (.fin q) = "text-success-600" ↔ 0.8 ≤ q)
      ∧ (getScoreColor (.fin q) = "text-warning-600" ↔ 0.6 ≤ q ∧ q < 0.8)
      ∧ (getScoreColor (.fin q) = "text-danger-600" ↔ q < 0.6) := by
    intro q
    unfold getScoreColor
    simp only [jsGe, decide_eq_true_eq]
    by_cases h8 : (0.8 : ℚ) ≤ q
    · have h6 : (0.6 : ℚ) ≤ q := le_trans (by norm_num) h8
      simp only [if_pos h8]
      refine ⟨by simp [h8], ?_, ?_⟩
      · constructor
        · intro h; exact absurd h (by decide)
        · intro h; exact absurd h8 (not_le.mpr h.2)
      · constructor
        · intro h; exact absurd h (by decide)
        · intro h; exact absurd h6 (not_le.mpr h)
    · simp only [if_neg h8]
      by_cases h6 : (0.6 : ℚ) ≤ q
      · simp only [if_pos h6]
        refine ⟨?_, ?_, ?_⟩
        · constructor
          · intro h; exact absurd h (by decide)
          · intro h; exact absurd h h8
        · exact ⟨fun _ => ⟨h6, not_le.mp h8⟩, fun _ => trivial⟩
        · constructor
          · intro h; exact absurd h (by decide)
          · intro h; exact absurd h6 (not_le.mpr h)
      · simp only [if_neg h6]
        refine ⟨?_, ?_, ?_⟩
        · constructor
          · intro h; exact absurd h (by decide)
          · intro h; exact absurd h h8
        · constructor
          · intro h; exact absurd h (by decide)
          · intro h; exact absurd h.1 h6
        · exact ⟨fun _ => not_le.mp h6, fun _ => trivial⟩
  refine ⟨key, ?_, ?_, ?_, ?_⟩
  · exact (key 0.8).1.mpr le_rfl
  · exact (key 0.7999).2.1.mpr ⟨by norm_num, by norm_num⟩
  · exact (key 0.6).2.1.mpr ⟨le_rfl, by norm_num⟩
  · exact (key 0.5999).2.2.mpr (by norm_num)

/-- C4. The function `getRecommendationColor` always returns one of its four styles, and
returns the neutral gray style for every input other than the three match labels, among
them the empty string and `Unknown`; the badge of a record with no evaluation result, no
recommendation or an empty recommendation is styled with the neutral gray style. -/
theorem getRecommendationColor_total :
    (∀ s : String, getRecommendationColor s ∈
        ["bg-success-100 text-success-800 border-success-200",
         "bg-warning-100 text-warning-800 border-warning-200",
         "bg-danger-100 text-danger-800 border-danger-200",
         "bg-gray-100 text-gray-800 border-gray-200"])
    ∧ (∀ s : String, s ≠ "Strong Match" → s ≠ "Good Match" → s ≠ "Weak Match" →
        getRecommendationColor s = "bg-gray-100 text-gray-800 border-gray-200")
    ∧ getRecommendationColor "" = "bg-gray-100 text-gray-800 border-gray-200"
    ∧ getRecommendationColor "Unknown" = "bg-gray-100 text-gray-800 border-gray-200"
    ∧ recommendationText none = "Unknown"
    ∧ recommendationBadge none = "bg-gray-100 text-gray-800 border-gray-200"
    ∧ (∀ evaluation : EvaluationResult,
        evaluation.recommendation = none ∨ evaluation.recommendation = some "" →
        recommendationBadge (some evaluation)
          = "bg-gray-100 text-gray-800 border-gray-200") := by
  have hdefault : ∀ s : String, s ≠ "Strong Match" → s ≠ "Good Match" → s ≠ "Weak Match" →
      getRecommendationColor s = "bg-gray-100 text-gray-800 border-gray-200" := by
    intro s h1 h2 h3
    unfold getRecommendationColor
    split
    · exact absurd rfl h1
    · exact absurd rfl h2
    · exact absurd rfl h3
    · rfl
  refine ⟨?_, hdefault, by decide, by decide, by decide, by decide, ?_⟩
  · intro s
    unfold getRecommendationColor
    split <;> simp
  · intro evaluation h
    rcases h with h | h
    · simp only [recommendationBadge, recommendationText, Option.bind, h, jsOrStr]
      decide
    · simp only [recommendationBadge, recommendationText, Option.bind, h, jsOrStr]
      decide

/-- Witness for C4: the label `Excellent` is none of the three match labels. -/
theorem getRecommendationColor_total_witness :
    getRecommendationColor "Excellent" = "bg-gray-100 text-gray-800 border-gray-200"
    ∧ recommendationBadge (some EvaluationResult.empty)
        = "bg-gray-100 text-gray-800 border-gray-200" :=
  ⟨getRecommendationColor_total.2.1 "Excellent" (by decide) (by decide) (by decide),
   getRecommendationColor_total.2.2.2.2.2.2 EvaluationResult.empty (Or.inl rfl)⟩

theorem jsOrZero_finalScore (resume : Resume) :
    jsOrZero (resume.evaluationResult.bind (·.finalScore)) = scoreContribution resume := by
  unfold jsOrZero scoreContribution
  cases h : resume.evaluationResult with
  | none => rfl
  | some evaluation =>
    cases h2 : evaluation.finalScore with
    | none => simp [Option.bind, h2]
    | some score =>
      by_cases h0 : score = 0
      · simp [Option.bind, h2, h0]
      · simp [Option.bind, h2, h0]

theorem foldl_score_eq (data : List Resume) (start : ℚ) :
    data.foldl
        (fun sum resume => sum + jsOrZero (resume.evaluationResult.bind (·.finalScore)))
        start
      = start + (data.map scoreContribution).sum := by
  induction data generalizing start with
  | nil => simp
  | cons r rs ih =>
    rw [List.foldl_cons, ih, jsOrZero_finalScore, List.map_cons, List.sum_cons]
    ring

theorem scoreSum_eq (data : List Resume) :
    scoreSum data = (data.map scoreContribution).sum := by
  simp [scoreSum, foldl_score_eq]

/-- C5. For every non-empty collection of resume records, `avgScore` is the sum of the
`finalScore` values, a record with no evaluation result (or no score) contributing 0,
divided by the number of all records. -/
theorem avgScore_eq_mean (data : List Resume) (hne : data ≠ []) :
    avgScore data = .fin ((data.map scoreContribution).sum / (data.length : ℚ)) := by
  have hlen : 0 < data.length := List.length_pos.mpr hne
  have hq : (data.length : ℚ) ≠ 0 := by exact_mod_cast (Nat.pos_iff_ne_zero.mp hlen)
  simp only [avgScore, avgScoreEval, gt_iff_lt, hlen, if_true, jsDiv, ne_eq, hq,
    not_false_eq_true, scoreSum_eq]

/-- Witness for C5: one record scored 0.8 and one record with no evaluation result give
the average 0.4. -/
theorem avgScore_eq_mean_witness :
    avgScore [Resume.sample none (some 0.8), Resume.sample none none] = .fin 0.4 := by
  have h := avgScore_eq_mean [Resume.sample none (some 0.8), Resume.sample none none]
    (by simp)
  rw [h]
  norm_num [scoreContribution, Resume.sample, EvaluationResult.empty]

/-- C6. On the empty collection `avgScore` is 0 and the evaluation performs no division
at all (in particular none by zero). -/
theorem avgScore_empty :
    avgScore [] = .fin 0 ∧ (avgScoreEval []).2 = [] := by
  constructor <;> rfl

theorem lookup_map_replace (acc : CountObject) (key k : String) (v : JSCount) :
    (acc.map (fun p => if p.1 = key then (p.1, v) else p)).lookup k
      = if k = key then (acc.lookup k).map (fun _ => v) else acc.lookup k := by
  induction acc with
  | nil => simp
  | cons p ps ih =>
    obtain ⟨a, b⟩ := p
    by_cases hak : a = key
    · by_cases hk : k = a
      · have hkk : k = key := hk.trans hak
        simp [List.lookup_cons, hak, hkk]
      · have hk2 : ¬ k = key := fun h => hk (h.trans hak.symm)
        have hb : (k == key) = false := by simpa using hk2
        simp only [List.map_cons, hak, if_true, List.lookup_cons, hb, ih]
    · by_cases hk : k = a
      · have hk2 : ¬ k = key := fun h => hak (hk.symm.trans h)
        simp [List.lookup_cons, hak, hk, hk2]
      · have hb : (k == a) = false := by simpa using hk
        simp only [List.map_cons, hak, if_false, List.lookup_cons, hb, ih]

theorem lookup_setCount (acc : CountObject) (key k : String) (v : JSCount)
    (hkey : key ≠ "__proto__") :
    (setCount acc key v).lookup k = if k = key then some v else acc.lookup k := by
  unfold setCount
  rw [if_neg hkey]
  by_cases hs : (acc.lookup key).isSome
  · rw [if_pos hs, lookup_map_replace]
    by_cases hk : k = key
    · subst hk
      obtain ⟨w, hw⟩ := Option.isSome_iff_exists.mp hs
      simp [hw]
    · simp [hk]
  · rw [if_neg hs, List.lookup_append]
    have hnone : acc.lookup key = none := Option.not_isSome_iff_eq_none.mp hs
    by_cases hk : k = key
    · subst hk
      simp [hnone]
    · have hb : (k == key) = false := by simpa using hk
      simp [List.lookup_cons, hb, hk]

theorem labelCount_append (data : List Resume) (resume : Resume) (label : String) :
    labelCount (data ++ [resume]) label
      = labelCount data label + (if domainLabel resume = label then 1 else 0) := by
  unfold labelCount
  by_cases h : domainLabel resume = label
  · simp [List.filter_append, List.filter_cons, h]
  · simp [List.filter_append, List.filter_cons, h]

theorem domainDistribution_append (data : List Resume) (resume : Resume) :
    domainDistribution (data ++ [resume])
      = setCount (domainDistribution data) (domainLabel resume)
          (incrementCount (getCount (domainDistribution data) (domainLabel resume))) := by
  simp [domainDistribution, List.foldl_append]

theorem proto_mem_objectPrototypeNames : "__proto__" ∈ objectPrototypeNames := by
  decide

/-- Why C7 excludes inherited names: under the label `constructor` the reducer reads the
inherited function, so what it stores is not a count; under `__proto__` nothing is
stored at all. -/
theorem domainDistribution_inherited_name :
    domainDistribution [Resume.sample (some "constructor") none]
      = [("constructor", .nonNumeric)]
    ∧ domainDistribution [Resume.sample (some "__proto__") none] = [] := by
  constructor <;> decide

/-- C7. For every collection of resume records none of whose labels is a property name
inherited from `Object.prototype` (the labels of the data model, Fullstack, Cloud, Data,
DevOps and Unknown, are not), and every label, `domainDistribution` maps the label to the
number of records counted under it, a record with a missing or empty domain being counted
under `Unknown`; a label with no record is absent from the mapping. -/
theorem domainDistribution_counts (data : List Resume)
    (hlabels : ∀ resume ∈ data, domainLabel resume ∉ objectPrototypeNames)
    (label : String) :
    (domainDistribution data).lookup label
      = if labelCount data label = 0 then none
        else some (.number (labelCount data label)) := by
  induction data using List.reverseRecOn generalizing label with
  | nil => simp [domainDistribution, labelCount]
  | append_singleton data resume ih =>
    have hdata : ∀ r ∈ data, domainLabel r ∉ objectPrototypeNames :=
      fun r hr => hlabels r (List.mem_append_left _ hr)
    have hres : domainLabel resume ∉ objectPrototypeNames :=
      hlabels resume (List.mem_append_right _ (List.mem_singleton_self _))
    have hproto : domainLabel resume ≠ "__proto__" :=
      fun h => hres (h ▸ proto_mem_objectPrototypeNames)
    have ih2 := fun l => ih hdata l
    rw [domainDistribution_append, lookup_setCount _ _ _ _ hproto, labelCount_append]
    by_cases hk : label = domainLabel resume
    · subst hk
      simp only [if_true, getCount, ih2, if_neg hres]
      by_cases hc : labelCount data (domainLabel resume) = 0
      · simp [hc, incrementCount]
      · simp [hc, incrementCount]
    · have hk2 : ¬ domainLabel resume = label := fun h => hk h.symm
      simp only [if_neg hk, if_neg hk2, ih2, Nat.add_zero]

/-- Witness for C7: the records with domains `Data`, the empty string and `Data` give
`{Data: 2, Unknown: 1}`. -/
theorem domainDistribution_counts_witness :
    domainDistribution [Resume.sample (some "Data") none, Resume.sample (some "") none,
        Resume.sample (some "Data") none]
      = [("Data", .number 2), ("Unknown", .number 1)]
    ∧ (domainDistribution [Resume.sample (some "Data") none, Resume.sample (some "") none,
        Resume.sample (some "Data") none]).lookup "Data"
      = if labelCount [Resume.sample (some "Data") none, Resume.sample (some "") none,
          Resume.sample (some "Data") none] "Data" = 0 then none
        else some (.number (labelCount [Resume.sample (some "Data") none,
          Resume.sample (some "") none, Resume.sample (some "Data") none] "Data")) :=
  ⟨by decide,
   domainDistribution_counts
    [Resume.sample (some "Data") none, Resume.sample (some "") none,
      Resume.sample (some "Data") none]
    (by decide) "Data"⟩

theorem jsTrim_eq_empty_iff (text : String) : jsTrim text = "" ↔ isBlank text := by
  unfold jsTrim isBlank
  constructor
  · intro h
    have hnil : ((text.data.dropWhile jsIsWhiteSpace).reverse.dropWhile jsIsWhiteSpace).reverse
        = [] := by
      have := congrArg String.data h
      simpa using this
    have hall : ∀ x ∈ text.data.dropWhile jsIsWhiteSpace, jsIsWhiteSpace x = true := by
      have h2 := List.reverse_eq_nil_iff.mp hnil
      have h3 := List.dropWhile_eq_nil_iff.mp h2
      intro x hx
      exact h3 x (List.mem_reverse.mpr hx)
    have hdrop : text.data.dropWhile jsIsWhiteSpace = [] := by
      by_contra hne
      have hhead := List.head_dropWhile_not jsIsWhiteSpace text.data hne
      have := hall _ (List.head_mem hne)
      simp [this] at hhead
    exact List.dropWhile_eq_nil_iff.mp hdrop
  · intro h
    have hdrop : text.data.dropWhile jsIsWhiteSpace = [] := List.dropWhile_eq_nil_iff.mpr h
    simp [hdrop]

/-- C8. Submitting with no file, or with a blank job text, leaves the form state as it was
(so `isUploading` stays false), issues no POST request, does not navigate, and performs
exactly one error notification, the validation message. -/
theorem handleSubmit_validation_failure (s : UploadState) (outcome : PostOutcome)
    (h : s.file = none ∨ isBlank s.jobText) :
    (handleSubmit s outcome).1 = s
    ∧ (∀ e ∈ (handleSubmit s outcome).2, e.isPost = false ∧ e.isNavigate = false)
    ∧ (handleSubmit s outcome).2
        = [.preventDefault,
           .toastError (if s.file = none then "Please upload a resume file"
                        else "Please enter a job description")]
    ∧ (s.isUploading = false → (handleSubmit s outcome).1.isUploading = false) := by
  have hout : handleSubmit s outcome
      = (s, [.preventDefault,
             .toastError (if s.file = none then "Please upload a resume file"
                          else "Please enter a job description")]) := by
    unfold handleSubmit
    cases hf : s.file with
    | none => simp
    | some file =>
      rcases h with h | h
      · rw [hf] at h; exact absurd h (by simp)
      · have ht : jsTrim s.jobText = "" := (jsTrim_eq_empty_iff _).mpr h
        simp [ht]
  rw [hout]
  refine ⟨rfl, ?_, rfl, fun h0 => h0⟩
  intro e he
  simp only [List.mem_cons, List.mem_singleton, List.not_mem_nil, or_false] at he
  rcases he with rfl | rfl <;> exact ⟨rfl, rfl⟩

/-- Witness for C8: the initial form (no file, empty job text), and a form with a file
and a job text made of white space only. -/
theorem handleSubmit_validation_failure_witness :
    (handleSubmit UploadState.initial .rejected).2
        = [.preventDefault, .toastError "Please upload a resume file"]
    ∧ (handleSubmit ⟨some ⟨"cv.pdf", 1024⟩, " \n\t", "Data", false⟩
          (.resolved (some ⟨some "42"⟩))).2
        = [.preventDefault, .toastError "Please enter a job description"] :=
  ⟨(handleSubmit_validation_failure UploadState.initial .rejected (Or.inl rfl)).2.2.1,
   (handleSubmit_validation_failure ⟨some ⟨"cv.pdf", 1024⟩, " \n\t", "Data", false⟩
      (.resolved (some ⟨some "42"⟩)) (Or.inr (by decide))).2.2.1⟩

theorem stripTrailingSlashes_append (pre seg : List Char) (hne : seg ≠ [])
    (hseg : ∀ c ∈ seg, c ≠ '/') : stripTrailingSlashes (pre ++ seg) = pre ++ seg := by
  unfold stripTrailingSlashes
  have hrev : (pre ++ seg).reverse ≠ [] := by simp [hne]
  obtain ⟨c, cs, hcs⟩ := List.exists_cons_of_ne_nil hrev
  have hmem : c ∈ seg := by
    have hc : c ∈ seg.reverse := by
      have hsr : seg.reverse ≠ [] := by simp [hne]
      obtain ⟨d, ds, hds⟩ := List.exists_cons_of_ne_nil hsr
      have : (pre ++ seg).reverse = d :: (ds ++ pre.reverse) := by
        simp [List.reverse_append, hds]
      rw [this] at hcs
      have hcd : d = c := (List.cons.inj hcs).1
      rw [← hcd, hds]
      exact List.mem_cons_self _ _
    exact List.mem_reverse.mp hc
  have hkeep : List.dropWhile (fun x => x == '/') (c :: cs) = c :: cs := by
    simp [List.dropWhile_cons, hseg c hmem]
  rw [hcs, hkeep, ← hcs, List.reverse_reverse]

theorem matchRoute_results (ident : String) (hid : isPlainId ident = true) :
    matchRoute ("/results/" ++ ident) = some (.results ident) := by
  have hne : ident.data ≠ [] := by
    intro h
    simp [isPlainId, h] at hid
  have halnum : ∀ c ∈ ident.data, c.isAlphanum = true := by
    simp only [isPlainId, Bool.and_eq_true, List.all_eq_true] at hid
    exact hid.2
  have hslash : ∀ c ∈ ident.data, c ≠ '/' := by
    intro c hc h
    have := halnum c hc
    rw [h] at this
    exact absurd this (by decide)
  have hdata : ("/results/" ++ ident).data = "/results/".data ++ ident.data :=
    String.data_append _ _
  have hbody : stripTrailingSlashes ("/results/".data ++ ident.data)
      = "/results/".data ++ ident.data :=
    stripTrailingSlashes_append _ _ hne hslash
  have hlen : 0 < ident.data.length := List.length_pos.mpr hne
  unfold matchRoute
  simp only [hdata, hbody]
  have h1 : ¬ (("/results/".data ++ ident.data).head? ≠ some '/') := by
    simp
  have h2 : ¬ ("/results/".data ++ ident.data = []) := by
    intro h
    have := congrArg List.length h
    simp at this
  have h3 : ¬ (("/results/".data ++ ident.data).map Char.toLower = "/upload".data) := by
    intro h
    have := congrArg List.length h
    simp at this
  have htake : ("/results/".data ++ ident.data).take 9 = "/results/".data := by
    have : ("/results/".data).length = 9 := by decide
    rw [List.take_append_of_le_length (by omega)]
    exact List.take_of_length_le (by omega)
  have hdrop : ("/results/".data ++ ident.data).drop 9 = ident.data := by
    have : ("/results/".data).length = 9 := by decide
    rw [← this, List.drop_left]
  have h4 : (("/results/".data ++ ident.data).take 9).map Char.toLower = "/results/".data
      ∧ ("/results/".data ++ ident.data).drop 9 ≠ []
      ∧ '/' ∉ ("/results/".data ++ ident.data).drop 9 := by
    rw [htake, hdrop]
    refine ⟨by decide, hne, fun hmem => hslash _ hmem rfl⟩
  rw [if_neg h1, if_neg h2, if_neg h3, if_pos h4, hdrop]

/-- C9 (counterexample). With a file and the non-empty job text made of one space, and an
upload request that would succeed with id `42`, `handleSubmit` sends nothing and does not
navigate: the job text is blank and validation fails. -/
theorem handleSubmit_nonempty_blank_counterexample :
    (" " : String) ≠ ""
    ∧ (handleSubmit ⟨some ⟨"cv.pdf", 1024⟩, " ", "Fullstack", false⟩
          (.resolved (some ⟨some "42"⟩))).2
        = [.preventDefault, .toastError "Please enter a job description"]
    ∧ Effect.navigate "/results/42" ∉
        (handleSubmit ⟨some ⟨"cv.pdf", 1024⟩, " ", "Fullstack", false⟩
          (.resolved (some ⟨some "42"⟩))).2
    ∧ ((handleSubmit ⟨some ⟨"cv.pdf", 1024⟩, " ", "Fullstack", false⟩
          (.resolved (some ⟨some "42"⟩))).2.any Effect.isPost) = false := by
  refine ⟨by decide, by decide, by decide, by decide⟩

/-- C9 (amended). For every file and every job text that is not blank (it has a character
that is not white space), when the upload request succeeds and returns an id,
`handleSubmit` sends one POST to `/api/uploadResume` with exactly the fields `file`,
`jobText` and `domain`, then navigates to `/results/<id>`; for an id that is a plain path
segment the route table renders the results view for that id. -/
theorem handleSubmit_success (file : UploadFile) (jobText domain : String)
    (uploading : Bool) (ident : String) (hjob : ¬ isBlank jobText) :
    handleSubmit ⟨some file, jobText, domain, uploading⟩ (.resolved (some ⟨some ident⟩))
      = (⟨some file, jobText, domain, false⟩,
         [.preventDefault,
          .httpPost "/api/uploadResume"
            [("file", .file file), ("jobText", .text jobText), ("domain", .text domain)]
            [("Content-Type", "multipart/form-data")],
          .toastSuccess "Resume analyzed successfully!",
          .navigate ("/results/" ++ ident)])
    ∧ (isPlainId ident = true →
        matchRoute ("/results/" ++ ident) = some (.results ident)) := by
  refine ⟨?_, matchRoute_results ident⟩
  have ht : ¬ jsTrim jobText = "" := fun h => hjob ((jsTrim_eq_empty_iff _).mp h)
  simp [handleSubmit, ht, uploadRequest, idText]

/-- Witness for C9 (amended): a file, the job text `Backend engineer`, the id `42`. -/
theorem handleSubmit_success_witness :
    (handleSubmit ⟨some ⟨"cv.pdf", 1024⟩, "Backend engineer", "Cloud", false⟩
        (.resolved (some ⟨some "42"⟩))).2
      = [.preventDefault,
          .httpPost "/api/uploadResume"
            [("file", .file ⟨"cv.pdf", 1024⟩), ("jobText", .text "Backend engineer"),
             ("domain", .text "Cloud")]
            [("Content-Type", "multipart/form-data")],
          .toastSuccess "Resume analyzed successfully!",
          .navigate "/results/42"]
    ∧ matchRoute "/results/42" = some (.results "42") :=
  ⟨congrArg Prod.snd
      (handleSubmit_success ⟨"cv.pdf", 1024⟩ "Backend engineer" "Cloud" false "42"
        (by decide)).1,
   (handleSubmit_success ⟨"cv.pdf", 1024⟩ "Backend engineer" "Cloud" false "42"
        (by decide)).2 (by decide)⟩

/-- C10. When the resumes request or the jobs request fails, `fetchData` leaves the
stored resumes, jobs and statistics exactly as they were, and reports the failure with
one error notification; both requests have been issued. -/
theorem fetchData_failure_keeps_state (s : AdminState)
    (resumesResponse : Option (List Resume)) (jobsResponse : Option (List Job))
    (h : resumesResponse = none ∨ jobsResponse = none) :
    (fetchData s resumesResponse jobsResponse).1.resumes = s.resumes
    ∧ (fetchData s resumesResponse jobsResponse).1.jobs = s.jobs
    ∧ (fetchData s resumesResponse jobsResponse).1.stats = s.stats
    ∧ (fetchData s resumesResponse jobsResponse).2
        = [.httpGet "/api/resumes", .httpGet "/api/jobs",
           .consoleError "Error fetching data:", .toastError "Failed to load admin data"]
    ∧ ((fetchData s resumesResponse jobsResponse).2.filter Effect.isToastError).length
        = 1 := by
  have hout : fetchData s resumesResponse jobsResponse
      = ({ s with loading := false },
         [.httpGet "/api/resumes", .httpGet "/api/jobs",
          .consoleError "Error fetching data:",
          .toastError "Failed to load admin data"]) := by
    unfold fetchData
    rcases h with h | h
    · subst h; rfl
    · subst h
      cases resumesResponse <;> rfl
  rw [hout]
  exact ⟨rfl, rfl, rfl, rfl, rfl⟩

/-- Witness for C10: the resumes request returns one scored record and the jobs request
fails; the statistics stay those of the initial state. -/
theorem fetchData_failure_keeps_state_witness :
    (fetchData AdminState.initial (some [Resume.sample (some "Data") (some 0.8)]) none).1.stats
      = AdminState.initial.stats
    ∧ (fetchData AdminState.initial (some [Resume.sample (some "Data") (some 0.8)]) none).1.resumes
      = [] :=
  ⟨(fetchData_failure_keeps_state AdminState.initial
      (some [Resume.sample (some "Data") (some 0.8)]) none (Or.inr rfl)).2.2.1,
   (fetchData_failure_keeps_state AdminState.initial
      (some [Resume.sample (some "Data") (some 0.8)]) none (Or.inr rfl)).1⟩

theorem jsNumberToString_int (n : ℤ) (hn : n.natAbs < 10 ^ 21) :
    jsNumberToString (.fin (n : ℚ)) = some (toString n) := by
  simp only [jsNumberToString, Rat.intCast_den, Rat.intCast_num, true_and, if_pos hn]

theorem roundDouble_zero : roundDouble 0 = .fin 0 := by
  simp [roundDouble]

theorem jsMul_zero : jsMul (.fin 0) (.fin 100) = .fin ((0 : ℤ) : ℚ) := by
  simp [jsMul, roundDouble_zero]

theorem mathRound_zero : mathRound (.fin ((0 : ℤ) : ℚ)) = .fin ((0 : ℤ) : ℚ) := by
  simp only [mathRound, Int.cast_zero, zero_add]
  have h : Rat.floor (1 / 2) = 0 := by
    show ⌊(1 / 2 : ℚ)⌋ = 0
    rw [Int.floor_eq_iff]
    norm_num
  rw [h, Int.cast_zero]

theorem percentLabel_zero : percentLabel (.fin 0) = some "0%" := by
  rw [percentLabel, jsMul_zero, mathRound_zero, jsNumberToString_int 0 (by norm_num)]
  decide

theorem percentWidth_zero : percentWidth (.fin 0) = some "0%" := by
  rw [percentWidth, jsMul_zero, jsNumberToString_int 0 (by norm_num)]
  decide

/-- C12. For a record with no evaluation result and no parsed entities the results view
derives: overall score `0%` in the danger tier (text, background and bar), skill,
experience and education percentages `0%` with bars of width `0%`, the recommendation
`Unknown` in the neutral style, the best model `N/A`, empty matched, missing and
extracted skill lists with their placeholder lines, and `0 years` of experience.  (The
Text Similarity block of the same view is the subject of C1.) -/
theorem renderResults_unscored (resume : Resume)
    (hevaluation : resume.evaluationResult = none)
    (hparsed : resume.parsedEntities = none) :
    (renderResults resume).scoreLabel = some "0%"
    ∧ (renderResults resume).scoreColor = "text-danger-600"
    ∧ (renderResults resume).scoreBgColor = "bg-danger-100"
    ∧ (renderResults resume).scoreBarColor = "bg-danger-500"
    ∧ (renderResults resume).scoreBarWidth = some "0%"
    ∧ (renderResults resume).skillLabel = some "0%"
    ∧ (renderResults resume).skillWidth = some "0%"
    ∧ (renderResults resume).experienceLabel = some "0%"
    ∧ (renderResults resume).experienceWidth = some "0%"
    ∧ (renderResults resume).educationLabel = some "0%"
    ∧ (renderResults resume).educationWidth = some "0%"
    ∧ (renderResults resume).recommendationText = "Unknown"
    ∧ (renderResults resume).recommendationStyle = "bg-gray-100 text-gray-800 border-gray-200"
    ∧ (renderResults resume).bestModel = "N/A"
    ∧ (renderResults resume).matchedSkills = []
    ∧ (renderResults resume).noMatchedSkills = true
    ∧ (renderResults resume).missingSkills = []
    ∧ (renderResults resume).noMissingSkills = true
    ∧ (renderResults resume).extractedSkills = []
    ∧ (renderResults resume).noExtractedSkills = true
    ∧ (renderResults resume).experienceYears = some "0 years" := by
  have hlabel : percentLabel (.fin 0) = some "0%" := percentLabel_zero
  have hwidth : percentWidth (.fin 0) = some "0%" := percentWidth_zero
  have hyears : (jsNumberToString (.fin 0)).map (· ++ " years") = some "0 years" := by
    have h := jsNumberToString_int 0 (by norm_num)
    rw [Int.cast_zero] at h
    rw [h]
    decide
  have hcolor : getScoreColor (.fin 0) = "text-danger-600" := by
    simp [getScoreColor, jsGe]; norm_num
  have hbg : getScoreBgColor (.fin 0) = "bg-danger-100" := by
    simp [getScoreBgColor, jsGe]; norm_num
  have hbar : scoreBarColor (.fin 0) = "bg-danger-500" := by
    simp [scoreBarColor, jsGe]; norm_num
  simp only [renderResults, hevaluation, hparsed, Option.bind, jsOrZero, hlabel, hwidth,
    hyears, hcolor, hbg, hbar, recommendationText, recommendationBadge, jsOrStr,
    Option.getD, listIsMissingOrEmpty, true_and]
  decide

/-- Witness for C12: a record that carries only its identity, file name, domain and date. -/
theorem renderResults_unscored_witness :
    (renderResults (Resume.unscored "r1" "cv.pdf" (some "Data") "2024-01-01")).scoreLabel
      = some "0%"
    ∧ (renderResults (Resume.unscored "r1" "cv.pdf" (some "Data") "2024-01-01")).bestModel
      = "N/A" :=
  ⟨(renderResults_unscored (Resume.unscored "r1" "cv.pdf" (some "Data") "2024-01-01")
      rfl rfl).1,
   (renderResults_unscored (Resume.unscored "r1" "cv.pdf" (some "Data") "2024-01-01")
      rfl rfl).2.2.2.2.2.2.2.2.2.2.2.2.2.1⟩

/-- C13. For every score (a finite number, an infinity or NaN) the three places that
bucket a score select the same tier: `getScoreColor`, `getScoreBgColor` and the inline
class of the overall-score bar return the text, background and bar colour of the one tier
the rule `>= 0.8`, `>= 0.6` assigns; the colours of different tiers differ, so each tier
has one fixed pairing; the results view applies all three to the same score. -/
theorem score_buckets_agree :
    (∀ score : JSNum,
        getScoreColor score = (classify score).textColor
        ∧ getScoreBgColor score = (classify score).bgColor
        ∧ scoreBarColor score = (classify score).barColor)
    ∧ (∀ t u : Tier, t.textColor = u.textColor ∨ t.bgColor = u.bgColor
        ∨ t.barColor = u.barColor ↔ t = u)
    ∧ (∀ resume : Resume, ∃ t : Tier,
        (renderResults resume).scoreColor = t.textColor
        ∧ (renderResults resume).scoreBgColor = t.bgColor
        ∧ (renderResults resume).scoreBarColor = t.barColor) := by
  have hall : ∀ score : JSNum,
      getScoreColor score = (classify score).textColor
      ∧ getScoreBgColor score = (classify score).bgColor
      ∧ scoreBarColor score = (classify score).barColor := by
    intro score
    unfold getScoreColor getScoreBgColor scoreBarColor classify
    by_cases h8 : jsGe score (.fin 0.8) = true
    · simp only [h8, if_true]
      exact ⟨rfl, rfl, rfl⟩
    · by_cases h6 : jsGe score (.fin 0.6) = true
      · simp only [h8, h6, if_true]
        exact ⟨rfl, rfl, rfl⟩
      · simp only [h8, h6]
        exact ⟨rfl, rfl, rfl⟩
  refine ⟨hall, ?_, ?_⟩
  · intro t u
    cases t <;> cases u <;> decide
  · intro resume
    exact ⟨_, hall _⟩

theorem handleSubmit_isUploading (s : UploadState) (outcome : PostOutcome)
    (hidle : s.isUploading = false) : (handleSubmit s outcome).1.isUploading = false := by
  unfold handleSubmit
  cases hf : s.file with
  | none => simpa using hidle
  | some file =>
    by_cases ht : jsTrim s.jobText = ""
    · simpa [ht] using hidle
    · cases outcome with
      | resolved data => cases data <;> simp [ht]
      | rejected => simp [ht]

theorem formStep_isUploading (s : UploadState) (event : FormEvent)
    (hidle : s.isUploading = false) : (formStep s event).isUploading = false := by
  cases event with
  | drop acceptedFiles =>
    simp only [formStep, onDrop]
    split <;> exact hidle
  | remove => simpa [formStep, removeFile] using hidle
  | editJobText value => simpa [formStep] using hidle
  | selectDomain value => simpa [formStep] using hidle
  | submit outcome => exact handleSubmit_isUploading s outcome hidle

theorem foldl_formStep_isUploading (events : List FormEvent) (s : UploadState)
    (hidle : s.isUploading = false) : (events.foldl formStep s).isUploading = false := by
  induction events generalizing s with
  | nil => exact hidle
  | cons event rest ih => exact ih _ (formStep_isUploading s event hidle)

/-- C16. When validation passed and the upload request fails (it is rejected, or its
response has no body), `handleSubmit` issues the request, notifies the error, does not
navigate, leaves `file`, `jobText` and `domain` as they were and sets `isUploading` to
false.  Whenever validation passed `isUploading` is false on completion; on a validation
failure it is left as it was, hence false as well: it is false in every state the form
reaches from its initial state by a sequence of events handled to completion. -/
theorem handleSubmit_failure_recovers :
    (∀ (s : UploadState) (file : UploadFile) (outcome : PostOutcome),
        s.file = some file → ¬ isBlank s.jobText →
        outcome = .rejected ∨ outcome = .resolved none →
        (handleSubmit s outcome).1 = { s with isUploading := false }
        ∧ Effect.toastError "Failed to upload resume. Please try again."
            ∈ (handleSubmit s outcome).2
        ∧ ((handleSubmit s outcome).2.filter Effect.isToastError).length = 1
        ∧ (∀ e ∈ (handleSubmit s outcome).2, e.isNavigate = false)
        ∧ uploadRequest file s.jobText s.domain ∈ (handleSubmit s outcome).2)
    ∧ (∀ (s : UploadState) (file : UploadFile) (outcome : PostOutcome),
        s.file = some file → ¬ isBlank s.jobText →
        (handleSubmit s outcome).1.isUploading = false)
    ∧ (∀ (s : UploadState) (outcome : PostOutcome),
        s.isUploading = false → (handleSubmit s outcome).1.isUploading = false)
    ∧ (∀ events : List FormEvent, (runForm events).isUploading = false) := by
  refine ⟨?_, ?_, handleSubmit_isUploading, ?_⟩
  · intro s file outcome hf hjob hout
    have ht : ¬ jsTrim s.jobText = "" := fun h => hjob ((jsTrim_eq_empty_iff _).mp h)
    rcases hout with rfl | rfl
    · simp [handleSubmit, hf, ht, Effect.isToastError, Effect.isNavigate, uploadRequest]
    · simp [handleSubmit, hf, ht, Effect.isToastError, Effect.isNavigate, uploadRequest]
  · intro s file outcome hf hjob
    have ht : ¬ jsTrim s.jobText = "" := fun h => hjob ((jsTrim_eq_empty_iff _).mp h)
    cases outcome with
    | resolved data => cases data <;> simp [handleSubmit, hf, ht]
    | rejected => simp [handleSubmit, hf, ht]
  · intro events
    exact foldl_formStep_isUploading events UploadState.initial rfl

/-- Witness for C16: a file, the job text `Backend engineer`, and a rejected request. -/
theorem handleSubmit_failure_recovers_witness :
    handleSubmit ⟨some ⟨"cv.pdf", 1024⟩, "Backend engineer", "Cloud", false⟩ .rejected
      = (⟨some ⟨"cv.pdf", 1024⟩, "Backend engineer", "Cloud", false⟩,
         [.preventDefault,
          uploadRequest ⟨"cv.pdf", 1024⟩ "Backend engineer" "Cloud",
          .consoleError "Upload error:",
          .toastError "Failed to upload resume. Please try again."])
    ∧ (handleSubmit ⟨some ⟨"cv.pdf", 1024⟩, "Backend engineer", "Cloud", false⟩
        .rejected).1
      = { (⟨some ⟨"cv.pdf", 1024⟩, "Backend engineer", "Cloud", false⟩ : UploadState) with
          isUploading := false } :=
  ⟨by decide,
   (handleSubmit_failure_recovers.1
      ⟨some ⟨"cv.pdf", 1024⟩, "Backend engineer", "Cloud", false⟩ ⟨"cv.pdf", 1024⟩
      .rejected rfl (by decide) (Or.inl rfl)).1⟩

/-- C17. The markup of `Admin` refers to the component `Briefcase` (the icon of the
Total Jobs card), which is neither imported nor defined in `Admin.js`: the components the
view uses are not all among the names it binds, while every other one is an imported
icon. -/
theorem admin_uses_unbound_Briefcase :
    "Briefcase" ∈ adminUsedComponents
    ∧ "Briefcase" ∉ adminImportedIcons
    ∧ "Briefcase" ∉ adminBoundNames ++ adminLocalNames
    ∧ ¬ (adminUsedComponents ⊆ adminBoundNames ++ adminLocalNames)
    ∧ ¬ (adminUsedComponents ⊆ adminImportedIcons)
    ∧ (∀ name ∈ adminUsedComponents, name ≠ "Briefcase" → name ∈ adminImportedIcons) := by
  refine ⟨by decide, by decide, by decide, ?_, ?_, by decide⟩
  · intro h
    exact absurd (h (by decide : "Briefcase" ∈ adminUsedComponents)) (by decide)
  · intro h
    exact absurd (h (by decide : "Briefcase" ∈ adminUsedComponents)) (by decide)

/-- Witness for C17: `FileText`, used by the Total Resumes card, is an imported icon. -/
theorem admin_uses_unbound_Briefcase_witness : "FileText" ∈ adminImportedIcons :=
  admin_uses_unbound_Briefcase.2.2.2.2.2 "FileText" (by decide) (by decide)

theorem initial_stats_consistent :
    AdminState.initial.stats
      = computeStats AdminState.initial.resumes AdminState.initial.jobs := by
  rfl

theorem adminStep_stats_consistent (s : AdminState) (op : AdminOp)
    (hs : s.stats = computeStats s.resumes s.jobs) :
    (adminStep s op).stats = computeStats (adminStep s op).resumes (adminStep s op).jobs := by
  cases op with
  | fetch resumesResponse jobsResponse =>
    cases resumesResponse with
    | none => exact hs
    | some resumesData =>
      cases jobsResponse with
      | none => exact hs
      | some jobsData => rfl
  | exportFile now => exact hs
  | jobUpload files =>
    simp only [adminStep, handleJobUpload]
    split <;> exact hs

theorem foldl_adminStep_stats_consistent (ops : List AdminOp) (s : AdminState)
    (hs : s.stats = computeStats s.resumes s.jobs) :
    (ops.foldl adminStep s).stats
      = computeStats (ops.foldl adminStep s).resumes (ops.foldl adminStep s).jobs := by
  induction ops generalizing s with
  | nil => exact hs
  | cons op rest ih => exact ih _ (adminStep_stats_consistent s op hs)

/-- C18. After every sequence of admin-view operations from the initial state (fetches
that succeed or fail, exports, job-taxonomy uploads) the stored statistics are those
computed from the stored resumes and jobs: `totalResumes` and `totalJobs` are the two
lengths, `avgScore` and `domainDistribution` are derived from the stored resumes; an
export made then carries statistics consistent with the resumes and jobs it carries. -/
theorem admin_stats_consistent (ops : List AdminOp) (now : String) :
    (runAdmin ops).stats = computeStats (runAdmin ops).resumes (runAdmin ops).jobs
    ∧ (runAdmin ops).stats.totalResumes = (runAdmin ops).resumes.length
    ∧ (runAdmin ops).stats.totalJobs = (runAdmin ops).jobs.length
    ∧ (runAdmin ops).stats.avgScore = avgScore (runAdmin ops).resumes
    ∧ (runAdmin ops).stats.domainDistribution = domainDistribution (runAdmin ops).resumes
    ∧ (exportData (runAdmin ops) now).2.stats
        = computeStats (exportData (runAdmin ops) now).2.resumes
            (exportData (runAdmin ops) now).2.jobs
    ∧ (exportData (runAdmin ops) now).1 = runAdmin ops := by
  have h : (runAdmin ops).stats
      = computeStats (runAdmin ops).resumes (runAdmin ops).jobs :=
    foldl_adminStep_stats_consistent ops AdminState.initial initial_stats_consistent
  refine ⟨h, ?_, ?_, ?_, ?_, h, rfl⟩
  · rw [h]; rfl
  · rw [h]; rfl
  · rw [h]; rfl
  · rw [h]; rfl

theorem map_replace_of_not_mem (acc : CountObject) (key : String) (v : JSCount)
    (hkey : key ∉ acc.map Prod.fst) :
    acc.map (fun p => if p.1 = key then (p.1, v) else p) = acc := by
  induction acc with
  | nil => rfl
  | cons p ps ih =>
    have hp : ¬ p.1 = key := fun h => hkey (by simp [h])
    have hps : key ∉ ps.map Prod.fst := fun h => hkey (by simp [List.mem_map] at h ⊢; exact Or.inr h)
    simp only [List.map_cons, if_neg hp, ih hps]

theorem setCount_step (acc : CountObject) (key : String) (hacc : acc.Counted)
    (hkey : key ∉ objectPrototypeNames) :
    (setCount acc key (incrementCount (getCount acc key))).Counted
    ∧ countTotal (setCount acc key (incrementCount (getCount acc key)))
        = countTotal acc + 1 := by
  have hproto : key ≠ "__proto__" := fun h => hkey (h ▸ proto_mem_objectPrototypeNames)
  obtain ⟨hnodup, hpos⟩ := hacc
  cases hlook : acc.lookup key with
  | none =>
    have hnotin : key ∉ acc.map Prod.fst := by
      intro hmem
      obtain ⟨p, hp, hpk⟩ := List.mem_map.mp hmem
      have := (List.lookup_eq_none_iff.mp hlook) p hp
      simp [hpk] at this
    have hset : setCount acc key (incrementCount (getCount acc key))
        = acc ++ [(key, .number 1)] := by
      simp [setCount, getCount, hlook, hproto, hkey, incrementCount]
    rw [hset]
    refine ⟨⟨?_, ?_⟩, ?_⟩
    · rw [List.map_append, List.nodup_append]
      refine ⟨hnodup, by simp, ?_⟩
      intro a ha hb
      simp at hb
      exact hnotin (hb ▸ ha)
    · intro p hp
      rcases List.mem_append.mp hp with h | h
      · exact hpos p h
      · simp at h
        exact ⟨1, by rw [h], le_refl 1⟩
    · simp [countTotal, JSCount.value]
  | some v =>
    obtain ⟨l₁, l₂, hsplit, hl₁⟩ := List.lookup_eq_some_iff.mp hlook
    obtain ⟨m, hm, hm1⟩ := hpos (key, v) (by rw [hsplit]; simp)
    simp only at hm
    subst hm
    rw [hsplit, List.map_append, List.map_cons, List.nodup_append] at hnodup
    obtain ⟨hn₁, hn₂, hdisj⟩ := hnodup
    have hk₁ : key ∉ l₁.map Prod.fst := by
      intro hmem
      exact hdisj hmem (by simp)
    have hk₂ : key ∉ l₂.map Prod.fst := (List.nodup_cons.mp hn₂).1
    have hset : setCount acc key (incrementCount (getCount acc key))
        = l₁ ++ (key, .number (m + 1)) :: l₂ := by
      simp only [setCount, getCount, hlook, if_neg hproto, Option.isSome_some, if_true,
        incrementCount]
      rw [hsplit, List.map_append, List.map_cons, map_replace_of_not_mem l₁ key _ hk₁,
        map_replace_of_not_mem l₂ key _ hk₂]
      simp
    rw [hset]
    refine ⟨⟨?_, ?_⟩, ?_⟩
    · rw [List.map_append, List.map_cons, List.nodup_append]
      exact ⟨hn₁, hn₂, hdisj⟩
    · intro p hp
      rcases List.mem_append.mp hp with h | h
      · exact hpos p (by rw [hsplit]; exact List.mem_append_left _ h)
      · rcases List.mem_cons.mp h with h | h
        · exact ⟨m + 1, by rw [h], by omega⟩
        · exact hpos p (by rw [hsplit]; exact List.mem_append_right _ (List.mem_cons_of_mem _ h))
    · rw [hsplit]
      simp [countTotal, JSCount.value]
      omega

/-- C19. For every collection of resume records none of whose labels is a property name
inherited from `Object.prototype`, every label of the computed `domainDistribution`
occurs once, every count is a number at least 1, and the counts sum to `totalResumes`,
the number of records. -/
theorem domainDistribution_counts_sum (data : List Resume) (jobsData : List Job)
    (hlabels : ∀ resume ∈ data, domainLabel resume ∉ objectPrototypeNames) :
    ((domainDistribution data).map Prod.fst).Nodup
    ∧ (∀ p ∈ domainDistribution data, ∃ n : Nat, p.2 = .number n ∧ 1 ≤ n)
    ∧ countTotal (domainDistribution data) = data.length
    ∧ countTotal (computeStats data jobsData).domainDistribution
        = (computeStats data jobsData).totalResumes := by
  have key : (domainDistribution data).Counted
      ∧ countTotal (domainDistribution data) = data.length := by
    induction data using List.reverseRecOn with
    | nil => exact ⟨⟨by simp [domainDistribution], by simp [domainDistribution]⟩, rfl⟩
    | append_singleton data resume ih =>
      have hdata : ∀ r ∈ data, domainLabel r ∉ objectPrototypeNames :=
        fun r hr => hlabels r (List.mem_append_left _ hr)
      have hres : domainLabel resume ∉ objectPrototypeNames :=
        hlabels resume (List.mem_append_right _ (List.mem_singleton_self _))
      obtain ⟨hcounted, htotal⟩ := ih hdata
      have hstep := setCount_step (domainDistribution data) (domainLabel resume) hcounted hres
      rw [domainDistribution_append]
      refine ⟨hstep.1, ?_⟩
      rw [hstep.2, htotal, List.length_append, List.length_singleton]
  exact ⟨key.1.1, key.1.2, key.2, key.2⟩

/-- Witness for C19: the records with domains `Data`, the empty string and `Data`. -/
theorem domainDistribution_counts_sum_witness :
    countTotal (domainDistribution [Resume.sample (some "Data") none,
        Resume.sample (some "") none, Resume.sample (some "Data") none]) = 3 :=
  (domainDistribution_counts_sum
    [Resume.sample (some "Data") none, Resume.sample (some "") none,
      Resume.sample (some "Data") none] [] (by decide)).2.2.1

theorem sum_bounds_of_unit (l : List ℚ) (hl : ∀ x ∈ l, 0 ≤ x ∧ x ≤ 1) :
    0 ≤ l.sum ∧ l.sum ≤ (l.length : ℚ) := by
  induction l with
  | nil => simp
  | cons x xs ih =>
    have hx := hl x (List.mem_cons_self _ _)
    have hxs := ih (fun y hy => hl y (List.mem_cons_of_mem _ hy))
    simp only [List.sum_cons, List.length_cons]
    push_cast
    constructor <;> linarith [hx.1, hx.2, hxs.1, hxs.2]

theorem scoreContribution_unit (resume : Resume)
    (hrange : ∀ evaluation, resume.evaluationResult = some evaluation →
      ∀ score, evaluation.finalScore = some score → 0 ≤ score ∧ score ≤ 1) :
    0 ≤ scoreContribution resume ∧ scoreContribution resume ≤ 1 := by
  unfold scoreContribution
  cases he : resume.evaluationResult with
  | none => simp
  | some evaluation =>
    cases hs : evaluation.finalScore with
    | none => simp [hs]
    | some score => simpa [hs] using hrange evaluation he score hs

theorem initial_results_consistent : ResultsState.initial.Consistent := by
  refine ⟨rfl, ?_, ?_, ?_⟩
  · intro request h; simp [ResultsState.initial] at h
  · intro request h; simp [ResultsState.initial] at h
  · intro record h; simp [ResultsState.initial] at h

theorem mem_fetchResume (mount : Nat) (id : String) (request : PendingFetch)
    (h : request ∈ fetchResume mount id) : request.mount = mount ∧ request.id = id := by
  unfold fetchResume at h
  by_cases hid : id = ""
  · simp [hid] at h
  · simp [hid] at h
    subst h
    exact ⟨rfl, rfl⟩

theorem resultsStep_respond_none (s : ResultsState) (k : Nat) (outcome : GetOutcome)
    (hget : s.pending.get? k = none) : resultsStep s (.respond k outcome) = s := by
  simp only [resultsStep, hget]

theorem resultsStep_respond_ok (s : ResultsState) (k : Nat) (request : PendingFetch)
    (data : Option Resume) (hget : s.pending.get? k = some request)
    (happly : s.mounted = true ∧ request.mount = s.mount) :
    resultsStep s (.respond k (.ok data))
      = { s with resume := data, loading := false, pending := s.pending.eraseIdx k,
                 shownFor := data.map (fun _ => request.id) } := by
  simp only [resultsStep, hget, happly, and_self, if_true]

theorem resultsStep_respond_failed (s : ResultsState) (k : Nat) (request : PendingFetch)
    (hget : s.pending.get? k = some request)
    (happly : s.mounted = true ∧ request.mount = s.mount) :
    resultsStep s (.respond k .failed)
      = { s with loading := false, pending := s.pending.eraseIdx k } := by
  simp only [resultsStep, hget, happly, and_self, if_true]

theorem resultsStep_respond_dropped (s : ResultsState) (k : Nat) (request : PendingFetch)
    (outcome : GetOutcome) (hget : s.pending.get? k = some request)
    (happly : ¬ (s.mounted = true ∧ request.mount = s.mount)) :
    resultsStep s (.respond k outcome) = { s with pending := s.pending.eraseIdx k } := by
  simp only [resultsStep, hget, happly, if_false]

theorem resultsStep_consistent (s : ResultsState) (event : ResultsEvent)
    (hs : s.Consistent) : (resultsStep s event).Consistent := by
  obtain ⟨hroute, hle, hpending, hshown⟩ := hs
  cases event with
  | route id =>
    by_cases hm : s.mounted = true
    · by_cases hsame : s.routeId = some id
      · have hstep : resultsStep s (.route id) = s := by
          simp only [resultsStep, hm, if_true, hsame]
        rw [hstep]
        exact ⟨hroute, hle, hpending, hshown⟩
      · have hstep : resultsStep s (.route id)
            = { s with routeId := some id,
                       pending := s.pending ++ fetchResume s.mount id,
                       routed := s.routed ++ [id] } := by
          simp only [resultsStep, hm, if_true, hsame, if_false]
        rw [hstep]
        refine ⟨(List.getLast?_concat _).symm, ?_, ?_, ?_⟩
        · intro request hr
          rcases List.mem_append.mp hr with h | h
          · exact hle request h
          · exact le_of_eq (mem_fetchResume _ _ _ h).1
        · intro request hr hmount
          rcases List.mem_append.mp hr with h | h
          · exact List.mem_append_left _ (hpending request h hmount)
          · rw [(mem_fetchResume _ _ _ h).2]
            exact List.mem_append_right _ (List.mem_singleton_self _)
        · intro record hrec
          obtain ⟨shown, hmem, heq⟩ := hshown record hrec
          exact ⟨shown, List.mem_append_left _ hmem, heq⟩
    · have hstep : resultsStep s (.route id)
          = { mounted := true, mount := s.mount + 1, routeId := some id, resume := none,
              loading := true, pending := s.pending ++ fetchResume (s.mount + 1) id,
              shownFor := none, routed := [id] } := by
        simp only [resultsStep, hm, Bool.false_eq_true, if_false]
      rw [hstep]
      refine ⟨rfl, ?_, ?_, ?_⟩
      · intro request hr
        rcases List.mem_append.mp hr with h | h
        · exact Nat.le_succ_of_le (hle request h)
        · exact le_of_eq (mem_fetchResume _ _ _ h).1
      · intro request hr hmount
        rcases List.mem_append.mp hr with h | h
        · have h1 := hle request h
          have h2 : request.mount = s.mount + 1 := hmount
          omega
        · rw [(mem_fetchResume _ _ _ h).2]
          exact List.mem_singleton_self _
      · intro record hrec
        exact absurd hrec (by simp)
  | respond k outcome =>
    cases hget : s.pending.get? k with
    | none =>
      rw [resultsStep_respond_none s k outcome hget]
      exact ⟨hroute, hle, hpending, hshown⟩
    | some request =>
      have hreq : request ∈ s.pending := List.get?_mem hget
      have hsub : ∀ r ∈ s.pending.eraseIdx k, r ∈ s.pending :=
        fun r hr => List.mem_of_mem_eraseIdx hr
      by_cases happly : s.mounted = true ∧ request.mount = s.mount
      · cases outcome with
        | ok data =>
          rw [resultsStep_respond_ok s k request data hget happly]
          refine ⟨hroute, fun r hr => hle r (hsub r hr),
            fun r hr hmount => hpending r (hsub r hr) hmount, ?_⟩
          intro record hrec
          have hdata : data = some record := hrec
          refine ⟨request.id, hpending request hreq happly.2, ?_⟩
          show Option.map (fun _ => request.id) data = some request.id
          rw [hdata]
          rfl
        | failed =>
          rw [resultsStep_respond_failed s k request hget happly]
          exact ⟨hroute, fun r hr => hle r (hsub r hr),
            fun r hr hmount => hpending r (hsub r hr) hmount, hshown⟩
      · rw [resultsStep_respond_dropped s k request outcome hget happly]
        exact ⟨hroute, fun r hr => hle r (hsub r hr),
          fun r hr hmount => hpending r (hsub r hr) hmount, hshown⟩
  | leave => exact ⟨hroute, hle, hpending, hshown⟩

theorem foldl_resultsStep_consistent (events : List ResultsEvent) (s : ResultsState)
    (hs : s.Consistent) : (events.foldl resultsStep s).Consistent := by
  induction events generalizing s with
  | nil => exact hs
  | cons event rest ih => exact ih _ (resultsStep_consistent s event hs)

/-- C15 (counterexample). The view is routed to `A` and then to `B`; the response for `B`
arrives, then the response for `A`.  The late response is applied: the view, routed to
`B` with no request left in flight, displays the record of `A`. -/
theorem results_stale_response_counterexample :
    displayedResume (runResults staleResponseTrace)
      = some (Resume.unscored "A" "a.pdf" none "2024-01-01")
    ∧ (runResults staleResponseTrace).routeId = some "B"
    ∧ (runResults staleResponseTrace).shownFor = some "A"
    ∧ (runResults staleResponseTrace).shownFor ≠ (runResults staleResponseTrace).routeId
    ∧ (runResults staleResponseTrace).pending = [] := by
  refine ⟨by decide, by decide, by decide, by decide, by decide⟩

/-- C15 (amended). In the results view a fetch result that arrives after the view has
been left is discarded and never applied, whereas a result that arrives while the view is
mounted is applied whatever id the view is routed to by then; at every moment the
displayed record, if any, is the response to a request for one of the ids the view has
been routed to since it was mounted (the current id or an earlier one), and it is the
response for the current id when the view has been routed to that id only. -/
theorem results_response_applied_while_mounted :
    (∀ (s : ResultsState) (k : Nat) (outcome : GetOutcome),
        s.mounted = false →
        (resultsStep s (.respond k outcome)).resume = s.resume
        ∧ (resultsStep s (.respond k outcome)).loading = s.loading
        ∧ (resultsStep s (.respond k outcome)).routeId = s.routeId
        ∧ (resultsStep s (.respond k outcome)).mounted = false)
    ∧ (∀ (s : ResultsState) (k : Nat) (request : PendingFetch) (data : Option Resume),
        s.mounted = true → s.pending.get? k = some request → request.mount = s.mount →
        (resultsStep s (.respond k (.ok data))).resume = data
        ∧ (resultsStep s (.respond k (.ok data))).loading = false
        ∧ (resultsStep s (.respond k (.ok data))).routeId = s.routeId)
    ∧ (∀ (events : List ResultsEvent) (record : Resume),
        displayedResume (runResults events) = some record →
        ∃ id ∈ (runResults events).routed, (runResults events).shownFor = some id)
    ∧ (∀ (events : List ResultsEvent) (record : Resume) (id : String),
        displayedResume (runResults events) = some record →
        (runResults events).routed = [id] →
        (runResults events).routeId = some id
        ∧ (runResults events).shownFor = (runResults events).routeId) := by
  have hcons : ∀ events : List ResultsEvent, (runResults events).Consistent :=
    fun events => foldl_resultsStep_consistent events _ initial_results_consistent
  have hdisp : ∀ (s : ResultsState) (record : Resume),
      displayedResume s = some record → s.resume = some record := by
    intro s record h
    unfold displayedResume at h
    by_cases hc : s.mounted = true ∧ s.loading = false
    · rwa [if_pos hc] at h
    · rw [if_neg hc] at h; exact absurd h (by simp)
  refine ⟨?_, ?_, ?_, ?_⟩
  · intro s k outcome hm
    cases hget : s.pending.get? k with
    | none =>
      rw [resultsStep_respond_none s k outcome hget]
      exact ⟨rfl, rfl, rfl, hm⟩
    | some request =>
      rw [resultsStep_respond_dropped s k request outcome hget (by simp [hm])]
      exact ⟨rfl, rfl, rfl, hm⟩
  · intro s k request data hm hget hmount
    rw [resultsStep_respond_ok s k request data hget ⟨hm, hmount⟩]
    exact ⟨rfl, rfl, rfl⟩
  · intro events record h
    exact (hcons events).2.2.2 record (hdisp _ record h)
  · intro events record id h hrouted
    obtain ⟨hroute, _, _, hshown⟩ := hcons events
    obtain ⟨shown, hmem, heq⟩ := hshown record (hdisp _ record h)
    rw [hrouted] at hmem hroute
    have hid : shown = id := by simpa using hmem
    subst hid
    have hr : (runResults events).routeId = some shown := by simpa using hroute
    exact ⟨hr, by rw [heq, hr]⟩

/-- Witness for C15 (amended): the view is opened on `A` and left before the response
arrives, which is then discarded; opened on `A` and kept, it displays the response. -/
theorem results_response_applied_while_mounted_witness :
    (resultsStep (runResults [.route "A", .leave])
        (.respond 0 (.ok (some (Resume.unscored "A" "a.pdf" none "2024-01-01"))))).resume
      = none
    ∧ (resultsStep (runResults [.route "A"])
        (.respond 0 (.ok (some (Resume.unscored "A" "a.pdf" none "2024-01-01"))))).resume
      = some (Resume.unscored "A" "a.pdf" none "2024-01-01")
    ∧ (runResults [.route "A",
          .respond 0 (.ok (some (Resume.unscored "A" "a.pdf" none "2024-01-01")))]).shownFor
      = (runResults [.route "A",
          .respond 0 (.ok (some (Resume.unscored "A" "a.pdf" none "2024-01-01")))]).routeId :=
  ⟨(results_response_applied_while_mounted.1 (runResults [.route "A", .leave]) 0
      (.ok (some (Resume.unscored "A" "a.pdf" none "2024-01-01"))) rfl).1,
   (results_response_applied_while_mounted.2.1 (runResults [.route "A"]) 0
      ⟨1, "A"⟩ (some (Resume.unscored "A" "a.pdf" none "2024-01-01")) rfl rfl rfl).1,
   (results_response_applied_while_mounted.2.2.2
      [.route "A", .respond 0 (.ok (some (Resume.unscored "A" "a.pdf" none "2024-01-01")))]
      (Resume.unscored "A" "a.pdf" none "2024-01-01") "A" (by decide) (by decide)).2⟩

/-! ## The export round trip -/

theorem skipSpace_cons_of_not_space (c : Char) (tail : List Char)
    (hc : isJsonSpace c = false) : skipSpace (c :: tail) = c :: tail := by
  simp [skipSpace, List.dropWhile_cons, hc]

theorem skipSpace_replicate (n : Nat) (rest : List Char) :
    skipSpace (List.replicate n ' ' ++ rest) = skipSpace rest := by
  induction n with
  | zero => rfl
  | succ n ih =>
    rw [List.replicate_succ, List.cons_append]
    have hs : isJsonSpace ' ' = true := by decide
    simp only [skipSpace, List.dropWhile_cons, hs, if_true] at ih ⊢
    exact ih

theorem skipSpace_newline (n : Nat) (rest : List Char) :
    skipSpace (newline n ++ rest) = skipSpace rest := by
  have hs : isJsonSpace '\n' = true := by decide
  rw [newline, List.cons_append]
  have := skipSpace_replicate n rest
  simp only [skipSpace, List.dropWhile_cons, hs, if_true] at this ⊢
  exact this

theorem hexCode_hexDigit (n : Nat) (hn : n < 32) :
    hexCode '0' '0' (hexDigit (n / 16)) (hexDigit (n % 16)) = some n := by
  interval_cases n <;> decide

theorem char_ofNat_toNat (c : Char) : Char.ofNat c.toNat = c := by
  simp [Char.ofNat, Char.toNat, c.valid, Char.ofNatAux]
  rfl

theorem escapeChar_head_ne_quote (c : Char) :
    ∃ d tail, escapeChar c = d :: tail ∧ d ≠ '"' := by
  unfold escapeChar
  by_cases h1 : c = '"'
  · simp only [h1, if_true]; exact ⟨_, _, rfl, by decide⟩
  by_cases h2 : c = '\\'
  · simp only [h1, h2, if_true, if_false]; exact ⟨_, _, rfl, by decide⟩
  by_cases h3 : c = '\x08'
  · simp only [h1, h2, h3, if_true, if_false]; exact ⟨_, _, rfl, by decide⟩
  by_cases h4 : c = '\x0c'
  · simp only [h1, h2, h3, h4, if_true, if_false]; exact ⟨_, _, rfl, by decide⟩
  by_cases h5 : c = '\n'
  · simp only [h1, h2, h3, h4, h5, if_true, if_false]; exact ⟨_, _, rfl, by decide⟩
  by_cases h6 : c = '\r'
  · simp only [h1, h2, h3, h4, h5, h6, if_true, if_false]; exact ⟨_, _, rfl, by decide⟩
  by_cases h7 : c = '\t'
  · simp only [h1, h2, h3, h4, h5, h6, h7, if_true, if_false]
    exact ⟨_, _, rfl, by decide⟩
  by_cases h8 : c.toNat < 32
  · simp only [h1, h2, h3, h4, h5, h6, h7, h8, if_true, if_false]
    exact ⟨_, _, rfl, by decide⟩
  · simp only [h1, h2, h3, h4, h5, h6, h7, h8, if_false]
    exact ⟨_, _, rfl, h1⟩

theorem readChar_escapeChar (c : Char) (rest : List Char) :
    readChar (escapeChar c ++ rest) = some (c, rest) := by
  unfold escapeChar
  by_cases h1 : c = '"'
  · subst h1; simp [readChar, unescapeChar]
  by_cases h2 : c = '\\'
  · subst h2; simp [readChar, unescapeChar]
  by_cases h3 : c = '\x08'
  · subst h3; simp [readChar, unescapeChar]
  by_cases h4 : c = '\x0c'
  · subst h4; simp [readChar, unescapeChar]
  by_cases h5 : c = '\n'
  · subst h5; simp [readChar, unescapeChar]
  by_cases h6 : c = '\r'
  · subst h6; simp [readChar, unescapeChar]
  by_cases h7 : c = '\t'
  · subst h7; simp [readChar, unescapeChar]
  simp only [h1, h2, h3, h4, h5, h6, h7, if_false]
  by_cases h8 : c.toNat < 32
  · simp only [h8, if_true, List.cons_append, List.nil_append]
    have hcode := hexCode_hexDigit c.toNat h8
    have hhi : ¬ (0xD800 ≤ c.toNat ∧ c.toNat < 0xDC00) := by omega
    have hlo : ¬ (0xDC00 ≤ c.toNat ∧ c.toNat < 0xE000) := by omega
    simp only [readChar, if_true, hcode, hhi, hlo, if_false, char_ofNat_toNat]
  · simp only [h8, if_false, List.cons_append, List.nil_append, readChar, h2]

theorem parseStringBody_flatMap (chars rest acc : List Char) (fuel : Nat)
    (hfuel : chars.length < fuel) :
    parseStringBody fuel (chars.flatMap escapeChar ++ ('"' :: rest)) acc
      = some (String.mk (acc.reverse ++ chars), rest) := by
  induction chars generalizing acc fuel with
  | nil =>
    obtain ⟨f, rfl⟩ := Nat.exists_eq_succ_of_ne_zero (Nat.ne_of_gt hfuel)
    simp [parseStringBody]
  | cons c cs ih =>
    obtain ⟨f, rfl⟩ := Nat.exists_eq_succ_of_ne_zero
      (Nat.ne_of_gt (Nat.lt_of_le_of_lt (Nat.zero_le _) hfuel))
    obtain ⟨d, tail, hd, hne⟩ := escapeChar_head_ne_quote c
    have hread := readChar_escapeChar c (cs.flatMap escapeChar ++ ('"' :: rest))
    rw [List.flatMap_cons, List.append_assoc]
    rw [hd] at hread ⊢
    rw [List.cons_append] at hread ⊢
    rw [parseStringBody]
    simp only [hne, if_false, hread]
    rw [ih (c :: acc) f (by simpa using hfuel)]
    simp

theorem length_le_flatMap_escapeChar (chars : List Char) :
    chars.length ≤ (chars.flatMap escapeChar).length := by
  induction chars with
  | nil => simp
  | cons c cs ih =>
    obtain ⟨d, tail, hd, _⟩ := escapeChar_head_ne_quote c
    rw [List.flatMap_cons, List.length_append, hd]
    simp only [List.length_cons]
    omega

theorem parse_quoteJson (s : String) (rest : List Char) :
    ∃ tail, quoteJson s ++ rest = '"' :: tail
      ∧ parseString tail = some (s, rest) := by
  refine ⟨s.data.flatMap escapeChar ++ ('"' :: rest), ?_, ?_⟩
  · simp [quoteJson]
  · rw [parseString, parseStringBody_flatMap]
    · simp
    · have := length_le_flatMap_escapeChar s.data
      simp only [List.length_append, List.length_cons]
      omega

theorem setMember_of_not_mem (members : List (String × Json)) (key : String) (value : Json)
    (hkey : key ∉ members.map Prod.fst) :
    setMember members key value = members ++ [(key, value)] := by
  unfold setMember
  have hany : members.any (fun p => decide (p.1 = key)) = false := by
    rw [List.any_eq_false]
    intro p hp h
    exact hkey (List.mem_map.mpr ⟨p, hp, by simpa using h⟩)
  simp [hany]

theorem foldl_setMember_of_nodup (members acc : List (String × Json))
    (hnodup : ((acc ++ members).map Prod.fst).Nodup) :
    members.foldl (fun acc p => setMember acc p.1 p.2) acc = acc ++ members := by
  induction members generalizing acc with
  | nil => simp
  | cons m ms ih =>
    have hm : m.1 ∉ acc.map Prod.fst := by
      rw [List.map_append, List.map_cons, List.nodup_append] at hnodup
      intro h
      exact hnodup.2.2 h (List.mem_cons_self _ _)
    rw [List.foldl_cons, setMember_of_not_mem _ _ _ hm, ih]
    · simp
    · simpa using hnodup

theorem buildObject_of_nodup (members : List (String × Json))
    (hnodup : (members.map Prod.fst).Nodup) : buildObject members = members := by
  have := foldl_setMember_of_nodup members [] (by simpa using hnodup)
  simpa [buildObject] using this

theorem isDigit_ne (c d : Char) (hc : c = '-' ∨ c.isDigit = true)
    (hd : d ≠ '-') (hd2 : d.isDigit = false) : c ≠ d := by
  intro h
  subst h
  rcases hc with h | h
  · exact hd h
  · rw [hd2] at h; exact absurd h (by decide)

theorem isDigit_not_space (c : Char) (hc : c = '-' ∨ c.isDigit = true) :
    isJsonSpace c = false := by
  have h1 := isDigit_ne c ' ' hc (by decide) (by decide)
  have h2 := isDigit_ne c '\n' hc (by decide) (by decide)
  have h3 := isDigit_ne c '\r' hc (by decide) (by decide)
  have h4 := isDigit_ne c '\t' hc (by decide) (by decide)
  simp [isJsonSpace, h1, h2, h3, h4]

theorem quoteJson_eq (s : String) :
    quoteJson s = '"' :: (s.data.flatMap escapeChar ++ ['"']) := rfl

/-- The first character of the text of a value is not white space and is neither a
closing bracket nor a closing brace. -/
theorem printValue_head (fmt : NumberFormat) (gap indent : Nat) (v : Json)
    (hnum : ∀ x ∈ v.numbers, fmt.RoundTrips x) :
    ∃ c tail, printValue fmt gap indent v = c :: tail
      ∧ isJsonSpace c = false ∧ c ≠ ']' ∧ c ≠ '\x7d' := by
  cases v with
  | null => simp only [printValue]; exact ⟨_, _, rfl, by decide, by decide, by decide⟩
  | bool b =>
    cases b
    · simp only [printValue]; exact ⟨_, _, rfl, by decide, by decide, by decide⟩
    · simp only [printValue]; exact ⟨_, _, rfl, by decide, by decide, by decide⟩
  | num x =>
    obtain ⟨⟨c, tail, hprint, hc⟩, _⟩ := hnum x (by simp [Json.numbers])
    simp only [printValue]
    exact ⟨c, tail, hprint, isDigit_not_space c hc,
      isDigit_ne c _ hc (by decide) (by decide), isDigit_ne c _ hc (by decide) (by decide)⟩
  | str s =>
    simp only [printValue, quoteJson_eq]
    exact ⟨_, _, rfl, by decide, by decide, by decide⟩
  | arr items =>
    cases items with
    | nil => simp only [printValue]; exact ⟨_, _, rfl, by decide, by decide, by decide⟩
    | cons v vs =>
      simp only [printValue]; exact ⟨_, _, rfl, by decide, by decide, by decide⟩
  | obj members =>
    cases members with
    | nil => simp only [printValue]; exact ⟨_, _, rfl, by decide, by decide, by decide⟩
    | cons m ms =>
      obtain ⟨k, v⟩ := m
      simp only [printValue]; exact ⟨_, _, rfl, by decide, by decide, by decide⟩

theorem tokenEnd_printItems (fmt : NumberFormat) (gap indent closing : Nat)
    (vs : List Json) (rest : List Char) :
    TokenEnd (printItems fmt gap indent vs ++ (newline closing ++ rest)) := by
  cases vs with
  | nil =>
    simp only [printItems, newline, List.nil_append, List.cons_append]
    exact Or.inr ⟨_, Or.inr rfl⟩
  | cons v vs =>
    simp only [printItems, List.cons_append]
    exact Or.inr ⟨_, Or.inl rfl⟩

theorem tokenEnd_printMembers (fmt : NumberFormat) (gap indent closing : Nat)
    (ms : List (String × Json)) (rest : List Char) :
    TokenEnd (printMembers fmt gap indent ms ++ (newline closing ++ rest)) := by
  cases ms with
  | nil =>
    simp only [printMembers, newline, List.nil_append, List.cons_append]
    exact Or.inr ⟨_, Or.inr rfl⟩
  | cons m ms =>
    obtain ⟨k, v⟩ := m
    simp only [printMembers, List.cons_append]
    exact Or.inr ⟨_, Or.inl rfl⟩

theorem parseValue_bracket (fmt : NumberFormat) (fuel indent : Nat) (c : Char)
    (tail : List Char) (hsp : isJsonSpace c = false) (hc : c ≠ ']') :
    parseValue fmt (fuel + 1) ('[' :: (newline indent ++ (c :: tail)))
      = match parseValue fmt fuel (c :: tail) with
        | none => none
        | some (v, rest2) =>
          match parseItemsTail fmt fuel rest2 with
          | none => none
          | some (vs, rest3) => some (.arr (v :: vs), rest3) := by
  rw [parseValue]
  have h0 : isJsonSpace '[' = false := by decide
  simp only [skipSpace_cons_of_not_space _ _ h0, skipSpace_newline,
    skipSpace_cons_of_not_space _ _ hsp]
  simp [hc]

theorem parseValue_brace (fmt : NumberFormat) (fuel indent : Nat) (c : Char)
    (tail : List Char) (hsp : isJsonSpace c = false) (hc : c ≠ '\x7d') :
    parseValue fmt (fuel + 1) ('\x7b' :: (newline indent ++ (c :: tail)))
      = match parseMember fmt fuel (c :: tail) with
        | none => none
        | some (m, rest2) =>
          match parseMembersTail fmt fuel rest2 with
          | none => none
          | some (ms, rest3) => some (.obj (buildObject (m :: ms)), rest3) := by
  rw [parseValue]
  have h0 : isJsonSpace '\x7b' = false := by decide
  simp only [skipSpace_cons_of_not_space _ _ h0, skipSpace_newline,
    skipSpace_cons_of_not_space _ _ hsp]
  simp [hc]

theorem parseValue_number (fmt : NumberFormat) (fuel : Nat) (c : Char)
    (tail : List Char) (hc : c = '-' ∨ c.isDigit = true) :
    parseValue fmt (fuel + 1) (c :: tail)
      = match fmt.parse (c :: tail) with
        | some (x, rest1) => some (.num x, rest1)
        | none => none := by
  rw [parseValue]
  simp only [skipSpace_cons_of_not_space _ _ (isDigit_not_space c hc)]
  have h1 := isDigit_ne c 'n' hc (by decide) (by decide)
  have h2 := isDigit_ne c 't' hc (by decide) (by decide)
  have h3 := isDigit_ne c 'f' hc (by decide) (by decide)
  have h4 := isDigit_ne c '"' hc (by decide) (by decide)
  have h5 := isDigit_ne c '[' hc (by decide) (by decide)
  have h6 := isDigit_ne c '\x7b' hc (by decide) (by decide)
  simp only [h1, h2, h3, h4, h5, h6, if_false]

theorem parseMember_quote (fmt : NumberFormat) (fuel : Nat) (k : String)
    (rest : List Char) :
    parseMember fmt (fuel + 1) (quoteJson k ++ (':' :: ' ' :: rest))
      = match parseValue fmt fuel (' ' :: rest) with
        | none => none
        | some (v, rest3) => some ((k, v), rest3) := by
  obtain ⟨tail, htail, hparse⟩ := parse_quoteJson k (':' :: ' ' :: rest)
  rw [htail, parseMember]
  have h0 : isJsonSpace '"' = false := by decide
  have h1 : isJsonSpace ':' = false := by decide
  simp only [skipSpace_cons_of_not_space _ _ h0, if_true, hparse,
    skipSpace_cons_of_not_space _ _ h1]

theorem parseValue_space (fmt : NumberFormat) (fuel : Nat) (rest : List Char) :
    parseValue fmt fuel (' ' :: rest) = parseValue fmt fuel rest := by
  cases fuel with
  | zero => simp [parseValue]
  | succ f =>
    rw [parseValue, parseValue]
    have hs : isJsonSpace ' ' = true := by decide
    simp only [skipSpace, List.dropWhile_cons, hs, if_true]

theorem parseValue_newline (fmt : NumberFormat) (fuel indent : Nat) (rest : List Char) :
    parseValue fmt fuel (newline indent ++ rest) = parseValue fmt fuel rest := by
  cases fuel with
  | zero => simp [parseValue]
  | succ f =>
    rw [parseValue, parseValue, skipSpace_newline]

theorem parseMember_newline (fmt : NumberFormat) (fuel indent : Nat) (rest : List Char) :
    parseMember fmt fuel (newline indent ++ rest) = parseMember fmt fuel rest := by
  cases fuel with
  | zero => simp [parseMember]
  | succ f =>
    rw [parseMember, parseMember, skipSpace_newline]

theorem parseItemsTail_close (fmt : NumberFormat) (fuel closing : Nat) (rest : List Char) :
    parseItemsTail fmt (fuel + 1) (newline closing ++ (']' :: rest)) = some ([], rest) := by
  rw [parseItemsTail, skipSpace_newline]
  have h0 : isJsonSpace ']' = false := by decide
  simp only [skipSpace_cons_of_not_space _ _ h0, if_true]

theorem parseItemsTail_comma (fmt : NumberFormat) (fuel : Nat) (rest : List Char) :
    parseItemsTail fmt (fuel + 1) (',' :: rest)
      = match parseValue fmt fuel rest with
        | none => none
        | some (v, rest1) =>
          match parseItemsTail fmt fuel rest1 with
          | none => none
          | some (vs, rest2) => some (v :: vs, rest2) := by
  rw [parseItemsTail]
  have h0 : isJsonSpace ',' = false := by decide
  have h1 : (',' : Char) ≠ ']' := by decide
  simp only [skipSpace_cons_of_not_space _ _ h0, h1, if_false, if_true]

theorem parseMembersTail_close (fmt : NumberFormat) (fuel closing : Nat)
    (rest : List Char) :
    parseMembersTail fmt (fuel + 1) (newline closing ++ ('\x7d' :: rest))
      = some ([], rest) := by
  rw [parseMembersTail, skipSpace_newline]
  have h0 : isJsonSpace '\x7d' = false := by decide
  simp only [skipSpace_cons_of_not_space _ _ h0, if_true]

theorem parseMembersTail_comma (fmt : NumberFormat) (fuel : Nat) (rest : List Char) :
    parseMembersTail fmt (fuel + 1) (',' :: rest)
      = match parseMember fmt fuel rest with
        | none => none
        | some (m, rest1) =>
          match parseMembersTail fmt fuel rest1 with
          | none => none
          | some (ms, rest2) => some (m :: ms, rest2) := by
  rw [parseMembersTail]
  have h0 : isJsonSpace ',' = false := by decide
  have h1 : (',' : Char) ≠ '\x7d' := by decide
  simp only [skipSpace_cons_of_not_space _ _ h0, h1, if_false, if_true]

theorem fuel_succ (n fuel : Nat) (h : n < fuel) : ∃ f, fuel = f + 1 :=
  Nat.exists_eq_succ_of_ne_zero (by omega)

mutual
/-- Reading back the text of a value: `parseValue` returns the value and what followed
it. -/
theorem parseValue_printValue (fmt : NumberFormat) (gap : Nat) :
    ∀ (v : Json) (indent fuel : Nat) (rest : List Char),
      v.size < fuel → v.WellFormed → (∀ x ∈ v.numbers, fmt.RoundTrips x) → TokenEnd rest →
      parseValue fmt fuel (printValue fmt gap indent v ++ rest) = some (v, rest)
  | .null, indent, fuel, rest, hfuel, _, _, _ => by
    obtain ⟨f, rfl⟩ := fuel_succ _ _ hfuel
    simp [printValue, parseValue, skipSpace, isJsonSpace]
  | .bool true, indent, fuel, rest, hfuel, _, _, _ => by
    obtain ⟨f, rfl⟩ := fuel_succ _ _ hfuel
    simp [printValue, parseValue, skipSpace, isJsonSpace]
  | .bool false, indent, fuel, rest, hfuel, _, _, _ => by
    obtain ⟨f, rfl⟩ := fuel_succ _ _ hfuel
    simp [printValue, parseValue, skipSpace, isJsonSpace]
  | .num x, indent, fuel, rest, hfuel, _, hnum, hend => by
    obtain ⟨f, rfl⟩ := fuel_succ _ _ hfuel
    obtain ⟨⟨c, tail, hprint, hc⟩, hparse⟩ := hnum x (by simp [Json.numbers])
    have hp := hparse rest hend
    simp only [printValue]
    rw [hprint] at hp ⊢
    rw [List.cons_append] at hp ⊢
    rw [parseValue_number fmt f c _ hc, hp]
  | .str s, indent, fuel, rest, hfuel, _, _, _ => by
    obtain ⟨f, rfl⟩ := fuel_succ _ _ hfuel
    obtain ⟨tail, htail, hparse⟩ := parse_quoteJson s rest
    simp only [printValue]
    rw [htail, parseValue]
    have h0 : isJsonSpace '"' = false := by decide
    simp [skipSpace_cons_of_not_space _ _ h0, hparse]
  | .arr [], indent, fuel, rest, hfuel, _, _, _ => by
    obtain ⟨f, rfl⟩ := fuel_succ _ _ hfuel
    simp [printValue, parseValue, skipSpace, isJsonSpace]
  | .arr (v :: vs), indent, fuel, rest, hfuel, hwf, hnum, _ => by
    obtain ⟨f, rfl⟩ := fuel_succ _ _ hfuel
    simp only [Json.size, Json.sizeItems] at hfuel
    simp only [Json.WellFormed, Json.WellFormedItems] at hwf
    have hnv : ∀ x ∈ v.numbers, fmt.RoundTrips x :=
      fun x hx => hnum x (by simp [Json.numbers, Json.numbersItems, hx])
    have hnvs : ∀ x ∈ Json.numbersItems vs, fmt.RoundTrips x :=
      fun x hx => hnum x (by simp [Json.numbers, Json.numbersItems, hx])
    have hv := parseValue_printValue fmt gap v (indent + gap) f
      (printItems fmt gap (indent + gap) vs ++ (newline indent ++ (']' :: rest)))
      (by omega) hwf.1 hnv (tokenEnd_printItems _ _ _ _ _ _)
    have hvs := parseItemsTail_printItems fmt gap vs (indent + gap) indent f rest
      (by omega) hwf.2 hnvs
    obtain ⟨c, tail, hhead, hsp, hbr, _⟩ := printValue_head fmt gap (indent + gap) v hnv
    have htext : printValue fmt gap indent (.arr (v :: vs)) ++ rest
        = '[' :: (newline (indent + gap) ++ (printValue fmt gap (indent + gap) v
            ++ (printItems fmt gap (indent + gap) vs
              ++ (newline indent ++ (']' :: rest))))) := by
      simp [printValue]
    rw [htext]
    rw [hhead] at hv ⊢
    rw [List.cons_append] at hv ⊢
    rw [parseValue_bracket fmt f _ c _ hsp hbr, hv]
    simp only [hvs]
  | .obj [], indent, fuel, rest, hfuel, _, _, _ => by
    obtain ⟨f, rfl⟩ := fuel_succ _ _ hfuel
    simp [printValue, parseValue, skipSpace, isJsonSpace]
  | .obj ((k, v) :: ms), indent, fuel, rest, hfuel, hwf, hnum, _ => by
    obtain ⟨f, rfl⟩ := fuel_succ _ _ hfuel
    simp only [Json.size, Json.sizeMembers] at hfuel
    obtain ⟨f2, rfl⟩ := fuel_succ 0 f (by omega)
    simp only [Json.WellFormed, Json.WellFormedMembers] at hwf
    have hnv : ∀ x ∈ v.numbers, fmt.RoundTrips x :=
      fun x hx => hnum x (by simp [Json.numbers, Json.numbersMembers, hx])
    have hnms : ∀ x ∈ Json.numbersMembers ms, fmt.RoundTrips x :=
      fun x hx => hnum x (by simp [Json.numbers, Json.numbersMembers, hx])
    have hv := parseValue_printValue fmt gap v (indent + gap) f2
      (printMembers fmt gap (indent + gap) ms ++ (newline indent ++ ('\x7d' :: rest)))
      (by omega) hwf.2.1 hnv (tokenEnd_printMembers _ _ _ _ _ _)
    have hms := parseMembersTail_printMembers fmt gap ms (indent + gap) indent (f2 + 1) rest
      (by omega) hwf.2.2 hnms
    have htext : printValue fmt gap indent (.obj ((k, v) :: ms)) ++ rest
        = '\x7b' :: (newline (indent + gap) ++ (quoteJson k ++ (':' :: ' ' ::
            (printValue fmt gap (indent + gap) v
              ++ (printMembers fmt gap (indent + gap) ms
                ++ (newline indent ++ ('\x7d' :: rest))))))) := by
      simp [printValue]
    have hq : quoteJson k ++ (':' :: ' ' :: (printValue fmt gap (indent + gap) v
              ++ (printMembers fmt gap (indent + gap) ms
                ++ (newline indent ++ ('\x7d' :: rest)))))
        = '"' :: (k.data.flatMap escapeChar ++ ('"' :: ':' :: ' ' ::
            (printValue fmt gap (indent + gap) v
              ++ (printMembers fmt gap (indent + gap) ms
                ++ (newline indent ++ ('\x7d' :: rest)))))) := by
      simp [quoteJson]
    have hmember := parseMember_quote fmt f2 k (printValue fmt gap (indent + gap) v
              ++ (printMembers fmt gap (indent + gap) ms
                ++ (newline indent ++ ('\x7d' :: rest))))
    rw [parseValue_space, hv] at hmember
    rw [htext]
    rw [hq] at hmember ⊢
    rw [parseValue_brace fmt (f2 + 1) _ '"' _ (by decide) (by decide), hmember]
    simp only [hms]
    rw [buildObject_of_nodup _ hwf.1]
/-- Reading back the items of an array after the first, up to the closing bracket. -/
theorem parseItemsTail_printItems (fmt : NumberFormat) (gap : Nat) :
    ∀ (vs : List Json) (indent closing fuel : Nat) (rest : List Char),
      Json.sizeItems vs < fuel → Json.WellFormedItems vs →
      (∀ x ∈ Json.numbersItems vs, fmt.RoundTrips x) →
      parseItemsTail fmt fuel
          (printItems fmt gap indent vs ++ (newline closing ++ (']' :: rest)))
        = some (vs, rest)
  | [], indent, closing, fuel, rest, hfuel, _, _ => by
    obtain ⟨f, rfl⟩ := fuel_succ _ _ hfuel
    simp only [printItems, List.nil_append]
    exact parseItemsTail_close fmt f closing rest
  | v :: vs, indent, closing, fuel, rest, hfuel, hwf, hnum => by
    obtain ⟨f, rfl⟩ := fuel_succ _ _ hfuel
    simp only [Json.sizeItems] at hfuel
    simp only [Json.WellFormedItems] at hwf
    have hnv : ∀ x ∈ v.numbers, fmt.RoundTrips x :=
      fun x hx => hnum x (by simp [Json.numbersItems, hx])
    have hnvs : ∀ x ∈ Json.numbersItems vs, fmt.RoundTrips x :=
      fun x hx => hnum x (by simp [Json.numbersItems, hx])
    have hv := parseValue_printValue fmt gap v indent f
      (printItems fmt gap indent vs ++ (newline closing ++ (']' :: rest)))
      (by omega) hwf.1 hnv (tokenEnd_printItems _ _ _ _ _ _)
    have hvs := parseItemsTail_printItems fmt gap vs indent closing f rest
      (by omega) hwf.2 hnvs
    have htext : printItems fmt gap indent (v :: vs) ++ (newline closing ++ (']' :: rest))
        = ',' :: (newline indent ++ (printValue fmt gap indent v
            ++ (printItems fmt gap indent vs ++ (newline closing ++ (']' :: rest))))) := by
      simp [printItems]
    rw [htext, parseItemsTail_comma, parseValue_newline, hv]
    simp only [hvs]
/-- Reading back the members of an object after the first, up to the closing brace. -/
theorem parseMembersTail_printMembers (fmt : NumberFormat) (gap : Nat) :
    ∀ (ms : List (String × Json)) (indent closing fuel : Nat) (rest : List Char),
      Json.sizeMembers ms < fuel → Json.WellFormedMembers ms →
      (∀ x ∈ Json.numbersMembers ms, fmt.RoundTrips x) →
      parseMembersTail fmt fuel
          (printMembers fmt gap indent ms ++ (newline closing ++ ('\x7d' :: rest)))
        = some (ms, rest)
  | [], indent, closing, fuel, rest, hfuel, _, _ => by
    obtain ⟨f, rfl⟩ := fuel_succ _ _ hfuel
    simp only [printMembers, List.nil_append]
    exact parseMembersTail_close fmt f closing rest
  | (k, v) :: ms, indent, closing, fuel, rest, hfuel, hwf, hnum => by
    obtain ⟨f, rfl⟩ := fuel_succ _ _ hfuel
    simp only [Json.sizeMembers] at hfuel
    obtain ⟨f2, rfl⟩ := fuel_succ 0 f (by omega)
    simp only [Json.WellFormedMembers] at hwf
    have hnv : ∀ x ∈ v.numbers, fmt.RoundTrips x :=
      fun x hx => hnum x (by simp [Json.numbersMembers, hx])
    have hnms : ∀ x ∈ Json.numbersMembers ms, fmt.RoundTrips x :=
      fun x hx => hnum x (by simp [Json.numbersMembers, hx])
    have hv := parseValue_printValue fmt gap v indent f2
      (printMembers fmt gap indent ms ++ (newline closing ++ ('\x7d' :: rest)))
      (by omega) hwf.1 hnv (tokenEnd_printMembers _ _ _ _ _ _)
    have hms := parseMembersTail_printMembers fmt gap ms indent closing (f2 + 1) rest
      (by omega) hwf.2 hnms
    have htext : printMembers fmt gap indent ((k, v) :: ms)
          ++ (newline closing ++ ('\x7d' :: rest))
        = ',' :: (newline indent ++ (quoteJson k ++ (':' :: ' ' ::
            (printValue fmt gap indent v
              ++ (printMembers fmt gap indent ms
                ++ (newline closing ++ ('\x7d' :: rest))))))) := by
      simp [printMembers]
    have hmember := parseMember_quote fmt f2 k (printValue fmt gap indent v
              ++ (printMembers fmt gap indent ms
                ++ (newline closing ++ ('\x7d' :: rest))))
    rw [parseValue_space, hv] at hmember
    rw [htext, parseMembersTail_comma, parseMember_newline, hmember]
    simp only [hms]
end

mutual
theorem size_le_length (fmt : NumberFormat) (gap : Nat) :
    ∀ (v : Json) (indent : Nat), (∀ x ∈ v.numbers, fmt.RoundTrips x) →
      v.size ≤ (printValue fmt gap indent v).length
  | .null, _, _ => by simp [Json.size, printValue]
  | .bool true, _, _ => by simp [Json.size, printValue]
  | .bool false, _, _ => by simp [Json.size, printValue]
  | .num x, _, hnum => by
    obtain ⟨⟨c, tail, hprint, _⟩, _⟩ := hnum x (by simp [Json.numbers])
    simp [Json.size, printValue, hprint]
  | .str s, _, _ => by simp [Json.size, printValue, quoteJson]
  | .arr [], _, _ => by simp [Json.size, Json.sizeItems, printValue]
  | .arr (v :: vs), indent, hnum => by
    have hv := size_le_length fmt gap v (indent + gap)
      (fun x hx => hnum x (by simp [Json.numbers, Json.numbersItems, hx]))
    have hvs := sizeItems_le_length fmt gap vs (indent + gap)
      (fun x hx => hnum x (by simp [Json.numbers, Json.numbersItems, hx]))
    simp only [Json.size, Json.sizeItems, printValue, newline, List.length_cons,
      List.length_append, List.length_replicate, List.length_nil]
    omega
  | .obj [], _, _ => by simp [Json.size, Json.sizeMembers, printValue]
  | .obj ((k, v) :: ms), indent, hnum => by
    have hv := size_le_length fmt gap v (indent + gap)
      (fun x hx => hnum x (by simp [Json.numbers, Json.numbersMembers, hx]))
    have hms := sizeMembers_le_length fmt gap ms (indent + gap)
      (fun x hx => hnum x (by simp [Json.numbers, Json.numbersMembers, hx]))
    simp only [Json.size, Json.sizeMembers, printValue, newline, quoteJson,
      List.length_cons, List.length_append, List.length_replicate, List.length_nil]
    omega
theorem sizeItems_le_length (fmt : NumberFormat) (gap : Nat) :
    ∀ (vs : List Json) (indent : Nat), (∀ x ∈ Json.numbersItems vs, fmt.RoundTrips x) →
      Json.sizeItems vs ≤ (printItems fmt gap indent vs).length
  | [], _, _ => by simp [Json.sizeItems]
  | v :: vs, indent, hnum => by
    have hv := size_le_length fmt gap v indent
      (fun x hx => hnum x (by simp [Json.numbersItems, hx]))
    have hvs := sizeItems_le_length fmt gap vs indent
      (fun x hx => hnum x (by simp [Json.numbersItems, hx]))
    simp only [Json.sizeItems, printItems, newline, List.length_cons,
      List.length_append, List.length_replicate]
    omega
theorem sizeMembers_le_length (fmt : NumberFormat) (gap : Nat) :
    ∀ (ms : List (String × Json)) (indent : Nat),
      (∀ x ∈ Json.numbersMembers ms, fmt.RoundTrips x) →
      Json.sizeMembers ms ≤ (printMembers fmt gap indent ms).length
  | [], _, _ => by simp [Json.sizeMembers]
  | (k, v) :: ms, indent, hnum => by
    have hv := size_le_length fmt gap v indent
      (fun x hx => hnum x (by simp [Json.numbersMembers, hx]))
    have hms := sizeMembers_le_length fmt gap ms indent
      (fun x hx => hnum x (by simp [Json.numbersMembers, hx]))
    simp only [Json.sizeMembers, printMembers, newline, quoteJson, List.length_cons,
      List.length_append, List.length_replicate, List.length_nil]
    omega
end

/-- Parsing the text `JSON.stringify` gives for a value gives the value back. -/
theorem jsonParse_jsonStringify (fmt : NumberFormat) (gap : Nat) (v : Json)
    (hwf : v.WellFormed) (hnum : ∀ x ∈ v.numbers, fmt.RoundTrips x) :
    jsonParse fmt (jsonStringify fmt gap v) = some v := by
  have hsize := size_le_length fmt gap v 0 hnum
  have hparse := parseValue_printValue fmt gap v 0 ((printValue fmt gap 0 v).length + 1) []
    (by omega) hwf hnum (Or.inl rfl)
  rw [List.append_nil] at hparse
  have hlen : (jsonStringify fmt gap v).length = (printValue fmt gap 0 v).length := by
    simp [jsonStringify, String.length]
  have hdata : (jsonStringify fmt gap v).data = printValue fmt gap 0 v := rfl
  simp only [jsonParse, hlen, hdata, hparse]
  simp [skipSpace]

/-- C11. The object `exportData` serialises has exactly the four properties `resumes`,
`jobs`, `stats` and `exportedAt`, in this order; for every state whose three values are
JSON values (objects with distinct property names; numbers whose text the platform reads
back as the same number), parsing the serialised text gives an object with the same four
properties, whose `resumes`, `jobs` and `stats` are the values in memory; and two exports
of the same state at different times differ in `exportedAt` only. -/
theorem exportData_round_trip (fmt : NumberFormat) (resumes jobs stats : Json)
    (now : String)
    (hresumes : resumes.WellFormed) (hjobs : jobs.WellFormed) (hstats : stats.WellFormed)
    (hnum : ∀ x ∈ resumes.numbers ++ (jobs.numbers ++ stats.numbers), fmt.RoundTrips x) :
    (exportObject resumes jobs stats now).fieldNames = exportFieldNames
    ∧ (∃ parsed : Json,
        jsonParse fmt (exportText fmt resumes jobs stats now) = some parsed
        ∧ parsed.fieldNames = exportFieldNames
        ∧ parsed.field "resumes" = some resumes
        ∧ parsed.field "jobs" = some jobs
        ∧ parsed.field "stats" = some stats
        ∧ parsed.field "exportedAt" = some (.str now))
    ∧ (∀ later : String,
        (exportObject resumes jobs stats later).field "resumes"
          = (exportObject resumes jobs stats now).field "resumes"
        ∧ (exportObject resumes jobs stats later).field "jobs"
          = (exportObject resumes jobs stats now).field "jobs"
        ∧ (exportObject resumes jobs stats later).field "stats"
          = (exportObject resumes jobs stats now).field "stats") := by
  have hwf : (exportObject resumes jobs stats now).WellFormed := by
    simp only [exportObject, Json.WellFormed, Json.WellFormedMembers]
    exact ⟨by simp, hresumes, hjobs, hstats, trivial, trivial⟩
  have hnumbers : ∀ x ∈ (exportObject resumes jobs stats now).numbers,
      fmt.RoundTrips x := by
    intro x hx
    apply hnum x
    simpa [exportObject, Json.numbers, Json.numbersMembers] using hx
  have hparse := jsonParse_jsonStringify fmt 2 _ hwf hnumbers
  refine ⟨rfl, ⟨exportObject resumes jobs stats now, hparse, rfl, ?_, ?_, ?_, ?_⟩, ?_⟩
  · simp [exportObject, Json.field, List.lookup]
  · simp [exportObject, Json.field, List.lookup]
  · simp [exportObject, Json.field, List.lookup]
  · simp [exportObject, Json.field, List.lookup]
  · intro later
    simp [exportObject, Json.field, List.lookup]

theorem integerFormat_roundTrips_zero : integerFormat.RoundTrips 0 := by
  refine ⟨⟨'0', [], by decide, Or.inr (by decide)⟩, ?_⟩
  intro rest hrest
  have hprint : integerFormat.print 0 = ['0'] := by decide
  rw [hprint]
  rcases hrest with rfl | ⟨tail, rfl | rfl⟩
  · simp [integerFormat, Char.isDigit]
  · simp [integerFormat, Char.isDigit, List.takeWhile, List.dropWhile]
  · simp [integerFormat, Char.isDigit, List.takeWhile, List.dropWhile]

theorem integerFormat_roundTrips_one : integerFormat.RoundTrips 1 := by
  refine ⟨⟨'1', [], by decide, Or.inr (by decide)⟩, ?_⟩
  intro rest hrest
  have hprint : integerFormat.print 1 = ['1'] := by decide
  rw [hprint]
  rcases hrest with rfl | ⟨tail, rfl | rfl⟩
  · simp [integerFormat, Char.isDigit]
  · simp [integerFormat, Char.isDigit, List.takeWhile, List.dropWhile]
  · simp [integerFormat, Char.isDigit, List.takeWhile, List.dropWhile]

/-- Witness for C11: the state with one resume (whose file name contains quotes), no job
and the matching statistics, exported with the integer number format. -/
theorem exportData_round_trip_witness :
    ∃ parsed : Json,
      jsonParse integerFormat
          (exportText integerFormat sampleExportResumes (.arr []) sampleExportStats
            "2024-01-01T00:00:00.000Z") = some parsed
      ∧ parsed.fieldNames = exportFieldNames
      ∧ parsed.field "resumes" = some sampleExportResumes
      ∧ parsed.field "jobs" = some (.arr [])
      ∧ parsed.field "stats" = some sampleExportStats
      ∧ parsed.field "exportedAt" = some (.str "2024-01-01T00:00:00.000Z") :=
  (exportData_round_trip integerFormat sampleExportResumes (.arr []) sampleExportStats
    "2024-01-01T00:00:00.000Z"
    (by simp [sampleExportResumes, Json.WellFormed, Json.WellFormedItems,
          Json.WellFormedMembers])
    (by simp [Json.WellFormed, Json.WellFormedItems])
    (by simp [sampleExportStats, Json.WellFormed, Json.WellFormedMembers])
    (by
      intro x hx
      simp [sampleExportResumes, sampleExportStats, Json.numbers, Json.numbersItems,
        Json.numbersMembers] at hx
      rcases hx with rfl | rfl | rfl <;>
        first
          | exact integerFormat_roundTrips_one
          | exact integerFormat_roundTrips_zero)).2.1

/-! ## The domain bars -/

theorem roundHalfEven_cases (y : ℚ) :
    roundHalfEven y = ⌊y⌋ ∧ y - ⌊y⌋ ≤ 1 / 2
      ∨ roundHalfEven y = ⌊y⌋ + 1 ∧ 1 / 2 ≤ y - ⌊y⌋ := by
  unfold roundHalfEven
  by_cases h1 : y - ⌊y⌋ < 1 / 2
  · exact Or.inl ⟨by rw [if_pos h1], le_of_lt h1⟩
  · by_cases h2 : 1 / 2 < y - ⌊y⌋
    · exact Or.inr ⟨by rw [if_neg h1, if_pos h2], le_of_lt h2⟩
    · have heq : y - ⌊y⌋ = 1 / 2 := le_antisymm (not_lt.mp h2) (not_lt.mp h1)
      by_cases h3 : ⌊y⌋ % 2 = 0
      · exact Or.inl ⟨by rw [if_neg h1, if_neg h2, if_pos h3], le_of_eq heq⟩
      · exact Or.inr ⟨by rw [if_neg h1, if_neg h2, if_neg h3], le_of_eq heq.symm⟩

theorem roundHalfEven_sub_le (y : ℚ) : |(roundHalfEven y : ℚ) - y| ≤ 1 / 2 := by
  have hfl := Int.floor_le y
  have hlt := Int.lt_floor_add_one y
  rw [abs_le]
  rcases roundHalfEven_cases y with ⟨h, hf⟩ | ⟨h, hf⟩
  · rw [h]; constructor <;> linarith
  · rw [h]; push_cast; constructor <;> linarith

theorem roundHalfEven_le_of_le (y : ℚ) (k : ℤ) (h : y ≤ (k : ℚ)) : roundHalfEven y ≤ k := by
  have hfl : ⌊y⌋ ≤ k := Int.floor_le_iff.mpr (by linarith [Int.lt_floor_add_one y, h])
  rcases roundHalfEven_cases y with ⟨hr, _⟩ | ⟨hr, hf⟩
  · rw [hr]; exact hfl
  · rw [hr]
    by_contra hcon
    have hk : ⌊y⌋ = k := by omega
    rw [hk] at hf
    linarith

theorem roundHalfEven_ge_of_ge (y : ℚ) (k : ℤ) (h : (k : ℚ) ≤ y) : k ≤ roundHalfEven y := by
  have hfl : k ≤ ⌊y⌋ := Int.le_floor.mpr h
  rcases roundHalfEven_cases y with ⟨hr, _⟩ | ⟨hr, _⟩
  · rw [hr]; exact hfl
  · rw [hr]; omega

theorem two_zpow_split (e : ℤ) : (2 : ℚ) ^ e = 2 ^ (52 : ℕ) * 2 ^ (e - 52) := by
  have h : e = (52 : ℤ) + (e - 52) := by ring
  conv_lhs => rw [h]
  rw [zpow_add₀ (by norm_num : (2 : ℚ) ≠ 0)]
  norm_num

theorem two_zpow_succ_split (e : ℤ) : (2 : ℚ) ^ (e + 1) = 2 ^ (53 : ℕ) * 2 ^ (e - 52) := by
  have h : e + 1 = (53 : ℤ) + (e - 52) := by ring
  rw [h, zpow_add₀ (by norm_num : (2 : ℚ) ≠ 0)]
  norm_num

/-- The double nearest to a positive number in the normal range: it is positive, within
the relative error `2^(-53)`, it does not exceed any multiple of the spacing that the
number does not exceed, and it is the nearest multiple of the spacing. -/
theorem roundDouble_pos (x : ℚ) (hx : 0 < x) (hlo : (2 : ℚ) ^ (-1022 : ℤ) ≤ x)
    (hhi : x < (2 : ℚ) ^ (1023 : ℤ)) :
    ∃ r : ℚ, roundDouble x = .fin r ∧ 0 < r ∧ |r - x| ≤ x / 2 ^ (53 : ℕ)
      ∧ (∀ k : ℤ, x ≤ (k : ℚ) * 2 ^ (Int.log 2 x - 52)
          → r ≤ (k : ℚ) * 2 ^ (Int.log 2 x - 52))
      ∧ r = (roundHalfEven (x / 2 ^ (Int.log 2 x - 52)) : ℚ) * 2 ^ (Int.log 2 x - 52) := by
  have hb : 1 < (2 : ℕ) := by norm_num
  have hcast : ((2 : ℕ) : ℚ) = 2 := by norm_num
  have hlog_le : (2 : ℚ) ^ Int.log 2 x ≤ x := by
    have := Int.zpow_log_le_self hb hx
    rwa [hcast] at this
  have hlt_log : x < (2 : ℚ) ^ (Int.log 2 x + 1) := by
    have := Int.lt_zpow_succ_log_self hb x
    rwa [hcast] at this
  have he_lo : (-1022 : ℤ) ≤ Int.log 2 x := by
    have := (Int.zpow_le_iff_le_log hb hx (x := -1022)).mp (by rwa [hcast])
    exact this
  have he_hi : Int.log 2 x < 1023 := by
    have := (Int.lt_zpow_iff_log_lt hb hx (x := 1023)).mp (by rwa [hcast])
    exact this
  set e := Int.log 2 x with he
  have hu : (0 : ℚ) < 2 ^ (e - 52) := zpow_pos (by norm_num) _
  set u : ℚ := 2 ^ (e - 52) with hudef
  have hsplit : (2 : ℚ) ^ e = 2 ^ (52 : ℕ) * u := two_zpow_split e
  have hsplit1 : (2 : ℚ) ^ (e + 1) = 2 ^ (53 : ℕ) * u := two_zpow_succ_split e
  have hy_lo : (((2 : ℤ) ^ (52 : ℕ) : ℤ) : ℚ) ≤ x / u := by
    rw [le_div_iff₀ hu]
    have hs := hsplit
    norm_num at hs ⊢
    linarith
  have hy_hi : x / u ≤ (((2 : ℤ) ^ (53 : ℕ) : ℤ) : ℚ) := by
    rw [div_le_iff₀ hu]
    have hs := hsplit1
    norm_num at hs ⊢
    linarith
  have hm_lo := roundHalfEven_ge_of_ge (x / u) _ hy_lo
  have hm_hi := roundHalfEven_le_of_le (x / u) _ hy_hi
  have hm_lo' : ((2 : ℚ) ^ (52 : ℕ)) ≤ (roundHalfEven (x / u) : ℚ) := by
    exact_mod_cast hm_lo
  have hm_hi' : (roundHalfEven (x / u) : ℚ) ≤ (2 : ℚ) ^ (53 : ℕ) := by
    exact_mod_cast hm_hi
  have hr_pos : 0 < (roundHalfEven (x / u) : ℚ) * u :=
    mul_pos (lt_of_lt_of_le (by norm_num) hm_lo') hu
  have hr_hi : (roundHalfEven (x / u) : ℚ) * u ≤ 2 ^ (e + 1) := by
    rw [hsplit1]
    exact mul_le_mul_of_nonneg_right hm_hi' (le_of_lt hu)
  have hno : ¬ ((2 : ℚ) ^ (1024 : ℤ) ≤ |(roundHalfEven (x / u) : ℚ) * u|) := by
    rw [abs_of_pos hr_pos, not_le]
    have h1 : (2 : ℚ) ^ (e + 1) ≤ 2 ^ (1023 : ℤ) :=
      zpow_le_zpow_right₀ (by norm_num) (by omega)
    have h2 : (2 : ℚ) ^ (1023 : ℤ) < 2 ^ (1024 : ℤ) :=
      (zpow_lt_zpow_iff_right₀ (by norm_num)).mpr (by norm_num)
    linarith
  have hval : roundDouble x = .fin ((roundHalfEven (x / u) : ℚ) * u) := by
    unfold roundDouble
    have hmax : max (Int.log 2 |x|) (-1022) = e := by
      rw [abs_of_pos hx]
      exact max_eq_left he_lo
    simp only [ne_of_gt hx, if_false, hmax]
    rw [if_neg hno]
  refine ⟨_, hval, hr_pos, ?_, ?_, rfl⟩
  · have herr := roundHalfEven_sub_le (x / u)
    have hxu : x = x / u * u := by field_simp
    have h1 : |(roundHalfEven (x / u) : ℚ) * u - x|
        = |(roundHalfEven (x / u) : ℚ) - x / u| * u := by
      conv_lhs => rw [hxu]
      rw [← sub_mul, abs_mul, abs_of_pos hu]
      congr 2
      field_simp
    rw [h1]
    have h2 : u ≤ x / 2 ^ (52 : ℕ) := by
      rw [le_div_iff₀ (by norm_num)]
      rw [hsplit] at hlog_le
      linarith
    have h3 : |(roundHalfEven (x / u) : ℚ) - x / u| * u ≤ 1 / 2 * u :=
      mul_le_mul_of_nonneg_right herr (le_of_lt hu)
    have h4 : 1 / 2 * (x / 2 ^ (52 : ℕ)) = x / 2 ^ (53 : ℕ) := by
      norm_num
      ring
    linarith
  · intro k hk
    have hyk : x / u ≤ (k : ℚ) := by
      rw [div_le_iff₀ hu]
      exact hk
    have := roundHalfEven_le_of_le (x / u) k hyk
    exact mul_le_mul_of_nonneg_right (by exact_mod_cast this) (le_of_lt hu)

theorem exists_grid (e : ℤ) (he : e ≤ 52) (c : ℤ) :
    ∃ k : ℤ, (c : ℚ) = (k : ℚ) * 2 ^ (e - 52) := by
  refine ⟨c * 2 ^ (52 - e).toNat, ?_⟩
  have hexp : e - 52 = -(((52 - e).toNat : ℕ) : ℤ) := by
    rw [Int.toNat_of_nonneg (by omega)]
    ring
  rw [hexp, zpow_neg, zpow_natCast]
  push_cast
  have hpos : (0 : ℚ) < 2 ^ (52 - e).toNat := pow_pos (by norm_num) _
  field_simp

theorem log_lt_of_lt (x : ℚ) (hx : 0 < x) (k : ℤ) (h : x < (2 : ℚ) ^ k) :
    Int.log 2 x < k := by
  have hb : 1 < (2 : ℕ) := by norm_num
  have hcast : ((2 : ℕ) : ℚ) = 2 := by norm_num
  exact (Int.lt_zpow_iff_log_lt hb hx (x := k)).mp (by rwa [hcast])

/-- The width of a bar for a count between 1 and the number of records, itself below
`2^32`: a finite number, positive, at most 100, within `100 / 2^52` of the unrounded
`count / totalResumes * 100`. -/
theorem barWidth_bounds (n t : Nat) (hn : 1 ≤ n) (hnt : n ≤ t) (ht : t < 2 ^ 32) :
    ∃ w : ℚ, barWidth (.number n) t = .fin w ∧ 0 < w ∧ w ≤ 100
      ∧ |w - exactWidth n t| ≤ 100 / 2 ^ (52 : ℕ) := by
  have hnq : (1 : ℚ) ≤ (n : ℚ) := by exact_mod_cast hn
  have htq : (0 : ℚ) < (t : ℚ) := by exact_mod_cast (lt_of_lt_of_le hn hnt)
  have hntq : (n : ℚ) ≤ (t : ℚ) := by exact_mod_cast hnt
  have htq2 : (t : ℚ) < 2 ^ (32 : ℕ) := by exact_mod_cast ht
  have hx_pos : (0 : ℚ) < (n : ℚ) / t := div_pos (by linarith) htq
  have hx_le : (n : ℚ) / t ≤ 1 := (div_le_one htq).mpr hntq
  have hx_lo : (1 : ℚ) / 2 ^ (32 : ℕ) ≤ (n : ℚ) / t := by
    rw [div_le_div_iff₀ (by norm_num) htq]
    nlinarith
  have hsmall : (2 : ℚ) ^ (-1022 : ℤ) ≤ 1 / 2 ^ (34 : ℕ) := by
    have h1 : (2 : ℚ) ^ (-1022 : ℤ) ≤ 2 ^ (-34 : ℤ) :=
      zpow_le_zpow_right₀ (by norm_num) (by norm_num)
    have h2 : (2 : ℚ) ^ (-34 : ℤ) = 1 / 2 ^ (34 : ℕ) := by
      rw [zpow_neg, one_div]
      norm_cast
    rw [← h2]
    exact h1
  have hbig : (128 : ℚ) ≤ 2 ^ (1023 : ℤ) := by
    have h1 : (2 : ℚ) ^ (7 : ℤ) ≤ 2 ^ (1023 : ℤ) :=
      zpow_le_zpow_right₀ (by norm_num) (by norm_num)
    have h2 : (2 : ℚ) ^ (7 : ℤ) = 128 := by norm_num
    rw [← h2]
    exact h1
  obtain ⟨r, hr, hr_pos, hr_err, hr_grid, _⟩ := roundDouble_pos ((n : ℚ) / t) hx_pos
    (le_trans hsmall (le_trans (by norm_num) hx_lo)) (by linarith)
  have hlog1 : Int.log 2 ((n : ℚ) / t) < 1 :=
    log_lt_of_lt _ hx_pos 1 (by norm_num; linarith)
  obtain ⟨k1, hk1⟩ := exists_grid (Int.log 2 ((n : ℚ) / t)) (by omega) 1
  have hr_le : r ≤ 1 := by
    have := hr_grid k1 (by rw [← hk1]; exact_mod_cast hx_le)
    rw [← hk1] at this
    exact_mod_cast this
  have hr_abs := abs_le.mp hr_err
  have hr_lo : (n : ℚ) / t / 2 ≤ r := by
    have : (n : ℚ) / t / 2 ^ (53 : ℕ) ≤ (n : ℚ) / t / 2 :=
      div_le_div_of_nonneg_left (le_of_lt hx_pos) (by norm_num) (by norm_num)
    linarith [hr_abs.1]
  have hy_pos : (0 : ℚ) < r * 100 := by linarith
  have hy_le : r * 100 ≤ 100 := by linarith
  have hy_lo : (2 : ℚ) ^ (-1022 : ℤ) ≤ r * 100 := by
    have h1 : (1 : ℚ) / 2 ^ (34 : ℕ) ≤ 1 / 2 ^ (32 : ℕ) / 2 * 100 := by norm_num
    have h2 : (1 : ℚ) / 2 ^ (32 : ℕ) / 2 * 100 ≤ r * 100 := by linarith
    exact le_trans hsmall (le_trans h1 h2)
  obtain ⟨w, hw, hw_pos, hw_err, hw_grid, _⟩ := roundDouble_pos (r * 100) hy_pos hy_lo
    (by linarith)
  have hlog2 : Int.log 2 (r * 100) < 7 :=
    log_lt_of_lt _ hy_pos 7 (by norm_num; linarith)
  obtain ⟨k2, hk2⟩ := exists_grid (Int.log 2 (r * 100)) (by omega) 100
  have hw_le : w ≤ 100 := by
    have := hw_grid k2 (by rw [← hk2]; exact_mod_cast hy_le)
    rw [← hk2] at this
    exact_mod_cast this
  refine ⟨w, ?_, hw_pos, hw_le, ?_⟩
  · simp only [barWidth, doubleDiv, ne_eq, ne_of_gt htq, not_false_eq_true, if_true, hr,
      doubleMul, hw]
  · have hw_abs := abs_le.mp hw_err
    have he1 : r * 100 / 2 ^ (53 : ℕ) ≤ 100 / 2 ^ (53 : ℕ) :=
      div_le_div_of_nonneg_right hy_le (by norm_num)
    have he2 : (n : ℚ) / t / 2 ^ (53 : ℕ) ≤ 1 / 2 ^ (53 : ℕ) :=
      div_le_div_of_nonneg_right hx_le (by norm_num)
    have he3 : (100 : ℚ) / 2 ^ (52 : ℕ) = 100 / 2 ^ (53 : ℕ) + 100 * (1 / 2 ^ (53 : ℕ)) := by
      norm_num
    rw [abs_le, exactWidth, he3]
    constructor <;> linarith [hw_abs.1, hw_abs.2, hr_abs.1, hr_abs.2]

theorem roundHalfEven_eq (y : ℚ) (m : ℤ) (h : |y - m| < 1 / 2) : roundHalfEven y = m := by
  have h1 := abs_le.mp (roundHalfEven_sub_le y)
  have h2 := abs_lt.mp h
  have hlt : ((roundHalfEven y : ℤ) : ℚ) < ((m + 1 : ℤ) : ℚ) := by
    push_cast
    linarith [h1.2, h2.2]
  have hgt : ((m - 1 : ℤ) : ℚ) < ((roundHalfEven y : ℤ) : ℚ) := by
    push_cast
    linarith [h1.1, h2.1]
  have hlt' : roundHalfEven y < m + 1 := by exact_mod_cast hlt
  have hgt' : m - 1 < roundHalfEven y := by exact_mod_cast hgt
  omega

/-- The double nearest to a positive number of the binade `[2^e, 2^(e+1))`, given the
integer nearest to the number divided by the spacing of that binade. -/
theorem roundDouble_eq (x : ℚ) (e m : ℤ) (hx : 0 < x) (hlo : (2 : ℚ) ^ e ≤ x)
    (hhi : x < (2 : ℚ) ^ (e + 1)) (he : -1022 ≤ e) (he2 : e < 1022)
    (hm : |x / 2 ^ (e - 52) - m| < 1 / 2) :
    roundDouble x = .fin ((m : ℚ) * 2 ^ (e - 52)) := by
  have hb : 1 < (2 : ℕ) := by norm_num
  have hcast : ((2 : ℕ) : ℚ) = 2 := by norm_num
  have h1 : e ≤ Int.log 2 x :=
    (Int.zpow_le_iff_le_log hb hx (x := e)).mp (by rwa [hcast])
  have h2 : Int.log 2 x < e + 1 := log_lt_of_lt x hx (e + 1) hhi
  have hlog : Int.log 2 x = e := by omega
  have hlo2 : (2 : ℚ) ^ (-1022 : ℤ) ≤ x :=
    le_trans (zpow_le_zpow_right₀ (by norm_num) he) hlo
  have hhi2 : x < (2 : ℚ) ^ (1023 : ℤ) :=
    lt_of_lt_of_le hhi (zpow_le_zpow_right₀ (by norm_num) (by omega))
  obtain ⟨r, hr, _, _, _, hval⟩ := roundDouble_pos x hx hlo2 hhi2
  rw [hr, hval, hlog, roundHalfEven_eq _ m hm]

theorem roundDouble_two_thirds :
    roundDouble (2 / 3) = .fin (6004799503160661 / 9007199254740992) := by
  have h := roundDouble_eq (2 / 3) (-1) 6004799503160661 (by norm_num) (by norm_num)
    (by norm_num) (by norm_num) (by norm_num) (by norm_num [abs_lt])
  rw [h]
  norm_num

theorem roundDouble_one_third :
    roundDouble (1 / 3) = .fin (6004799503160661 / 18014398509481984) := by
  have h := roundDouble_eq (1 / 3) (-2) 6004799503160661 (by norm_num) (by norm_num)
    (by norm_num) (by norm_num) (by norm_num) (by norm_num [abs_lt])
  rw [h]
  norm_num

theorem roundDouble_width_two_thirds :
    roundDouble (6004799503160661 / 9007199254740992 * 100)
      = .fin (2345624805922133 / 35184372088832) := by
  have h := roundDouble_eq (6004799503160661 / 9007199254740992 * 100) 6 4691249611844266
    (by norm_num) (by norm_num) (by norm_num) (by norm_num) (by norm_num)
    (by norm_num [abs_lt])
  rw [h]
  norm_num

theorem roundDouble_width_one_third :
    roundDouble (6004799503160661 / 18014398509481984 * 100)
      = .fin (2345624805922133 / 70368744177664) := by
  have h := roundDouble_eq (6004799503160661 / 18014398509481984 * 100) 5 4691249611844266
    (by norm_num) (by norm_num) (by norm_num) (by norm_num) (by norm_num)
    (by norm_num [abs_lt])
  rw [h]
  norm_num

theorem barWidth_two_of_three :
    barWidth (.number 2) 3 = .fin (2345624805922133 / 35184372088832) := by
  have hq : (((2 : ℕ) : ℚ)) / (((3 : ℕ) : ℚ)) = 2 / 3 := by norm_num
  have hne : (((3 : ℕ) : ℚ)) ≠ 0 := by norm_num
  simp only [barWidth, doubleDiv]
  rw [if_pos hne, hq, roundDouble_two_thirds]
  exact roundDouble_width_two_thirds

theorem barWidth_one_of_three :
    barWidth (.number 1) 3 = .fin (2345624805922133 / 70368744177664) := by
  have hq : (((1 : ℕ) : ℚ)) / (((3 : ℕ) : ℚ)) = 1 / 3 := by norm_num
  have hne : (((3 : ℕ) : ℚ)) ≠ 0 := by norm_num
  simp only [barWidth, doubleDiv]
  rw [if_pos hne, hq, roundDouble_one_third]
  exact roundDouble_width_one_third

theorem threeResumes_bars :
    domainBars (computeStats threeResumes [])
      = [{ domain := "Data", count := .number 2, divisor := 3,
           width := .fin (2345624805922133 / 35184372088832) },
         { domain := "Cloud", count := .number 1, divisor := 3,
           width := .fin (2345624805922133 / 70368744177664) }] := by
  have hd : domainDistribution threeResumes = [("Data", .number 2), ("Cloud", .number 1)] := by
    decide
  have hl : threeResumes.length = 3 := rfl
  simp only [domainBars, computeStats, hd, hl, List.map_cons, List.map_nil,
    barWidth_two_of_three, barWidth_one_of_three]

theorem domainDistribution_counted (data : List Resume)
    (hlabels : ∀ resume ∈ data, domainLabel resume ∉ objectPrototypeNames) :
    (domainDistribution data).Counted
    ∧ countTotal (domainDistribution data) = data.length := by
  induction data using List.reverseRecOn with
  | nil => exact ⟨⟨by simp [domainDistribution], by simp [domainDistribution]⟩, rfl⟩
  | append_singleton data resume ih =>
    obtain ⟨hcounted, htotal⟩ := ih (fun r hr => hlabels r (List.mem_append_left _ hr))
    have hstep := setCount_step (domainDistribution data) (domainLabel resume) hcounted
      (hlabels resume (List.mem_append_right _ (List.mem_singleton_self _)))
    rw [domainDistribution_append]
    exact ⟨hstep.1, by rw [hstep.2, htotal, List.length_append, List.length_singleton]⟩

theorem domainDistribution_lookup (data : List Resume)
    (hlabels : ∀ resume ∈ data, domainLabel resume ∉ objectPrototypeNames)
    (label : String) :
    (domainDistribution data).lookup label
      = if labelCount data label = 0 then none
        else some (.number (labelCount data label)) := by
  induction data using List.reverseRecOn generalizing label with
  | nil => simp [domainDistribution, labelCount]
  | append_singleton data resume ih =>
    have hres : domainLabel resume ∉ objectPrototypeNames :=
      hlabels resume (List.mem_append_right _ (List.mem_singleton_self _))
    have hproto : domainLabel resume ≠ "__proto__" :=
      fun h => hres (h ▸ proto_mem_objectPrototypeNames)
    have ih2 := fun l => ih (fun r hr => hlabels r (List.mem_append_left _ hr)) l
    rw [domainDistribution_append, lookup_setCount _ _ _ _ hproto, labelCount_append]
    by_cases hk : label = domainLabel resume
    · subst hk
      simp only [if_true, getCount, ih2, if_neg hres]
      by_cases hc : labelCount data (domainLabel resume) = 0
      · simp [hc, incrementCount]
      · simp [hc, incrementCount]
    · have hk2 : ¬ domainLabel resume = label := fun h => hk h.symm
      simp only [if_neg hk, if_neg hk2, ih2, Nat.add_zero]

theorem lookup_of_mem_nodup (l : CountObject) (hnodup : (l.map Prod.fst).Nodup)
    (p : String × JSCount) (hp : p ∈ l) : l.lookup p.1 = some p.2 := by
  induction l with
  | nil => simp at hp
  | cons q qs ih =>
    obtain ⟨a, b⟩ := q
    rw [List.map_cons, List.nodup_cons] at hnodup
    rcases List.mem_cons.mp hp with h | h
    · subst h
      simp [List.lookup_cons]
    · have hne : ¬ p.1 = a := by
        intro heq
        have hmem : p.1 ∈ qs.map Prod.fst := List.mem_map_of_mem Prod.fst h
        rw [heq] at hmem
        exact hnodup.1 hmem
      have hb : (p.1 == a) = false := by simpa using hne
      simp only [List.lookup_cons, hb]
      exact ih hnodup.2 h

theorem labelCount_le_length (data : List Resume) (label : String) :
    labelCount data label ≤ data.length :=
  List.length_filter_le _ _

/-- Every own property of the computed distribution is a label with at least one record,
and its value is the number of records under that label. -/
theorem domainDistribution_entry (data : List Resume)
    (hlabels : ∀ resume ∈ data, domainLabel resume ∉ objectPrototypeNames)
    (p : String × JSCount) (hp : p ∈ domainDistribution data) :
    p.2 = .number (labelCount data p.1) ∧ 1 ≤ labelCount data p.1 := by
  have hcounted := (domainDistribution_counted data hlabels).1
  have h1 := lookup_of_mem_nodup _ hcounted.1 p hp
  rw [domainDistribution_lookup data hlabels] at h1
  by_cases hc : labelCount data p.1 = 0
  · simp [hc] at h1
  · rw [if_neg hc] at h1
    exact ⟨(Option.some.inj h1).symm, Nat.one_le_iff_ne_zero.mpr hc⟩

theorem exactWidth_sum (l : CountObject) (t : Nat) :
    (l.map (fun entry => exactWidth entry.2.value t)).sum = exactWidth (countTotal l) t := by
  induction l with
  | nil => simp [exactWidth, countTotal]
  | cons p ps ih =>
    simp only [List.map_cons, List.sum_cons, ih]
    simp only [exactWidth, countTotal, List.map_cons, List.sum_cons]
    push_cast
    ring

theorem exactWidth_self (t : Nat) (ht : t ≠ 0) : exactWidth t t = 100 := by
  have : (t : ℚ) ≠ 0 := by exact_mod_cast ht
  simp [exactWidth, this]

/-- The widths of the bars of a list of entries whose counts lie between 1 and the
divisor: all finite, and their sum differs from the sum of the unrounded widths by at
most `100 / 2^52` per bar. -/
theorem widthSum_bars (l : CountObject) (t : Nat) (ht : t < 2 ^ 32)
    (hl : ∀ p ∈ l, ∃ n : Nat, p.2 = .number n ∧ 1 ≤ n ∧ n ≤ t) :
    ∃ s : ℚ,
      widthSum (l.map (fun entry =>
          ({ domain := entry.1, count := entry.2, divisor := t,
             width := barWidth entry.2 t } : DomainBar))) = some s
      ∧ |s - (l.map (fun entry => exactWidth entry.2.value t)).sum|
          ≤ (l.length : ℚ) * (100 / 2 ^ (52 : ℕ)) := by
  induction l with
  | nil => exact ⟨0, rfl, by simp⟩
  | cons p ps ih =>
    obtain ⟨s, hs, hs_err⟩ := ih (fun q hq => hl q (List.mem_cons_of_mem _ hq))
    obtain ⟨n, hn, hn1, hnt⟩ := hl p (List.mem_cons_self _ _)
    obtain ⟨w, hw, _, _, hw_err⟩ := barWidth_bounds n t hn1 hnt ht
    refine ⟨w + s, ?_, ?_⟩
    · simp only [List.map_cons, widthSum, List.foldr_cons] at hs ⊢
      rw [hs, hn, hw]
    · have hv : p.2.value = n := by rw [hn]; rfl
      simp only [List.map_cons, List.sum_cons, List.length_cons, hv]
      have h1 := abs_le.mp hs_err
      have h2 := abs_le.mp hw_err
      rw [abs_le]
      push_cast
      constructor <;> linarith [h1.1, h1.2, h2.1, h2.2]

theorem computeStats_bar (data : List Resume) (jobsData : List Job)
    (hlabels : ∀ resume ∈ data, domainLabel resume ∉ objectPrototypeNames)
    (hlen : data.length < 2 ^ 32)
    (bar : DomainBar) (hbar : bar ∈ domainBars (computeStats data jobsData)) :
    bar.divisor = data.length ∧ bar.divisor ≠ 0
    ∧ bar.count = .number (labelCount data bar.domain)
    ∧ 1 ≤ labelCount data bar.domain
    ∧ ∃ w : ℚ, bar.width = .fin w ∧ 0 < w ∧ w ≤ 100
        ∧ |w - exactWidth (labelCount data bar.domain) data.length|
            ≤ 100 / 2 ^ (52 : ℕ) := by
  obtain ⟨entry, hentry, rfl⟩ := List.mem_map.mp hbar
  obtain ⟨hcount, hone⟩ := domainDistribution_entry data hlabels entry hentry
  have hle := labelCount_le_length data entry.1
  obtain ⟨w, hw, hw_pos, hw_le, hw_err⟩ :=
    barWidth_bounds (labelCount data entry.1) data.length hone hle hlen
  refine ⟨rfl, ?_, hcount, hone, w, ?_, hw_pos, hw_le, hw_err⟩
  · show data.length ≠ 0
    omega
  · show barWidth entry.2 data.length = .fin w
    rw [hcount]
    exact hw

theorem computeStats_widthSum (data : List Resume) (jobsData : List Job)
    (hlabels : ∀ resume ∈ data, domainLabel resume ∉ objectPrototypeNames)
    (hlen : data.length < 2 ^ 32) (hdata : data ≠ []) :
    exactWidthSum (domainBars (computeStats data jobsData)) = 100
    ∧ ∃ s : ℚ, widthSum (domainBars (computeStats data jobsData)) = some s
        ∧ |s - 100| ≤ ((domainBars (computeStats data jobsData)).length : ℚ)
            * (100 / 2 ^ (52 : ℕ)) := by
  have htotal := (domainDistribution_counted data hlabels).2
  have hne : data.length ≠ 0 := fun h => hdata (List.length_eq_zero.mp h)
  have hexact : ((domainDistribution data).map
      (fun entry => exactWidth entry.2.value data.length)).sum = 100 := by
    rw [exactWidth_sum, htotal, exactWidth_self _ hne]
  have hl : ∀ p ∈ domainDistribution data,
      ∃ n : Nat, p.2 = .number n ∧ 1 ≤ n ∧ n ≤ data.length := by
    intro p hp
    obtain ⟨hcount, hone⟩ := domainDistribution_entry data hlabels p hp
    exact ⟨_, hcount, hone, labelCount_le_length data p.1⟩
  obtain ⟨s, hs, hs_err⟩ := widthSum_bars (domainDistribution data) data.length hlen hl
  rw [hexact] at hs_err
  refine ⟨?_, s, hs, ?_⟩
  · simp only [exactWidthSum, domainBars, computeStats, List.map_map]
    exact hexact
  · simp only [domainBars, computeStats, List.length_map]
    exact hs_err

/-- C21 (amended). In every state the admin view reaches from its initial state by
fetches that succeed or fail, exports and job-taxonomy uploads, with fewer than `2^32`
stored resumes (the bound on the length of an array) none of whose labels is a property
name inherited from `Object.prototype`: every bar divides by `totalResumes`, the number
of stored resumes, which is not 0; the bar of a label is rendered for a label with at
least one record and its count is the number of records under the label; its width is a
finite number greater than 0 and at most 100, within `100 / 2^52` of the unrounded
`count / totalResumes * 100`.  With no stored resume there is no bar, no division is
evaluated, and the line `No domain data available` is shown.  With at least one stored
resume the unrounded widths sum to exactly 100, and the widths themselves sum to 100
up to `100 / 2^52` per bar. -/
theorem domainBars_widths (ops : List AdminOp)
    (hlabels : ∀ resume ∈ (runAdmin ops).resumes, domainLabel resume ∉ objectPrototypeNames)
    (hlen : (runAdmin ops).resumes.length < 2 ^ 32) :
    (∀ bar ∈ domainBars (runAdmin ops).stats,
        bar.divisor = (runAdmin ops).stats.totalResumes
        ∧ bar.divisor = (runAdmin ops).resumes.length
        ∧ bar.divisor ≠ 0
        ∧ bar.count = .number (labelCount (runAdmin ops).resumes bar.domain)
        ∧ 1 ≤ labelCount (runAdmin ops).resumes bar.domain
        ∧ ∃ w : ℚ, bar.width = .fin w ∧ 0 < w ∧ w ≤ 100
            ∧ |w - exactWidth (labelCount (runAdmin ops).resumes bar.domain)
                  (runAdmin ops).resumes.length| ≤ 100 / 2 ^ (52 : ℕ))
    ∧ ((runAdmin ops).resumes = [] →
        domainBars (runAdmin ops).stats = [] ∧ noDomainData (runAdmin ops).stats = true)
    ∧ ((runAdmin ops).resumes ≠ [] →
        noDomainData (runAdmin ops).stats = false
        ∧ exactWidthSum (domainBars (runAdmin ops).stats) = 100
        ∧ ∃ s : ℚ, widthSum (domainBars (runAdmin ops).stats) = some s
            ∧ |s - 100| ≤ ((domainBars (runAdmin ops).stats).length : ℚ)
                * (100 / 2 ^ (52 : ℕ))) := by
  have hstats : (runAdmin ops).stats
      = computeStats (runAdmin ops).resumes (runAdmin ops).jobs :=
    foldl_adminStep_stats_consistent ops AdminState.initial initial_stats_consistent
  rw [hstats]
  refine ⟨?_, ?_, ?_⟩
  · intro bar hbar
    obtain ⟨h1, h2, h3⟩ := computeStats_bar _ (runAdmin ops).jobs hlabels hlen bar hbar
    exact ⟨h1, h1, h2, h3⟩
  · intro hempty
    rw [hempty]
    exact ⟨rfl, rfl⟩
  · intro hdata
    obtain ⟨h1, h2⟩ := computeStats_widthSum _ (runAdmin ops).jobs hlabels hlen hdata
    refine ⟨?_, h1, h2⟩
    have htotal := (domainDistribution_counted _ hlabels).2
    have hne : (domainDistribution (runAdmin ops).resumes) ≠ [] := by
      intro h
      rw [h] at htotal
      exact hdata (List.length_eq_zero.mp htotal.symm)
    simp only [noDomainData, computeStats]
    cases hd : domainDistribution (runAdmin ops).resumes with
    | nil => exact absurd hd hne
    | cons p ps => rfl

/-- Witness for C21 (amended): after a fetch that returns two resumes in the domain
`Data` and one in the domain `Cloud`, the unrounded widths sum to 100. -/
theorem domainBars_widths_witness :
    exactWidthSum (domainBars (runAdmin [.fetch (some threeResumes) (some [])]).stats)
      = 100 :=
  ((domainBars_widths [.fetch (some threeResumes) (some [])] (by decide) (by decide)).2.2
    (by simp [runAdmin, adminStep, fetchData, threeResumes])).2.1

/-- C21 (counterexample). With two resumes in the domain `Data` and one in the domain
`Cloud`, the page sets the widths `66.66666666666666` and `33.33333333333333` (the
doubles `2345624805922133 / 2^45` and `2345624805922133 / 2^46`), which sum to
`100 - 1 / 2^46`, not to 100. -/
theorem domainBars_widths_sum_counterexample :
    (runAdmin [.fetch (some threeResumes) (some [])]).resumes = threeResumes
    ∧ domainBars (runAdmin [.fetch (some threeResumes) (some [])]).stats
      = [{ domain := "Data", count := .number 2, divisor := 3,
           width := .fin (2345624805922133 / 35184372088832) },
         { domain := "Cloud", count := .number 1, divisor := 3,
           width := .fin (2345624805922133 / 70368744177664) }]
    ∧ widthSum (domainBars (runAdmin [.fetch (some threeResumes) (some [])]).stats)
      = some (100 - 1 / 2 ^ (46 : ℕ))
    ∧ widthSum (domainBars (runAdmin [.fetch (some threeResumes) (some [])]).stats)
      ≠ some 100 := by
  have hrun : (runAdmin [.fetch (some threeResumes) (some [])]).stats
      = computeStats threeResumes [] := rfl
  have hsum : widthSum (domainBars (computeStats threeResumes []))
      = some (100 - 1 / 2 ^ (46 : ℕ)) := by
    rw [threeResumes_bars]
    simp only [widthSum, List.foldr_cons, List.foldr_nil]
    norm_num
  rw [hrun]
  refine ⟨rfl, threeResumes_bars, hsum, ?_⟩
  rw [hsum]
  norm_num

/-- The double nearest to a positive number below the normal range: a multiple of the
spacing `2^(-1074)` of the subnormal numbers, at most `2^(-1022)`, within half that
spacing. -/
theorem roundDouble_subnormal (x : ℚ) (hx : 0 < x) (hhi : x < (2 : ℚ) ^ (-1022 : ℤ)) :
    ∃ r : ℚ, roundDouble x = .fin r ∧ 0 ≤ r ∧ r ≤ (2 : ℚ) ^ (-1022 : ℤ)
      ∧ |r - x| ≤ 1 / 2 * (2 : ℚ) ^ ((-1022 : ℤ) - 52)
      ∧ r = (roundHalfEven (x / 2 ^ ((-1022 : ℤ) - 52)) : ℚ) * 2 ^ ((-1022 : ℤ) - 52) := by
  have hlog : Int.log 2 x < -1022 := log_lt_of_lt x hx (-1022) hhi
  have hu : (0 : ℚ) < 2 ^ ((-1022 : ℤ) - 52) := zpow_pos (by norm_num) _
  set u : ℚ := 2 ^ ((-1022 : ℤ) - 52) with hudef
  have hsplit : (2 : ℚ) ^ (-1022 : ℤ) = 2 ^ (52 : ℕ) * u := two_zpow_split (-1022)
  have hy_lo : (((0 : ℤ) : ℤ) : ℚ) ≤ x / u := by
    rw [Int.cast_zero]
    exact le_of_lt (div_pos hx hu)
  have hy_hi : x / u ≤ (((2 : ℤ) ^ (52 : ℕ) : ℤ) : ℚ) := by
    rw [div_le_iff₀ hu]
    have hcast : (((2 : ℤ) ^ (52 : ℕ) : ℤ) : ℚ) = 2 ^ (52 : ℕ) := by norm_cast
    rw [hcast, ← hsplit]
    exact le_of_lt hhi
  have hm_lo := roundHalfEven_ge_of_ge (x / u) _ hy_lo
  have hm_hi := roundHalfEven_le_of_le (x / u) _ hy_hi
  have hm_lo' : (0 : ℚ) ≤ (roundHalfEven (x / u) : ℚ) := by exact_mod_cast hm_lo
  have hm_hi' : (roundHalfEven (x / u) : ℚ) ≤ (2 : ℚ) ^ (52 : ℕ) := by
    exact_mod_cast hm_hi
  have hr_nonneg : 0 ≤ (roundHalfEven (x / u) : ℚ) * u := mul_nonneg hm_lo' (le_of_lt hu)
  have hr_hi : (roundHalfEven (x / u) : ℚ) * u ≤ 2 ^ (-1022 : ℤ) := by
    rw [hsplit]
    exact mul_le_mul_of_nonneg_right hm_hi' (le_of_lt hu)
  have hno : ¬ ((2 : ℚ) ^ (1024 : ℤ) ≤ |(roundHalfEven (x / u) : ℚ) * u|) := by
    rw [abs_of_nonneg hr_nonneg, not_le]
    have h2 : (2 : ℚ) ^ (-1022 : ℤ) < 2 ^ (1024 : ℤ) :=
      (zpow_lt_zpow_iff_right₀ (by norm_num)).mpr (by norm_num)
    exact lt_of_le_of_lt hr_hi h2
  have hval : roundDouble x = .fin ((roundHalfEven (x / u) : ℚ) * u) := by
    unfold roundDouble
    have hmax : max (Int.log 2 |x|) (-1022) = -1022 := by
      rw [abs_of_pos hx]
      exact max_eq_right (le_of_lt hlog)
    simp only [ne_of_gt hx, if_false, hmax]
    rw [if_neg hno]
  refine ⟨_, hval, hr_nonneg, hr_hi, ?_, rfl⟩
  have herr := roundHalfEven_sub_le (x / u)
  have hxu : x = x / u * u := by field_simp
  have h1 : |(roundHalfEven (x / u) : ℚ) * u - x|
      = |(roundHalfEven (x / u) : ℚ) - x / u| * u := by
    conv_lhs => rw [hxu]
    rw [← sub_mul, abs_mul, abs_of_pos hu]
    congr 2
    field_simp
  rw [h1]
  exact mul_le_mul_of_nonneg_right herr (le_of_lt hu)

/-- The double nearest to a number between 0 and a natural number `K` below `2^53`: it
lies between 0 and `K` and is within `K / 2^53` of the number. -/
theorem roundDouble_bounded (x : ℚ) (K : ℕ) (hx0 : 0 ≤ x) (hxK : x ≤ (K : ℚ))
    (hK1 : 1 ≤ K) (hK : K < 2 ^ 53) :
    ∃ r : ℚ, roundDouble x = .fin r ∧ 0 ≤ r ∧ r ≤ (K : ℚ)
      ∧ |r - x| ≤ (K : ℚ) / 2 ^ (53 : ℕ) := by
  have hK1q : (1 : ℚ) ≤ (K : ℚ) := by exact_mod_cast hK1
  have hKq : (K : ℚ) < 2 ^ (53 : ℕ) := by exact_mod_cast hK
  rcases eq_or_lt_of_le hx0 with h0 | hpos
  · refine ⟨0, by rw [← h0]; exact roundDouble_zero, le_refl 0, by linarith, ?_⟩
    rw [← h0, sub_self, abs_zero]
    positivity
  · by_cases hsub : x < (2 : ℚ) ^ (-1022 : ℤ)
    · obtain ⟨r, hr, hr0, hr1, herr, _⟩ := roundDouble_subnormal x hpos hsub
      have h1 : (2 : ℚ) ^ (-1022 : ℤ) ≤ 1 := by
        have := zpow_le_zpow_right₀ (by norm_num : (1 : ℚ) ≤ 2)
          (by norm_num : (-1022 : ℤ) ≤ 0)
        simpa using this
      have h2 : (1 : ℚ) / 2 * 2 ^ ((-1022 : ℤ) - 52) ≤ 1 / 2 ^ (53 : ℕ) := by
        have h3 : (2 : ℚ) ^ ((-1022 : ℤ) - 52) ≤ 2 ^ (-52 : ℤ) :=
          zpow_le_zpow_right₀ (by norm_num) (by norm_num)
        have h4 : (2 : ℚ) ^ (-52 : ℤ) = 2 / 2 ^ (53 : ℕ) := by
          rw [zpow_neg]
          norm_num
        rw [h4] at h3
        linarith
      have h5 : (1 : ℚ) / 2 ^ (53 : ℕ) ≤ (K : ℚ) / 2 ^ (53 : ℕ) :=
        div_le_div_of_nonneg_right hK1q (by norm_num)
      exact ⟨r, hr, hr0, le_trans hr1 (le_trans h1 hK1q), le_trans herr (le_trans h2 h5)⟩
    · have hlo : (2 : ℚ) ^ (-1022 : ℤ) ≤ x := not_lt.mp hsub
      have h53 : (2 : ℚ) ^ (53 : ℤ) = 2 ^ (53 : ℕ) := by norm_cast
      have hx53 : x < (2 : ℚ) ^ (53 : ℤ) := by rw [h53]; linarith
      have hhi : x < (2 : ℚ) ^ (1023 : ℤ) :=
        lt_of_lt_of_le hx53 (zpow_le_zpow_right₀ (by norm_num) (by norm_num))
      obtain ⟨r, hr, hr_pos, herr, hgrid, _⟩ := roundDouble_pos x hpos hlo hhi
      have hlog : Int.log 2 x < 53 := log_lt_of_lt x hpos 53 hx53
      obtain ⟨k, hk⟩ := exists_grid (Int.log 2 x) (by omega) (K : ℤ)
      have hk' : (K : ℚ) = (k : ℚ) * 2 ^ (Int.log 2 x - 52) := by
        rw [← hk]
        norm_cast
      have hr_le : r ≤ (K : ℚ) := by
        have := hgrid k (by rw [← hk']; exact hxK)
        rwa [← hk'] at this
      have h5 : x / 2 ^ (53 : ℕ) ≤ (K : ℚ) / 2 ^ (53 : ℕ) :=
        div_le_div_of_nonneg_right hxK (by norm_num)
      exact ⟨r, hr, le_of_lt hr_pos, hr_le, le_trans herr h5⟩

theorem mathRound_fin (p : ℚ) : mathRound (.fin p) = .fin ((round p : ℤ) : ℚ) := by
  rw [round_eq]
  rfl

theorem percentLabel_eq (x : JSNum) (p : ℚ) (hp : jsMul x (.fin 100) = .fin p)
    (hn : (round p).natAbs < 10 ^ 21) :
    percentLabel x = some (toString (round p) ++ "%") := by
  rw [percentLabel, hp, mathRound_fin, jsNumberToString_int _ hn]
  rfl

theorem round_unit_percent (p : ℚ) (h0 : 0 ≤ p) (h1 : p ≤ 100) :
    0 ≤ round p ∧ round p ≤ 100 := by
  constructor
  · rw [round_eq]
    apply Int.floor_nonneg.mpr
    linarith
  · rw [round_eq]
    have hlt : p + 1 / 2 < ((101 : ℤ) : ℚ) := by push_cast; linarith
    have := Int.floor_lt.mpr hlt
    omega

theorem round_eq_of_abs_lt (p : ℚ) (m : ℤ) (h : |p - (m : ℚ)| < 1 / 2) : round p = m := by
  have h2 := abs_lt.mp h
  rw [round_eq, Int.floor_eq_iff]
  constructor <;> linarith [h2.1, h2.2]

/-- A percentage of a number between 0 and 1: the product with 100 is a double between 0
and 100 within `100 / 2^53` of the exact product, and the text is the nearest integer of
that double, between 0 and 100. -/
theorem percentLabel_unit (q : ℚ) (h0 : 0 ≤ q) (h1 : q ≤ 1) :
    ∃ p : ℚ, jsMul (.fin q) (.fin 100) = .fin p ∧ 0 ≤ p ∧ p ≤ 100
      ∧ |p - q * 100| ≤ 100 / 2 ^ (53 : ℕ)
      ∧ percentLabel (.fin q) = some (toString (round p) ++ "%")
      ∧ 0 ≤ round p ∧ round p ≤ 100 := by
  obtain ⟨p, hp, hp0, hp1, herr⟩ := roundDouble_bounded (q * 100) 100
    (by linarith) (by push_cast; linarith) (by norm_num) (by norm_num)
  have hp1' : p ≤ 100 := by exact_mod_cast hp1
  have herr' : |p - q * 100| ≤ 100 / 2 ^ (53 : ℕ) := by exact_mod_cast herr
  have hmul : jsMul (.fin q) (.fin 100) = .fin p := hp
  obtain ⟨hlo, hhi⟩ := round_unit_percent p hp0 hp1'
  have hsmall : (round p).natAbs < 10 ^ 21 := by
    have : (round p).natAbs ≤ 100 := by omega
    exact lt_of_le_of_lt this (by norm_num)
  exact ⟨p, hmul, hp0, hp1', herr', percentLabel_eq _ p hmul hsmall, hlo, hhi⟩

/-- C14 (amended). For every score in [0,1] the product `score * 100` is a double between
0 and 100 within `100 / 2^53` of the exact product, and the rendered percentage
`Math.round(score * 100)` is an integer between 0 and 100: the integer nearest to that
double, at a tie (fractional part of the double exactly one half) the integer above,
that is, away from zero.  It is within `1/2 + 100 / 2^53` of the exact product, and it
is the integer nearest to the exact product whenever the exact product is farther than
`100 / 2^53` from a tie.  The tier is decided on the unrounded score. -/
theorem percentLabel_rounds_half_up (q : ℚ) (h0 : 0 ≤ q) (h1 : q ≤ 1) :
    ∃ (p : ℚ) (n : ℤ), jsMul (.fin q) (.fin 100) = .fin p
      ∧ 0 ≤ p ∧ p ≤ 100
      ∧ |p - q * 100| ≤ 100 / 2 ^ (53 : ℕ)
      ∧ mathRound (.fin p) = .fin (n : ℚ)
      ∧ percentLabel (.fin q) = some (toString n ++ "%")
      ∧ 0 ≤ n ∧ n ≤ 100
      ∧ |p - (n : ℚ)| ≤ 1 / 2
      ∧ (Int.fract p = 1 / 2 → (n : ℚ) = p + 1 / 2)
      ∧ n = round p
      ∧ |q * 100 - (n : ℚ)| ≤ 1 / 2 + 100 / 2 ^ (53 : ℕ)
      ∧ (∀ m : ℤ, |q * 100 - (m : ℚ)| < 1 / 2 - 100 / 2 ^ (53 : ℕ) → n = m)
      ∧ getScoreColor (.fin q) = (classify (.fin q)).textColor := by
  obtain ⟨p, hmul, hp0, hp1, herr, hlabel, hlo, hhi⟩ := percentLabel_unit q h0 h1
  have htie : Int.fract p = 1 / 2 → ((round p : ℤ) : ℚ) = p + 1 / 2 := by
    intro hfract
    rw [round_eq]
    have hsplit := Int.floor_add_fract p
    have hfloor : (⌊p + 1 / 2⌋ : ℤ) = ⌊p⌋ + 1 := by
      rw [Int.floor_eq_iff]
      push_cast
      constructor <;> linarith
    rw [hfloor]
    push_cast
    linarith
  have htier : getScoreColor (.fin q) = (classify (.fin q)).textColor := by
    unfold getScoreColor classify
    by_cases h8 : jsGe (.fin q) (.fin 0.8) = true
    · simp only [h8, if_true]; rfl
    · by_cases h6 : jsGe (.fin q) (.fin 0.6) = true
      · simp only [h8, h6, if_true]; rfl
      · simp only [h8, h6]; rfl
  have hnear : |p - ((round p : ℤ) : ℚ)| ≤ 1 / 2 := abs_sub_round p
  have herr2 := abs_le.mp herr
  have hnear2 := abs_le.mp hnear
  refine ⟨p, round p, hmul, hp0, hp1, herr, mathRound_fin p, hlabel, hlo, hhi, hnear, htie,
    rfl, ?_, ?_, htier⟩
  · rw [abs_le]
    constructor <;> linarith [herr2.1, herr2.2, hnear2.1, hnear2.2]
  · intro m hm
    have hm2 := abs_lt.mp hm
    apply round_eq_of_abs_lt
    rw [abs_lt]
    constructor <;> linarith [herr2.1, herr2.2, hm2.1, hm2.2]

theorem roundDouble_twelve_and_half : roundDouble (0.125 * 100) = .fin (25 / 2) := by
  have h := roundDouble_eq (0.125 * 100) 3 7036874417766400 (by norm_num) (by norm_num)
    (by norm_num) (by norm_num) (by norm_num) (by norm_num [abs_lt])
  rw [h]
  norm_num

/-- Witness for C14 (amended): the score 0.7999 is rendered as `80%` and classified
Medium; the score 0.125, whose product with 100 is the tie 12.5, is rendered as `13%`. -/
theorem percentLabel_rounds_half_up_witness :
    percentLabel (.fin 0.7999) = some "80%"
    ∧ classify (.fin 0.7999) = .medium
    ∧ getScoreColor (.fin 0.7999) = "text-warning-600"
    ∧ percentLabel (.fin 0.125) = some "13%" := by
  obtain ⟨p, n, _, _, _, _, _, hlabel, _, _, _, _, _, _, huniq, _⟩ :=
    percentLabel_rounds_half_up 0.7999 (by norm_num) (by norm_num)
  have hn : n = 80 := huniq 80 (by norm_num [abs_lt])
  have hmed : classify (.fin 0.7999) = .medium := by
    simp [classify, jsGe]; norm_num
  have h13 : round (25 / 2 : ℚ) = 13 := by
    rw [round_eq, Int.floor_eq_iff]; norm_num
  refine ⟨?_, hmed, ?_, ?_⟩
  · rw [hlabel, hn]; decide
  · simp [getScoreColor, jsGe]; norm_num
  · rw [percentLabel_eq (.fin 0.125) (25 / 2) roundDouble_twelve_and_half
      (by rw [h13]; norm_num), h13]
    decide

theorem roundDouble_score_145 :
    roundDouble (29 / 200) = .fin (5224175567749775 / 36028797018963968) := by
  have h := roundDouble_eq (29 / 200) (-3) 5224175567749775 (by norm_num) (by norm_num)
    (by norm_num) (by norm_num) (by norm_num) (by norm_num [abs_lt])
  rw [h]
  norm_num

theorem roundDouble_product_145 :
    roundDouble (5224175567749775 / 36028797018963968 * 100)
      = .fin (8162774324609023 / 562949953421312) := by
  have h := roundDouble_eq (5224175567749775 / 36028797018963968 * 100) 3 8162774324609023
    (by norm_num) (by norm_num) (by norm_num) (by norm_num) (by norm_num)
    (by norm_num [abs_lt])
  rw [h]
  norm_num

theorem roundDouble_score_015 :
    roundDouble (1080863910568919 / 72057594037927936)
      = .fin (1080863910568919 / 72057594037927936) := by
  have h := roundDouble_eq (1080863910568919 / 72057594037927936) (-7) 8646911284551352
    (by norm_num) (by norm_num) (by norm_num) (by norm_num) (by norm_num)
    (by norm_num [abs_lt])
  rw [h]
  norm_num

theorem roundDouble_product_015 :
    roundDouble (1080863910568919 / 72057594037927936 * 100) = .fin (3 / 2) := by
  have h := roundDouble_eq (1080863910568919 / 72057594037927936 * 100) 0 6755399441055744
    (by norm_num) (by norm_num) (by norm_num) (by norm_num) (by norm_num)
    (by norm_num [abs_lt])
  rw [h]
  norm_num

/-- C14 (counterexample). The score written `0.145` is the double
`5224175567749775 / 2^55`; its product with 100 is the double `14.499999999999998` and
the page renders `14%`, where 0.145 times 100 is the tie 14.5, which rounds away from
zero to 15.  The score written `0.015` is the double `1080863910568919 / 2^56`, below
0.015; its product with 100 is below 1.5 and nearest to 1, but the product in double
precision is 1.5 and the page renders `2%`. -/
theorem percentLabel_exact_product_counterexample :
    roundDouble (29 / 200) = .fin (5224175567749775 / 36028797018963968)
    ∧ percentLabel (.fin (5224175567749775 / 36028797018963968)) = some "14%"
    ∧ Int.fract ((29 / 200 : ℚ) * 100) = 1 / 2
    ∧ round ((29 / 200 : ℚ) * 100) = 15
    ∧ roundDouble (1080863910568919 / 72057594037927936)
        = .fin (1080863910568919 / 72057594037927936)
    ∧ (0 : ℚ) ≤ 1080863910568919 / 72057594037927936
    ∧ (1080863910568919 / 72057594037927936 : ℚ) ≤ 1
    ∧ percentLabel (.fin (1080863910568919 / 72057594037927936)) = some "2%"
    ∧ round ((1080863910568919 / 72057594037927936 : ℚ) * 100) = 1 := by
  have h14 : round (8162774324609023 / 562949953421312 : ℚ) = 14 := by
    rw [round_eq, Int.floor_eq_iff]; norm_num
  have h2 : round (3 / 2 : ℚ) = 2 := by
    rw [round_eq, Int.floor_eq_iff]; norm_num
  refine ⟨roundDouble_score_145, ?_, ?_, ?_, roundDouble_score_015, by norm_num,
    by norm_num, ?_, ?_⟩
  · rw [percentLabel_eq (.fin (5224175567749775 / 36028797018963968)) _ roundDouble_product_145
      (by rw [h14]; norm_num), h14]
    decide
  · rw [Int.fract_eq_iff]
    refine ⟨by norm_num, by norm_num, 14, by norm_num⟩
  · rw [round_eq, Int.floor_eq_iff]; norm_num
  · rw [percentLabel_eq (.fin (1080863910568919 / 72057594037927936)) _ roundDouble_product_015
      (by rw [h2]; norm_num), h2]
    decide
  · rw [round_eq, Int.floor_eq_iff]; norm_num

theorem roundDouble_natCast (j : ℕ) (hj : j < 2 ^ 53) : roundDouble (j : ℚ) = .fin (j : ℚ) := by
  rcases Nat.eq_zero_or_pos j with h0 | hpos
  · subst h0
    simpa using roundDouble_zero
  · have hjq : (1 : ℚ) ≤ (j : ℚ) := by exact_mod_cast hpos
    have hj53 : (j : ℚ) < 2 ^ (53 : ℕ) := by exact_mod_cast hj
    have hx : (0 : ℚ) < (j : ℚ) := by linarith
    have hlo : (2 : ℚ) ^ (-1022 : ℤ) ≤ (j : ℚ) := by
      have := zpow_le_zpow_right₀ (by norm_num : (1 : ℚ) ≤ 2)
        (by norm_num : (-1022 : ℤ) ≤ 0)
      rw [zpow_zero] at this
      linarith
    have h53 : (2 : ℚ) ^ (53 : ℤ) = 2 ^ (53 : ℕ) := by norm_cast
    have hx53 : (j : ℚ) < (2 : ℚ) ^ (53 : ℤ) := by rw [h53]; exact hj53
    have hhi : (j : ℚ) < (2 : ℚ) ^ (1023 : ℤ) :=
      lt_of_lt_of_le hx53 (zpow_le_zpow_right₀ (by norm_num) (by norm_num))
    obtain ⟨r, hr, _, _, _, hval⟩ := roundDouble_pos (j : ℚ) hx hlo hhi
    have hlog : Int.log 2 (j : ℚ) < 53 := log_lt_of_lt _ hx 53 hx53
    obtain ⟨k, hk⟩ := exists_grid (Int.log 2 (j : ℚ)) (by omega) (j : ℤ)
    have hk' : (j : ℚ) = (k : ℚ) * 2 ^ (Int.log 2 (j : ℚ) - 52) := by
      rw [← hk]
      norm_cast
    have hu : (0 : ℚ) < 2 ^ (Int.log 2 (j : ℚ) - 52) := zpow_pos (by norm_num) _
    have hdiv : (j : ℚ) / 2 ^ (Int.log 2 (j : ℚ) - 52) = (k : ℚ) := by
      rw [div_eq_iff (ne_of_gt hu)]
      exact hk'
    have hround : roundHalfEven ((j : ℚ) / 2 ^ (Int.log 2 (j : ℚ) - 52)) = k :=
      roundHalfEven_eq _ k (by rw [hdiv, sub_self, abs_zero]; norm_num)
    rw [hr, hval, hround, ← hk']

theorem scoreStep_eq (a : ℚ) (resume : Resume) :
    jsAdd (.fin a) (.fin (jsOrZero (resume.evaluationResult.bind (·.finalScore))))
      = roundDouble (a + scoreContribution resume) := by
  rw [jsOrZero_finalScore]
  rfl

/-- The partial sums of the score reducer in double precision, for contributions in
[0,1]: finite, at most the number of terms added, and within `N / 2^53` per term of the
exact sum, `N` bounding the number of terms. -/
theorem foldl_jsAdd_bounded (data : List Resume) (N : ℕ) (hN : N < 2 ^ 53)
    (hunit : ∀ resume ∈ data, 0 ≤ scoreContribution resume ∧ scoreContribution resume ≤ 1) :
    ∀ (a : ℚ) (k : ℕ), 0 ≤ a → a ≤ (k : ℚ) → k + data.length ≤ N →
      ∃ r : ℚ,
        data.foldl
            (fun sum resume =>
              jsAdd sum (.fin (jsOrZero (resume.evaluationResult.bind (·.finalScore)))))
            (.fin a) = .fin r
        ∧ 0 ≤ r ∧ r ≤ ((k + data.length : ℕ) : ℚ)
        ∧ |r - (a + (data.map scoreContribution).sum)|
            ≤ (data.length : ℚ) * ((N : ℚ) / 2 ^ (53 : ℕ)) := by
  induction data with
  | nil =>
    intro a k ha0 hak _
    refine ⟨a, rfl, ha0, by simpa using hak, ?_⟩
    simp
  | cons resume rest ih =>
    intro a k ha0 hak hkN
    have hc := hunit resume (List.mem_cons_self _ _)
    have hrest : ∀ r ∈ rest, 0 ≤ scoreContribution r ∧ scoreContribution r ≤ 1 :=
      fun r hr => hunit r (List.mem_cons_of_mem _ hr)
    rw [List.length_cons] at hkN
    obtain ⟨r1, hr1, hr1_0, hr1_k, hr1_err⟩ :=
      roundDouble_bounded (a + scoreContribution resume) (k + 1)
        (by linarith [hc.1]) (by push_cast; linarith [hc.2]) (by omega) (by omega)
    obtain ⟨r, hr, hr0, hrk, hr_err⟩ := ih hrest r1 (k + 1) hr1_0 hr1_k (by omega)
    refine ⟨r, ?_, hr0, ?_, ?_⟩
    · rw [List.foldl_cons, scoreStep_eq, hr1]
      exact hr
    · have : k + 1 + rest.length = k + (resume :: rest).length := by
        rw [List.length_cons]; omega
      rw [← this]
      exact hrk
    · have hstep : ((k + 1 : ℕ) : ℚ) / 2 ^ (53 : ℕ) ≤ (N : ℚ) / 2 ^ (53 : ℕ) := by
        apply div_le_div_of_nonneg_right _ (by norm_num)
        exact_mod_cast (by omega : k + 1 ≤ N)
      have h1 := abs_le.mp hr1_err
      have h2 := abs_le.mp hr_err
      simp only [List.map_cons, List.sum_cons, List.length_cons]
      rw [abs_le]
      push_cast
      constructor <;> linarith [h1.1, h1.2, h2.1, h2.2]

theorem foldl_jsAdd_ones (data : List Resume)
    (hone : ∀ resume ∈ data, scoreContribution resume = 1) :
    ∀ k : ℕ, k + data.length < 2 ^ 53 →
      data.foldl
          (fun sum resume =>
            jsAdd sum (.fin (jsOrZero (resume.evaluationResult.bind (·.finalScore)))))
          (.fin (k : ℚ)) = .fin ((k + data.length : ℕ) : ℚ) := by
  induction data with
  | nil => intro k _; rfl
  | cons resume rest ih =>
    intro k hk
    rw [List.length_cons] at hk
    have hc := hone resume (List.mem_cons_self _ _)
    have hstep : roundDouble ((k : ℚ) + scoreContribution resume) = .fin ((k + 1 : ℕ) : ℚ) := by
      rw [hc]
      have := roundDouble_natCast (k + 1) (by omega)
      push_cast at this ⊢
      exact this
    rw [List.foldl_cons, scoreStep_eq, hstep,
      ih (fun r hr => hone r (List.mem_cons_of_mem _ hr)) (k + 1) (by omega)]
    congr 2
    rw [List.length_cons]
    omega

theorem sum_le_of_mem (l : List ℚ) (hl : ∀ x ∈ l, x ≤ 1) (x : ℚ) (hx : x ∈ l) :
    l.sum ≤ x + ((l.length : ℚ) - 1) := by
  induction l with
  | nil => simp at hx
  | cons y ys ih =>
    have hys : ∀ z ∈ ys, z ≤ 1 := fun z hz => hl z (List.mem_cons_of_mem _ hz)
    simp only [List.sum_cons, List.length_cons]
    push_cast
    rcases List.mem_cons.mp hx with h | h
    · have hsum : ys.sum ≤ (ys.length : ℚ) := by
        clear ih hx hl
        induction ys with
        | nil => simp
        | cons z zs ihz =>
          have hz := hys z (List.mem_cons_self _ _)
          have := ihz (fun w hw => hys w (List.mem_cons_of_mem _ hw))
          simp only [List.sum_cons, List.length_cons]
          push_cast
          linarith
      rw [h]
      linarith
    · have := ih hys h
      have hy := hl y (List.mem_cons_self _ _)
      linarith

theorem roundHalfEven_tie_odd (y : ℚ) (k : ℤ) (hy : y = (k : ℚ) + 1 / 2) (hodd : k % 2 = 1) :
    roundHalfEven y = k + 1 := by
  have hfloor : ⌊y⌋ = k := by
    rw [Int.floor_eq_iff, hy]
    constructor <;> linarith
  have hfrac : y - (⌊y⌋ : ℚ) = 1 / 2 := by
    rw [hfloor, hy]
    ring
  unfold roundHalfEven
  rw [hfrac, if_neg (lt_irrefl _), if_neg (lt_irrefl _), hfloor, if_neg (by omega)]

/-- The double nearest to a positive number of the binade `[2^e, 2^(e+1))`, given the
rounding of the number divided by the spacing of that binade. -/
theorem roundDouble_eq_round (x : ℚ) (e m : ℤ) (hx : 0 < x) (hlo : (2 : ℚ) ^ e ≤ x)
    (hhi : x < (2 : ℚ) ^ (e + 1)) (he : -1022 ≤ e) (he2 : e < 1022)
    (hm : roundHalfEven (x / 2 ^ (e - 52)) = m) :
    roundDouble x = .fin ((m : ℚ) * 2 ^ (e - 52)) := by
  have hb : 1 < (2 : ℕ) := by norm_num
  have hcast : ((2 : ℕ) : ℚ) = 2 := by norm_num
  have h1 : e ≤ Int.log 2 x :=
    (Int.zpow_le_iff_le_log hb hx (x := e)).mp (by rwa [hcast])
  have h2 : Int.log 2 x < e + 1 := log_lt_of_lt x hx (e + 1) hhi
  have hlog : Int.log 2 x = e := by omega
  have hlo2 : (2 : ℚ) ^ (-1022 : ℤ) ≤ x :=
    le_trans (zpow_le_zpow_right₀ (by norm_num) he) hlo
  have hhi2 : x < (2 : ℚ) ^ (1023 : ℤ) :=
    lt_of_lt_of_le hhi (zpow_le_zpow_right₀ (by norm_num) (by omega))
  obtain ⟨r, hr, _, _, _, hval⟩ := roundDouble_pos x hx hlo2 hhi2
  rw [hr, hval, hlog, hm]

theorem roundDouble_below_one :
    roundDouble (9007199254740991 / 9007199254740992)
      = .fin (9007199254740991 / 9007199254740992) := by
  have h := roundDouble_eq (9007199254740991 / 9007199254740992) (-1) 9007199254740991
    (by norm_num) (by norm_num) (by norm_num) (by norm_num) (by norm_num)
    (by norm_num [abs_lt])
  rw [h]
  norm_num

theorem roundDouble_one_plus_below_one :
    roundDouble (1 + 9007199254740991 / 9007199254740992) = .fin 2 := by
  have hm : roundHalfEven ((1 + 9007199254740991 / 9007199254740992 : ℚ) / 2 ^ ((0 : ℤ) - 52))
      = 9007199254740991 + 1 :=
    roundHalfEven_tie_odd _ 9007199254740991 (by norm_num) (by norm_num)
  have h := roundDouble_eq_round (1 + 9007199254740991 / 9007199254740992) 0
    (9007199254740991 + 1) (by norm_num) (by norm_num) (by norm_num) (by norm_num)
    (by norm_num) hm
  rw [h]
  norm_num

theorem scoreSumDouble_nearlyPerfect : scoreSumDouble nearlyPerfectResumes = .fin 2 := by
  have h1 : roundDouble ((0 : ℚ) + 1) = .fin 1 := by
    have := roundDouble_natCast 1 (by norm_num)
    simpa using this
  have hc1 : scoreContribution (Resume.sample none (some 1)) = 1 := by
    simp [scoreContribution, Resume.sample]
  have hc2 : scoreContribution
      (Resume.sample none (some (9007199254740991 / 9007199254740992)))
      = 9007199254740991 / 9007199254740992 := by
    simp [scoreContribution, Resume.sample]
  simp only [scoreSumDouble, nearlyPerfectResumes, List.foldl_cons, List.foldl_nil]
  rw [scoreStep_eq, hc1, h1, scoreStep_eq, hc2, roundDouble_one_plus_below_one]

/-- C20 (amended). When every present `finalScore` lies in [0,1], for every collection of
fewer than `2^32` records (the bound on the length of an array, the empty collection
included) the `avgScore` computed in double precision is a finite number in [0,1], so
the Avg Score card shows an integer percentage between 0 and 100; it is within
`(n + 1) / 2^53` of the exact mean, `n` being the number of records; it is 1 when every
record has an evaluation result whose `finalScore` is 1 and there is a record; and it is
1 only if there is a record and every record contributes (its `finalScore`, 0 when it
has none) at least `1 - n (n + 1) / 2^53`. -/
theorem avgScore_unit_interval (data : List Resume)
    (hrange : ∀ resume ∈ data, ∀ evaluation, resume.evaluationResult = some evaluation →
      ∀ score, evaluation.finalScore = some score → 0 ≤ score ∧ score ≤ 1)
    (hlen : data.length < 2 ^ 32) :
    ∃ q mean : ℚ, avgScoreDouble data = .fin q ∧ 0 ≤ q ∧ q ≤ 1
      ∧ (∃ n : ℤ, percentLabel (avgScoreDouble data) = some (toString n ++ "%")
          ∧ 0 ≤ n ∧ n ≤ 100)
      ∧ avgScore data = .fin mean
      ∧ |q - mean| ≤ ((data.length : ℚ) + 1) / 2 ^ (53 : ℕ)
      ∧ ((∀ resume ∈ data, ∃ evaluation,
            resume.evaluationResult = some evaluation ∧ evaluation.finalScore = some 1) →
          data ≠ [] → q = 1)
      ∧ (q = 1 → data ≠ []
          ∧ ∀ resume ∈ data,
              1 - (data.length : ℚ) * ((data.length : ℚ) + 1) / 2 ^ (53 : ℕ)
                ≤ scoreContribution resume) := by
  have hunit : ∀ resume ∈ data,
      0 ≤ scoreContribution resume ∧ scoreContribution resume ≤ 1 :=
    fun r hr => scoreContribution_unit r (hrange r hr)
  by_cases hne : data = []
  · subst hne
    refine ⟨0, 0, rfl, le_refl 0, by norm_num, ?_, rfl, by norm_num, ?_, ?_⟩
    · exact ⟨0, percentLabel_zero, le_refl 0, by norm_num⟩
    · intro _ h; exact absurd rfl h
    · intro h; exact absurd h (by norm_num)
  · have hpos : 0 < data.length := List.length_pos.mpr hne
    have hn : (0 : ℚ) < (data.length : ℚ) := by exact_mod_cast hpos
    have hn1 : (1 : ℚ) ≤ (data.length : ℚ) := by exact_mod_cast hpos
    have h53 : data.length < 2 ^ 53 := lt_trans hlen (by norm_num)
    obtain ⟨r, hr, hr0, hrn, hr_err⟩ := foldl_jsAdd_bounded data data.length h53 hunit
      0 0 (le_refl 0) (by norm_num) (by omega)
    rw [Nat.zero_add] at hrn
    rw [zero_add] at hr_err
    have hsum : scoreSumDouble data = .fin r := hr
    have hq0 : 0 ≤ r / (data.length : ℚ) := div_nonneg hr0 (le_of_lt hn)
    have hq1 : r / (data.length : ℚ) ≤ ((1 : ℕ) : ℚ) := by
      rw [Nat.cast_one]
      exact (div_le_one hn).mpr hrn
    obtain ⟨q, hq, hq_0, hq_1, hq_err⟩ := roundDouble_bounded (r / (data.length : ℚ)) 1
      hq0 hq1 (le_refl 1) (by norm_num)
    rw [Nat.cast_one] at hq_1 hq_err
    have havgD : avgScoreDouble data = .fin q := by
      simp only [avgScoreDouble, gt_iff_lt, hpos, if_true, hsum, doubleDiv, ne_eq,
        ne_of_gt hn, not_false_eq_true, hq]
    have havg : avgScore data
        = .fin ((data.map scoreContribution).sum / (data.length : ℚ)) := by
      simp only [avgScore, avgScoreEval, gt_iff_lt, hpos, if_true, jsDiv, ne_eq,
        ne_of_gt hn, not_false_eq_true, scoreSum_eq]
    have hr_abs := abs_le.mp hr_err
    have hq_abs := abs_le.mp hq_err
    have hcancel : (data.length : ℚ) * ((data.length : ℚ) / 2 ^ (53 : ℕ)) / (data.length : ℚ)
        = (data.length : ℚ) / 2 ^ (53 : ℕ) := by
      field_simp
      ring
    have hdiv_lo : (data.map scoreContribution).sum / (data.length : ℚ)
        - (data.length : ℚ) / 2 ^ (53 : ℕ) ≤ r / (data.length : ℚ) := by
      rw [← hcancel, ← sub_div]
      exact div_le_div_of_nonneg_right (by linarith [hr_abs.1]) (le_of_lt hn)
    have hdiv_hi : r / (data.length : ℚ)
        ≤ (data.map scoreContribution).sum / (data.length : ℚ)
          + (data.length : ℚ) / 2 ^ (53 : ℕ) := by
      rw [← hcancel, ← add_div]
      exact div_le_div_of_nonneg_right (by linarith [hr_abs.2]) (le_of_lt hn)
    have hmean_err : |q - (data.map scoreContribution).sum / (data.length : ℚ)|
        ≤ ((data.length : ℚ) + 1) / 2 ^ (53 : ℕ) := by
      rw [abs_le, add_div]
      constructor <;> linarith [hq_abs.1, hq_abs.2]
    refine ⟨q, _, havgD, hq_0, hq_1, ?_, havg, hmean_err, ?_, ?_⟩
    · obtain ⟨p, _, _, _, _, hlabel, hlo, hhi⟩ := percentLabel_unit q hq_0 hq_1
      rw [havgD]
      exact ⟨round p, hlabel, hlo, hhi⟩
    · intro hall _
      have hone : ∀ resume ∈ data, scoreContribution resume = 1 := by
        intro resume hmem
        obtain ⟨evaluation, he, hs⟩ := hall resume hmem
        simp [scoreContribution, he, hs]
      have hfold := foldl_jsAdd_ones data hone 0 (by omega)
      rw [Nat.cast_zero, Nat.zero_add] at hfold
      have hsum2 : scoreSumDouble data = .fin (data.length : ℚ) := hfold
      have hself : (data.length : ℚ) / (data.length : ℚ) = ((1 : ℕ) : ℚ) := by
        rw [div_self (ne_of_gt hn), Nat.cast_one]
      have hone' : avgScoreDouble data = .fin ((1 : ℕ) : ℚ) := by
        simp only [avgScoreDouble, gt_iff_lt, hpos, if_true, hsum2, doubleDiv, ne_eq,
          ne_of_gt hn, not_false_eq_true, hself]
        exact roundDouble_natCast 1 (by norm_num)
      rw [havgD, Nat.cast_one] at hone'
      exact JSNum.fin.inj hone'
    · intro hq1
      refine ⟨hne, ?_⟩
      intro resume hmem
      have hmean_abs := abs_le.mp hmean_err
      have hS : (data.length : ℚ) - (data.length : ℚ) * ((data.length : ℚ) + 1) / 2 ^ (53 : ℕ)
          ≤ (data.map scoreContribution).sum := by
        have h1 : 1 - ((data.length : ℚ) + 1) / 2 ^ (53 : ℕ)
            ≤ (data.map scoreContribution).sum / (data.length : ℚ) := by
          linarith [hmean_abs.2]
        have h2 := mul_le_mul_of_nonneg_right h1 (le_of_lt hn)
        rw [div_mul_cancel₀ _ (ne_of_gt hn)] at h2
        have h3 : (1 - ((data.length : ℚ) + 1) / 2 ^ (53 : ℕ)) * (data.length : ℚ)
            = (data.length : ℚ)
              - (data.length : ℚ) * ((data.length : ℚ) + 1) / 2 ^ (53 : ℕ) := by
          ring
        rw [h3] at h2
        exact h2
      have hle := sum_le_of_mem (data.map scoreContribution)
        (by
          intro x hx
          obtain ⟨r', hr', rfl⟩ := List.mem_map.mp hx
          exact (hunit r' hr').2)
        (scoreContribution resume) (List.mem_map.mpr ⟨resume, hmem, rfl⟩)
      rw [List.length_map] at hle
      linarith

/-- Witness for C20 (amended): one record scored 0.8 and one record with no evaluation
result. -/
theorem avgScore_unit_interval_witness :
    ∃ q : ℚ, avgScoreDouble [Resume.sample none (some 0.8), Resume.sample none none] = .fin q
      ∧ 0 ≤ q ∧ q ≤ 1 := by
  obtain ⟨q, _, hq, h0, h1, _⟩ := avgScore_unit_interval
    [Resume.sample none (some 0.8), Resume.sample none none] (by
      intro resume hr evaluation he score hs
      simp only [List.mem_cons, List.mem_singleton, List.not_mem_nil, or_false] at hr
      rcases hr with rfl | rfl
      · simp [Resume.sample, EvaluationResult.empty] at he
        subst he
        simp at hs
        subst hs
        norm_num
      · simp [Resume.sample] at he) (by simp)
  exact ⟨q, hq, h0, h1⟩

/-- C20 (counterexample). Two records, one scored 1 and one scored `1 - 2^(-53)` (the
double `0.9999999999999999`): both scores lie in [0,1], the sum `1 + 0.9999999999999999`
is a tie that rounds to 2, and `avgScore` is exactly 1 although one record is not
scored 1. -/
theorem avgScore_one_counterexample :
    avgScoreDouble nearlyPerfectResumes = .fin 1
    ∧ roundDouble (9007199254740991 / 9007199254740992)
        = .fin (9007199254740991 / 9007199254740992)
    ∧ (∀ resume ∈ nearlyPerfectResumes, ∀ evaluation,
        resume.evaluationResult = some evaluation →
        ∀ score, evaluation.finalScore = some score → 0 ≤ score ∧ score ≤ 1)
    ∧ ¬ (∀ resume ∈ nearlyPerfectResumes, ∃ evaluation,
          resume.evaluationResult = some evaluation ∧ evaluation.finalScore = some 1) := by
  refine ⟨?_, roundDouble_below_one, ?_, ?_⟩
  · have hlen : nearlyPerfectResumes.length = 2 := rfl
    have hdiv : roundDouble ((2 : ℚ) / ((2 : ℕ) : ℚ)) = .fin 1 := by
      have := roundDouble_natCast 1 (by norm_num)
      simpa using this
    simp only [avgScoreDouble, hlen, scoreSumDouble_nearlyPerfect, doubleDiv]
    simpa using hdiv
  · intro resume hr evaluation he score hs
    simp only [nearlyPerfectResumes, List.mem_cons, List.mem_singleton, List.not_mem_nil,
      or_false] at hr
    rcases hr with rfl | rfl
    · simp [Resume.sample, EvaluationResult.empty] at he
      subst he
      simp at hs
      subst hs
      norm_num
    · simp [Resume.sample, EvaluationResult.empty] at he
      subst he
      simp at hs
      subst hs
      norm_num
  · intro hall
    obtain ⟨evaluation, he, hs⟩ := hall
      (Resume.sample none (some (9007199254740991 / 9007199254740992)))
      (by simp [nearlyPerfectResumes])
    simp [Resume.sample, EvaluationResult.empty] at he
    subst he
    simp at hs
    norm_num at hs

end ResumeMapper
